import Mathlib

/-!
# k8s-netpol-ctrl: policy synthesis and reconciliation

A shallow embedding of the Go packages `handlers/attribute`, `handlers/networkpolicy`,
`handlers/object`, `handlers/event` and `config`, followed by theorems about them.

Modelling conventions

* A Go `map[K]V` is an association list with pairwise distinct keys (`GoMap`).  Go leaves the
  iteration order of a map unspecified; here `range` visits the entries in list order and an
  assignment to a new key appends at the end.  A nil map and an empty map are both `[]`.
* A Go pointer to a selector is a `Ptr`: the address it holds together with the value stored
  there.  Go's `==` on `NetworkPolicyPeer` (a struct of three pointers) compares addresses.
  Functions that allocate take the first unused address and return the next one.  The value
  is kept next to the address, so a write through a pointer changes the occurrence it is made
  at; the policies that are written to in place come from a list call, where every peer has
  selectors of its own.
* A function that returns `(T, error)` returns a `Result T`; a run-time panic (index out of
  range, nil dereference) is the third constructor of `Result`, never an `error` value.
* The event handlers are informer callbacks: they range over `Any`, the values an informer
  delivers.  `ConvertToMeta` is exported and ranges over `object.Value`, which adds the nil
  pointers of the four workload types and the apps/v1 objects without selector.
* The cluster is reached through collaborators: `Client` for reads and a write function for the
  mutate calls.  An event handler returns its result together with the mutate calls it issued.
* Objects on the wire (`PeerDoc`, `PolicyDoc`, ...) carry no addresses; `decode` gives a listed
  policy fresh addresses, `encode` is what `ToUnstructured` sends.
-/

namespace NetpolCtrl

/-! ## Go maps -/

/-- Go `map[K]V` as an association list; `range` follows list order. -/
abbrev GoMap (κ ν : Type) := List (κ × ν)

namespace GoMap

variable {κ ν : Type} [DecidableEq κ]

/-- The two-valued lookup `v, ok := m[k]`. -/
def get? : GoMap κ ν → κ → Option ν
  | [], _ => none
  | (k', v) :: m, k => if k' = k then some v else get? m k

/-- The lookup `m[k]`, which yields the zero value `d` for a missing key. -/
def getD (m : GoMap κ ν) (k : κ) (d : ν) : ν :=
  match get? m k with
  | some v => v
  | none => d

/-- The assignment `m[k] = v`. -/
def set : GoMap κ ν → κ → ν → GoMap κ ν
  | [], k, v => [(k, v)]
  | (k', v') :: m, k, v => if k' = k then (k, v) :: m else (k', v') :: set m k v

/-- The statement `m[k] = append(m[k], v)` on a map of slices. -/
def appendTo {τ : Type} (m : GoMap κ (List τ)) (k : κ) (v : τ) : GoMap κ (List τ) :=
  set m k (getD m k [] ++ [v])

/-- The keys of a map, in iteration order. -/
def keys (m : GoMap κ ν) : List κ := m.map Prod.fst

/-- Well-formedness of a map value: no key occurs twice. -/
def WF (m : GoMap κ ν) : Prop := (keys m).Nodup

instance (m : GoMap κ ν) : Decidable (WF m) := by
  unfold WF; infer_instance

end GoMap

/-- Label set `map[string]string`. -/
abbrev Labels := GoMap String String

/-- Label multimap `map[string][]string`. -/
abbrev MultiLabels := GoMap String (List String)

/-! ## Errors and results -/

/-- Go `error` values: the sentinel errors of the packages, fresh errors, wrapped errors and
errors handed back by a collaborator. -/
inductive Error where
  | attrErrNoEnvVars
  | attrErrEmptyParam
  | attrErrResourceNotFound
  | attrErrTypeNotSupported
  | npErrAlreadyExists
  | npErrEmptyParam
  | npErrNotFound
  | objErrTypeNotSupported
  | objErrNotFound
  | new (msg : String)
  | wrap (msg : String) (inner : Error)
  | external (msg : String)
  deriving DecidableEq, Repr

/-- Go `errors.Is(err, target)` for a sentinel `target`: unwraps `%w` chains. -/
def Error.Is : Error → Error → Bool
  | .wrap msg inner, target => decide (Error.wrap msg inner = target) || Error.Is inner target
  | e, target => decide (e = target)

/-- Outcome of a Go call returning `(T, error)`: a value, an error, or a run-time panic. -/
inductive Result (α : Type) where
  | ok (val : α)
  | error (err : Error)
  | panic (msg : String)
  deriving DecidableEq, Repr

/-- The value inside a result, transformed; errors and panics pass through. -/
def Result.map {α β : Type} (f : α → β) : Result α → Result β
  | .ok val => .ok (f val)
  | .error err => .error err
  | .panic msg => .panic msg

/-! ## Kubernetes objects -/

structure LabelSelectorRequirement where
  Key : String
  Operator : String
  Values : List String
  deriving DecidableEq, Repr

/-- The operator `metav1.LabelSelectorOpIn`. -/
def LabelSelectorOpIn : String := "In"

structure LabelSelector where
  MatchLabels : Labels
  MatchExpressions : List LabelSelectorRequirement
  deriving DecidableEq, Repr

structure IPBlock where
  CIDR : String
  Except : List String
  deriving DecidableEq, Repr

/-- A Go pointer: the address it holds and the value stored at that address. -/
structure Ptr (α : Type) where
  addr : Nat
  val : α
  deriving DecidableEq, Repr

/-- Pointer comparison `p == q` on possibly nil pointers. -/
def ptrEq {α : Type} (p q : Option (Ptr α)) : Bool :=
  match p, q with
  | none, none => true
  | some a, some b => decide (a.addr = b.addr)
  | _, _ => false

/-- In-memory `networkingv1.NetworkPolicyPeer`. -/
structure NetworkPolicyPeer where
  PodSelector : Option (Ptr LabelSelector)
  NamespaceSelector : Option (Ptr LabelSelector)
  IPBlock : Option (Ptr IPBlock)
  deriving DecidableEq, Repr

structure NetworkPolicyIngressRule where
  From : List NetworkPolicyPeer
  deriving DecidableEq, Repr

structure NetworkPolicyEgressRule where
  To : List NetworkPolicyPeer
  deriving DecidableEq, Repr

structure NetworkPolicySpec where
  PodSelector : LabelSelector
  Ingress : List NetworkPolicyIngressRule
  Egress : List NetworkPolicyEgressRule
  PolicyTypes : List String
  deriving DecidableEq, Repr

/-- In-memory `networkingv1.NetworkPolicy`. -/
structure NetworkPolicy where
  Name : String
  Namespace : String
  Spec : NetworkPolicySpec
  deriving DecidableEq, Repr

/-- Wire form of a peer. -/
structure PeerDoc where
  PodSelector : Option LabelSelector
  NamespaceSelector : Option LabelSelector
  IPBlock : Option IPBlock
  deriving DecidableEq, Repr

/-- Wire form of a policy: name, namespace, pod selector, peers of each ingress rule, peers of
each egress rule, policy types. -/
structure PolicyDoc where
  Name : String
  Namespace : String
  PodSelector : LabelSelector
  Ingress : List (List PeerDoc)
  Egress : List (List PeerDoc)
  PolicyTypes : List String
  deriving DecidableEq, Repr

structure OwnerReference where
  Kind : String
  Name : String
  deriving DecidableEq, Repr

structure ObjectMeta where
  Name : String
  Namespace : String
  Labels : Labels
  OwnerReferences : List OwnerReference
  deriving DecidableEq, Repr

structure EnvVar where
  Name : String
  Value : String
  deriving DecidableEq, Repr

structure Container where
  Name : String
  Env : List EnvVar
  deriving DecidableEq, Repr

/-- The four workload kinds behind `metav1.Object`, as the API server stores them: `selector` is
the pointee of `Spec.Selector` of the apps/v1 kinds, a field the API requires (an object whose
`Spec.Selector` is nil is an `object.Value.noSelector`); `containers` is `Spec.Containers` of a
Pod and `Spec.Template.Spec.Containers` of the others. -/
inductive Workload where
  | Pod (meta : ObjectMeta) (containers : List Container)
  | Deployment (meta : ObjectMeta) (selector : LabelSelector) (containers : List Container)
  | StatefulSet (meta : ObjectMeta) (selector : LabelSelector) (containers : List Container)
  | DaemonSet (meta : ObjectMeta) (selector : LabelSelector) (containers : List Container)
  deriving DecidableEq, Repr

namespace Workload

def meta : Workload → ObjectMeta
  | Pod m _ => m
  | Deployment m _ _ => m
  | StatefulSet m _ _ => m
  | DaemonSet m _ _ => m

def GetName (w : Workload) : String := w.meta.Name

def GetNamespace (w : Workload) : String := w.meta.Namespace

def GetLabels (w : Workload) : Labels := w.meta.Labels

/-- The method `SetLabels`: replaces the `Labels` field of the metadata. -/
def SetLabels : Workload → Labels → Workload
  | Pod m cs, l => Pod { m with Labels := l } cs
  | Deployment m s cs, l => Deployment { m with Labels := l } s cs
  | StatefulSet m s cs, l => StatefulSet { m with Labels := l } s cs
  | DaemonSet m s cs, l => DaemonSet { m with Labels := l } s cs

end Workload

/-- The `interface{}` value an informer hands to an event handler: nil, one of the four workload
kinds, or a value of any other type (a Service, an Ingress, a string ...), with its metadata when
it is a Kubernetes object. -/
inductive Any where
  | nil
  | workload (w : Workload)
  | other (typeName : String) (meta : Option ObjectMeta)
  deriving DecidableEq, Repr

/-- Namespace of the object behind an `interface{}` value, when it has one. -/
def Any.namespace? : Any → Option String
  | .nil => none
  | .workload w => some w.GetNamespace
  | .other _ m => m.map (fun x => x.Namespace)

/-- A value of interface type `metav1.Object`: a workload, a NetworkPolicy, or any other
Kubernetes object. -/
inductive MetaObject where
  | workload (w : Workload)
  | policy (p : NetworkPolicy)
  | other (typeName : String) (meta : ObjectMeta)
  deriving DecidableEq, Repr

/-! ## Collaborators -/

/-- Failure of a `Get` call: `k8serrors.IsNotFound` holds of `notFound` only. -/
inductive LookupError where
  | notFound
  | other (msg : String)
  deriving DecidableEq, Repr

/-- The read collaborator (`kubernetes.Interface`): `getPod ns name` is
`CoreV1().Pods(ns).Get(name)` and yields the metadata labels of the Pod, `getService ns name` is
`CoreV1().Services(ns).Get(name)` and yields `Spec.Selector`, `listPolicies ns` is
`NetworkingV1().NetworkPolicies(ns).List`. -/
structure Client where
  getPod : String → String → Except LookupError Labels
  getService : String → String → Except LookupError Labels
  listPolicies : String → Except String (List PolicyDoc)

/-! ## Package attribute (imported as attr) -/

/-- Go `==` on a comparable type. -/
class GoEq (α : Type) where
  eq : α → α → Bool

instance : GoEq String := ⟨fun a b => decide (a = b)⟩

/-- The struct `NetworkPolicyPeer` has three fields, all pointers: `==` holds when the three
pointers are equal, whatever the selectors they point to contain. -/
instance : GoEq NetworkPolicyPeer :=
  ⟨fun a b => ptrEq a.PodSelector b.PodSelector && ptrEq a.NamespaceSelector b.NamespaceSelector
    && ptrEq a.IPBlock b.IPBlock⟩

namespace attr

/-- helper function to check if []T contains T -/
def Contains {α : Type} [GoEq α] (elems : List α) (v : α) : Bool :=
  if elems.length = 0 then false
  else elems.any (fun s => GoEq.eq v s)

/-- helper function to check if two maps are equal or not -/
def MapsEqual {κ ν : Type} [DecidableEq κ] [GoEq ν] (a b : GoMap κ ν) : Bool :=
  if a.length ≠ b.length then false
  else a.all (fun kv =>
    match GoMap.get? b kv.1 with
    | some vb => GoEq.eq kv.2 vb
    | none => false)

/-- The character class `[a-zA-Z0-9-]`. -/
def isNameChar (c : Char) : Bool :=
  ('a' ≤ c && c ≤ 'z') || ('A' ≤ c && c ≤ 'Z') || ('0' ≤ c && c ≤ '9') || c = '-'

/-- One alternative `^[a-zA-Z0-9-]+\.[a-zA-Z0-9-]+<tail>$` of the pattern of
`isValidLocalEnvVar`: the class excludes the dot, so the longest run of class characters is the
only possible match of each `+` group. -/
def matchLocal (tail : List Char) (s : List Char) : Bool :=
  let name := s.takeWhile isNameChar
  match s.dropWhile isNameChar with
  | '.' :: r =>
    let ns := r.takeWhile isNameChar
    !name.isEmpty && !ns.isEmpty && decide (r.dropWhile isNameChar = tail)
  | _ => false

/-- regex helper function to check whether the environment variable is a valid cluster.local
env var: name.namespace.svc/pod.cluster.local -/
def isValidLocalEnvVar (s : String) : Bool :=
  matchLocal ".pod.cluster.local".toList s.toList || matchLocal ".svc.cluster.local".toList s.toList

/-- Go `strings.Contains`. -/
def stringsContains (s substr : String) : Bool :=
  s.toList.tails.any (fun t => substr.toList.isPrefixOf t)

/-- Go `strings.Split(s, ".")` on the characters of `s`. -/
def splitDot : List Char → List (List Char)
  | [] => [[]]
  | c :: cs =>
    if c = '.' then [] :: splitDot cs
    else
      match splitDot cs with
      | p :: ps => (c :: p) :: ps
      | [] => [[c]]

/-- appendUnique appends only the unique items from src to dst. -/
def appendUnique (dst src : List String) : List String :=
  let seen : GoMap String Bool := dst.foldl (fun e v => GoMap.set e v true) []
  (src.foldl (fun (acc : List String × GoMap String Bool) v =>
    if !(GoMap.getD acc.2 v false) then (acc.1 ++ [v], GoMap.set acc.2 v true) else acc)
    (dst, seen)).1

/-- MergeLabels merges a variadic number of labels into one -/
def MergeLabels (targetLabels : List MultiLabels) : Result MultiLabels :=
  if targetLabels.length = 0 then .error .attrErrEmptyParam
  else
    .ok (targetLabels.foldl (fun (mergedLabels : MultiLabels) target =>
      target.foldl (fun (mergedLabels : MultiLabels) kv =>
        GoMap.set mergedLabels kv.1 (appendUnique (GoMap.getD mergedLabels kv.1 []) kv.2))
        mergedLabels) [])

/-- ConvertLabels converts K8s object labels (map[string]string) to map[string][]string. -/
def ConvertLabels (targetPodLabels : Labels) : MultiLabels :=
  targetPodLabels.foldl (fun (newMap : MultiLabels) kv => GoMap.set newMap kv.1 [kv.2]) []

/-- The test on one env entry in `GetLocalEnvVars`. -/
def isLocalEnvValue (value : String) : Bool :=
  (stringsContains value ".svc.cluster.local" || stringsContains value ".pod.cluster.local")
    && isValidLocalEnvVar value

/-- GetLocalEnvVars fetches all env. vars with the values of
name.namespace.svc/pod.cluster.local -/
def GetLocalEnvVars (obj : MetaObject) : Result (GoMap String String) :=
  match obj with
  | .workload w =>
    let containers : List Container :=
      match w with
      | .Pod _ cs => cs
      | .Deployment _ _ cs => cs
      | .StatefulSet _ _ cs => cs
      | .DaemonSet _ _ cs => cs
    .ok (containers.foldl (fun (envVars : GoMap String String) container =>
      container.Env.foldl (fun (envVars : GoMap String String) envVar =>
        if isLocalEnvValue envVar.Value then GoMap.set envVars envVar.Name envVar.Value
        else envVars) envVars) [])
  | _ => .error .attrErrTypeNotSupported

/-- The loop `for k, v := range src { labels[k] = append(labels[k], v) }`. -/
def appendLabels (labels : MultiLabels) (src : Labels) : MultiLabels :=
  src.foldl (fun (labels : MultiLabels) kv => GoMap.appendTo labels kv.1 kv.2) labels

/-- GetLabelsFromSvc returns all the POD selectors a Service has -/
def getLabelsFromSvc (c : Client) (name : String) (ns : String) : Result Labels :=
  match c.getService ns name with
  | .error .notFound => .error .attrErrResourceNotFound
  | .error (.other msg) => .error (.wrap ("could not fetch svc " ++ name ++ ". ") (.external msg))
  | .ok selector =>
    let labels : Labels := selector.foldl (fun (labels : Labels) kv => GoMap.set labels kv.1 kv.2) []
    if labels.length = 0 then .error .attrErrResourceNotFound
    else .ok labels

/-- The body of the loop over the env vars in `GetLabelsFromEnvVars`, run on the entries that
are left, with the label multimap built so far. -/
def envVarsLoop (c : Client) : List (String × String) → MultiLabels → Result MultiLabels
  | [], labels => .ok labels
  | (_, v) :: rest, labels =>
    match splitDot v.toList with
    | name :: ns :: _ =>
      if stringsContains v ".pod.cluster.local" then
        match c.getPod (String.mk ns) (String.mk name) with
        | .error .notFound => .error .attrErrResourceNotFound
        | .error (.other msg) =>
          .error (.wrap ("could not fetch pod " ++ String.mk name ++ ". ") (.external msg))
        | .ok podLabels => envVarsLoop c rest (appendLabels labels podLabels)
      else
        match getLabelsFromSvc c (String.mk name) (String.mk ns) with
        | .error e => .error e
        | .panic msg => .panic msg
        | .ok svcLabels => envVarsLoop c rest (appendLabels labels svcLabels)
    | _ => .panic "index out of range [1]"

/-- GetLabelsFromEnvVars takes in the environment variables containing
name.namespace.svc.cluster.local and name.namespace.pod.cluster.local.  For PODs it returns all
the labels the POD has, for services the .spec.Selector. -/
def GetLabelsFromEnvVars (c : Client) (envVars : GoMap String String) : Result MultiLabels :=
  if envVars.length = 0 then .error .attrErrNoEnvVars
  else envVarsLoop c envVars []

end attr

/-! ## Wire form -/

/-- What `ToUnstructured` keeps of a pointer: the value it points to. -/
def encodePtr {α : Type} (p : Option (Ptr α)) : Option α := p.map (fun x => x.val)

def encodePeer (p : NetworkPolicyPeer) : PeerDoc :=
  { PodSelector := encodePtr p.PodSelector
    NamespaceSelector := encodePtr p.NamespaceSelector
    IPBlock := encodePtr p.IPBlock }

/-- The object sent for a policy by a create or update call. -/
def encode (p : NetworkPolicy) : PolicyDoc :=
  { Name := p.Name
    Namespace := p.Namespace
    PodSelector := p.Spec.PodSelector
    Ingress := p.Spec.Ingress.map (fun r => r.From.map encodePeer)
    Egress := p.Spec.Egress.map (fun r => r.To.map encodePeer)
    PolicyTypes := p.Spec.PolicyTypes }

/-- Decoding allocates: a non-nil field gets the next unused address. -/
def decodePtr {α : Type} (next : Nat) : Option α → Option (Ptr α) × Nat
  | none => (none, next)
  | some v => (some ⟨next, v⟩, next + 1)

def decodePeer (next : Nat) (d : PeerDoc) : NetworkPolicyPeer × Nat :=
  let a := decodePtr next d.PodSelector
  let b := decodePtr a.2 d.NamespaceSelector
  let c := decodePtr b.2 d.IPBlock
  ({ PodSelector := a.1, NamespaceSelector := b.1, IPBlock := c.1 }, c.2)

def decodePeers (next : Nat) : List PeerDoc → List NetworkPolicyPeer × Nat
  | [] => ([], next)
  | d :: ds =>
    let a := decodePeer next d
    let b := decodePeers a.2 ds
    (a.1 :: b.1, b.2)

def decodeRules (next : Nat) : List (List PeerDoc) → List (List NetworkPolicyPeer) × Nat
  | [] => ([], next)
  | r :: rs =>
    let a := decodePeers next r
    let b := decodeRules a.2 rs
    (a.1 :: b.1, b.2)

/-- The in-memory policy a list call yields for a stored policy. -/
def decode (next : Nat) (d : PolicyDoc) : NetworkPolicy × Nat :=
  let i := decodeRules next d.Ingress
  let e := decodeRules i.2 d.Egress
  ({ Name := d.Name
     Namespace := d.Namespace
     Spec :=
      { PodSelector := d.PodSelector
        Ingress := i.1.map (fun peers => { From := peers })
        Egress := e.1.map (fun peers => { To := peers })
        PolicyTypes := d.PolicyTypes } }, e.2)

def decodeList (next : Nat) : List PolicyDoc → List NetworkPolicy × Nat
  | [] => ([], next)
  | d :: ds =>
    let a := decode next d
    let b := decodeList a.2 ds
    (a.1 :: b.1, b.2)

/-! ## Package networkpolicy (imported as np) -/

namespace np

/-- DefaultLabels contains the supported ingress and DNS pod labels. These are by default there
in every NetworkPolicy. -/
def _DefaultLabels : GoMap String (GoMap String String) :=
  [("nginx", [("app.kubernetes.io/name", "ingress-nginx")]),
   ("contour", [("app.kubernetes.io/name", "contour")]),
   ("traefik", [("app.kubernetes.io/name", "traefik")]),
   ("haproxy", [("app.kubernetes.io/name", "haproxy")]),
   ("coredns", [("k8s-app", "kube-dns")])]

def isInOldLabels (req : LabelSelectorRequirement) (oldLabels : MultiLabels) : Bool :=
  match GoMap.get? oldLabels req.Key with
  | none => false
  | some oldVals =>
    oldVals.any (fun oldVal => req.Values.any (fun reqVal => decide (oldVal = reqVal)))

/-- The requirements kept by the inner loop of `updateIngressRules` and `updateEgressRules`. -/
def keptRequirements (oldLabels : MultiLabels) (reqs : List LabelSelectorRequirement) :
    List LabelSelectorRequirement :=
  reqs.filter (fun req => !isInOldLabels req oldLabels)

/-- The loop body of `updateIngressRules` and `updateEgressRules` on the peer list of one rule:
`peers[0]` panics on an empty list; the write goes through the pod selector pointer of the first
peer. -/
def updateFirstPeer (oldLabels : MultiLabels) :
    List NetworkPolicyPeer → Result (List NetworkPolicyPeer)
  | [] => .panic "index out of range [0] with length 0"
  | peer :: rest =>
    match peer.PodSelector with
    | none => .ok (peer :: rest)
    | some ptr =>
      .ok ({ peer with
              PodSelector := some
                { ptr with
                  val := { ptr.val with
                    MatchExpressions := keptRequirements oldLabels ptr.val.MatchExpressions } } }
            :: rest)

def updateIngressRules (oldLabels : MultiLabels) :
    List NetworkPolicyIngressRule → Result (List NetworkPolicyIngressRule)
  | [] => .ok []
  | rule :: rules =>
    match updateFirstPeer oldLabels rule.From with
    | .panic msg => .panic msg
    | .error e => .error e
    | .ok peers =>
      match updateIngressRules oldLabels rules with
      | .panic msg => .panic msg
      | .error e => .error e
      | .ok rs => .ok ({ From := peers } :: rs)

def updateEgressRules (oldLabels : MultiLabels) :
    List NetworkPolicyEgressRule → Result (List NetworkPolicyEgressRule)
  | [] => .ok []
  | rule :: rules =>
    match updateFirstPeer oldLabels rule.To with
    | .panic msg => .panic msg
    | .error e => .error e
    | .ok peers =>
      match updateEgressRules oldLabels rules with
      | .panic msg => .panic msg
      | .error e => .error e
      | .ok rs => .ok ({ To := peers } :: rs)

def RemoveOldLabels (oldLabels : MultiLabels) (ingressRules : List NetworkPolicyIngressRule)
    (egressRules : List NetworkPolicyEgressRule) :
    Result (List NetworkPolicyIngressRule × List NetworkPolicyEgressRule) :=
  match updateIngressRules oldLabels ingressRules with
  | .panic msg => .panic msg
  | .error e => .error e
  | .ok ingress =>
    match updateEgressRules oldLabels egressRules with
    | .panic msg => .panic msg
    | .error e => .error e
    | .ok egress => .ok (ingress, egress)

/-- The peer literal of `getDefaultSupportedPeers` and `AppendLabelsToPeers`: a freshly allocated
pod selector holding one In requirement. -/
def inPeer (addr : Nat) (k : String) (v : List String) : NetworkPolicyPeer :=
  { PodSelector := some
      { addr := addr
        val := { MatchLabels := [], MatchExpressions := [⟨k, LabelSelectorOpIn, v⟩] } }
    NamespaceSelector := none
    IPBlock := none }

/-- The second loop of `getDefaultSupportedPeers`: one peer, and one allocation, per key. -/
def supportedPeers (next : Nat) : MultiLabels → List NetworkPolicyPeer
  | [] => []
  | (k, v) :: rest => inPeer next k v :: supportedPeers (next + 1) rest

/-- getDefaultSupportedPeers appends the necessary podSelectors based on the default labels -/
def getDefaultSupportedPeers (next : Nat) (defaultLabels : GoMap String (GoMap String String)) :
    List NetworkPolicyPeer × Nat :=
  if defaultLabels.length = 0 then ([], next)
  else
    let keyValueMap : MultiLabels :=
      defaultLabels.foldl (fun (keyValueMap : MultiLabels) entry =>
        entry.2.foldl (fun (keyValueMap : MultiLabels) kv =>
          GoMap.appendTo keyValueMap kv.1 kv.2) keyValueMap) []
    (supportedPeers next keyValueMap, next + keyValueMap.length)

/-- ExtendPeers loops through the ingress and egress peers of an existing policy, and appends all
the elements from ingressPol and egressPol to the existing NetworkPolicyPeers. -/
def ExtendPeers (ingressPol egressPol : List NetworkPolicyPeer) (p : NetworkPolicy) :
    NetworkPolicy :=
  let ingress := ingressPol.foldl (fun (rules : List NetworkPolicyIngressRule) pol =>
    rules.map (fun rule =>
      if !attr.Contains rule.From pol then { From := rule.From ++ [pol] } else rule))
    p.Spec.Ingress
  let egress := egressPol.foldl (fun (rules : List NetworkPolicyEgressRule) pol =>
    rules.map (fun rule =>
      if !attr.Contains rule.To pol then { To := rule.To ++ [pol] } else rule))
    p.Spec.Egress
  { p with Spec := { p.Spec with Ingress := ingress, Egress := egress } }

/-- The values of one key after the pass through the set `uniqueValues`. -/
def finalValues (values : List String) : List String :=
  GoMap.keys (values.foldl (fun (uniqueValues : GoMap String Unit) v =>
    GoMap.set uniqueValues v ()) [])

/-- The loop over `targetPodLabels` in `AppendLabelsToPeers`: per key one ingress peer and one
egress peer, each with its own freshly allocated selector. -/
def labelPeers (next : Nat) : MultiLabels → List NetworkPolicyPeer × List NetworkPolicyPeer
  | [] => ([], [])
  | (k, values) :: rest =>
    let r := labelPeers (next + 2) rest
    (inPeer next k (finalValues values) :: r.1, inPeer (next + 1) k (finalValues values) :: r.2)

/-- appendLabelsToPeers appends the default supported labels (such as Ingress controller pod
labels and DNS pod labels which come from DefaultLabels) and targetedPodLabels one by one to
ingressPeers and egressPeers. -/
def AppendLabelsToPeers (next : Nat) (targetPodLabels : MultiLabels) :
    Result (List NetworkPolicyPeer × List NetworkPolicyPeer) × Nat :=
  let defaultPeers := getDefaultSupportedPeers next _DefaultLabels
  if targetPodLabels.length = 0 || defaultPeers.1.length = 0 then
    (.error .npErrEmptyParam, defaultPeers.2)
  else
    let l := labelPeers defaultPeers.2 targetPodLabels
    (.ok (defaultPeers.1 ++ l.1, defaultPeers.1 ++ l.2),
      defaultPeers.2 + 2 * targetPodLabels.length)

/-- NewPolicy deploys a NetworkPolicy which only allows incoming/outgoing communication from pods
with the same label, and to/from objects that have the labels located in the global variable
DefaultLabels. -/
def NewPolicy (next : Nat) (name : String) (ns : String) (podSelectorLabels : Labels)
    (targetPodLabels : MultiLabels) : Result NetworkPolicy × Nat :=
  if name = "" || ns = "" || podSelectorLabels.length = 0 then (.error .npErrEmptyParam, next)
  else
    match AppendLabelsToPeers next targetPodLabels with
    | (.error e, n) => (.error e, n)
    | (.panic msg, n) => (.panic msg, n)
    | (.ok (ingressPeers, egressPeers), n) =>
      (.ok
        { Name := name
          Namespace := ns
          Spec :=
            { PodSelector := { MatchLabels := podSelectorLabels, MatchExpressions := [] }
              Ingress := [{ From := ingressPeers }]
              Egress := [{ To := egressPeers }]
              PolicyTypes := ["Ingress", "Egress"] } }, n)

/-- The test made on one requirement by `GetPolicyByPodLabels`. -/
def reqMatches (podLabels : Labels) (req : LabelSelectorRequirement) : Bool :=
  if req.Operator ≠ LabelSelectorOpIn then false
  else podLabels.any (fun kv => decide (kv.1 = req.Key) && attr.Contains req.Values kv.2)

/-- The loop over the peers of one rule in `GetPolicyByPodLabels`: `ok true` when a requirement
matched, `ok false` when the peers are exhausted; reading `peer.PodSelector.MatchExpressions`
through a nil pod selector panics. -/
def scanPeers (podLabels : Labels) : List NetworkPolicyPeer → Result Bool
  | [] => .ok false
  | peer :: rest =>
    match peer.PodSelector with
    | none => .panic "invalid memory address or nil pointer dereference"
    | some ptr =>
      if ptr.val.MatchExpressions.any (reqMatches podLabels) then .ok true
      else scanPeers podLabels rest

/-- The loop over the rules of one direction in `GetPolicyByPodLabels`. -/
def scanRules (podLabels : Labels) : List (List NetworkPolicyPeer) → Result Bool
  | [] => .ok false
  | peers :: rest =>
    match scanPeers podLabels peers with
    | .ok false => scanRules podLabels rest
    | r => r

/-- The loop over the listed policies in `GetPolicyByPodLabels`. -/
def scanPolicies (podLabels : Labels) : List NetworkPolicy → Result NetworkPolicy
  | [] => .error .npErrNotFound
  | policy :: rest =>
    match scanRules podLabels (policy.Spec.Ingress.map (fun r => r.From)) with
    | .ok true => .ok policy
    | .panic msg => .panic msg
    | .error e => .error e
    | .ok false =>
      match scanRules podLabels (policy.Spec.Egress.map (fun r => r.To)) with
      | .ok true => .ok policy
      | .panic msg => .panic msg
      | .error e => .error e
      | .ok false => scanPolicies podLabels rest

/-- GetPolicyByPodLabels returns the policy where podLabels match LabelSelectorRequirements with
LabelSelectorOpIn -/
def GetPolicyByPodLabels (c : Client) (next : Nat) (ns : String) (podLabels : Labels) :
    Result NetworkPolicy × Nat :=
  match c.listPolicies ns with
  | .error msg => (.error (.wrap "error retrieving policy list: " (.external msg)), next)
  | .ok docs =>
    let allPolicies := decodeList next docs
    if allPolicies.1.length = 0 then (.error .npErrNotFound, allPolicies.2)
    else (scanPolicies podLabels allPolicies.1, allPolicies.2)

end np

/-! ## Package object -/

structure GroupVersionResource where
  Group : String
  Version : String
  Resource : String
  deriving DecidableEq, Repr

/-- The object a create or update call sends. -/
inductive WireObject where
  | workload (w : Workload)
  | policy (d : PolicyDoc)
  deriving DecidableEq, Repr

/-- A call on the write collaborator (`dynamic.Interface`): the resource, the namespace and the
object sent, or the name of the object to delete. -/
inductive MutateCall where
  | create (gvr : GroupVersionResource) (ns : String) (obj : WireObject)
  | update (gvr : GroupVersionResource) (ns : String) (obj : WireObject)
  | delete (gvr : GroupVersionResource) (ns : String) (name : String)
  deriving DecidableEq, Repr

/-- The write collaborator: the error message of a failed call, `none` for a call that
succeeds. -/
abbrev Writer := MutateCall → Option String

namespace MetaObject

def GetName : MetaObject → String
  | workload w => w.GetName
  | policy p => p.Name
  | other _ m => m.Name

def GetNamespace : MetaObject → String
  | workload w => w.GetNamespace
  | policy p => p.Namespace
  | other _ m => m.Namespace

end MetaObject

namespace object

inductive Action where
  | Create
  | Update
  | Delete
  deriving DecidableEq, Repr

/-- The owner kinds that make `ConvertToMeta` skip a Pod. -/
def isControllerKind (kind : String) : Bool :=
  kind = "ReplicaSet" || kind = "Deployment" || kind = "StatefulSet" || kind = "DaemonSet"

/-- The apps/v1 kinds, whose `Spec.Selector` is a pointer. -/
inductive AppsKind where
  | Deployment
  | StatefulSet
  | DaemonSet
  deriving DecidableEq, Repr

/-- An `interface{}` value as any caller may pass it to `ConvertToMeta`: a value an informer
delivers (`delivered`); a nil pointer of type `*corev1.Pod` (`nilPod`) or of one of the three
apps/v1 pointer types (`nilApps`), which in Go is not equal to the untyped nil; or a Deployment,
StatefulSet or DaemonSet whose `Spec.Selector` is nil (`noSelector`), such as the zero value
`&appsv1.Deployment{}`. -/
inductive Value where
  | delivered (obj : Any)
  | nilPod
  | nilApps (kind : AppsKind)
  | noSelector (kind : AppsKind) (meta : ObjectMeta) (containers : List Container)
  deriving DecidableEq, Repr

/-- ConvertToMeta checks whether the object is of type Pod, Deployment, StatefulSet or DaemonSet,
and converts it to metav1.Object, and returns its labels.  The test `obj == nil` holds of the
untyped nil only; a nil pointer is dereferenced by `obj.ObjectMeta` or `obj.Spec`, a nil
`Spec.Selector` by `.MatchLabels`. -/
def ConvertToMeta (obj : Value) : Result (Labels × Workload) :=
  match obj with
  | .delivered .nil => .error (.new "object cannot be nil")
  | .delivered (.workload (.Pod m cs)) =>
    match m.OwnerReferences.find? (fun o => isControllerKind o.Kind) with
    | some o => .error (.new ("POD " ++ m.Name ++ " is part of a " ++ o.Kind ++ " so skipping"))
    | none => .ok (m.Labels, .Pod m cs)
  | .delivered (.workload (.Deployment m s cs)) => .ok (s.MatchLabels, .Deployment m s cs)
  | .delivered (.workload (.StatefulSet m s cs)) => .ok (s.MatchLabels, .StatefulSet m s cs)
  | .delivered (.workload (.DaemonSet m s cs)) => .ok (s.MatchLabels, .DaemonSet m s cs)
  | .delivered (.other _ _) => .error .objErrTypeNotSupported
  | .nilPod => .panic "invalid memory address or nil pointer dereference"
  | .nilApps _ => .panic "invalid memory address or nil pointer dereference"
  | .noSelector _ _ _ => .panic "invalid memory address or nil pointer dereference"

/-- getResourceGVR takes in the MetaObject and returns the GVR of it, so that the dynamic client
will know on what object to call the Update() or Create() functions on -/
def getGVR (obj : MetaObject) : Result GroupVersionResource :=
  match obj with
  | .workload (.Pod _ _) => .ok ⟨"", "v1", "pods"⟩
  | .workload (.Deployment _ _ _) => .ok ⟨"apps", "v1", "deployments"⟩
  | .workload (.StatefulSet _ _ _) => .ok ⟨"apps", "v1", "statefulsets"⟩
  | .workload (.DaemonSet _ _ _) => .ok ⟨"apps", "v1", "daemonsets"⟩
  | .policy _ => .ok ⟨"networking.k8s.io", "v1", "networkpolicies"⟩
  | .other typeName _ => .error (.new ("unsupported object type: " ++ typeName))

/-- The conversion `ToUnstructured` of the handler's object. -/
def toWire (obj : MetaObject) : Result WireObject :=
  match obj with
  | .workload w => .ok (.workload w)
  | .policy p => .ok (.policy (encode p))
  | .other _ _ => .error (.new "error during object conversion to unstructured.")

/-- Mutate applies the modifications to a given metaObj based on the given Action.  Yields the
returned error (`none` for nil) and the calls made on the write collaborator. -/
def Mutate (write : Writer) (obj : MetaObject) (action : Action) :
    Option Error × List MutateCall :=
  let objName := obj.GetName
  match getGVR obj with
  | .error _ => (some (.new "error during resource gvr retrieval."), [])
  | .panic _ => (some (.new "error during resource gvr retrieval."), [])
  | .ok gvr =>
    match toWire obj with
    | .error _ => (some (.new "error during object conversion to unstructured."), [])
    | .panic _ => (some (.new "error during object conversion to unstructured."), [])
    | .ok unstructuredObj =>
      match action with
      | .Create =>
        let call := MutateCall.create gvr obj.GetNamespace unstructuredObj
        match write call with
        | some msg => (some (.wrap ("could not create resource " ++ objName ++ ". ")
            (.external msg)), [call])
        | none => (none, [call])
      | .Update =>
        let call := MutateCall.update gvr obj.GetNamespace unstructuredObj
        match write call with
        | some msg => (some (.wrap ("could not update resource " ++ objName ++ ". ")
            (.external msg)), [call])
        | none => (none, [call])
      | .Delete =>
        let call := MutateCall.delete gvr obj.GetNamespace obj.GetName
        match write call with
        | some msg => (some (.wrap ("could not delete resource " ++ objName ++ ". ")
            (.external msg)), [call])
        | none => (none, [call])

/-- AddLabel applies the "netpol-ctrl":"obj_name-obj_namespace" label to a metav1.Object if it
does not yet have a label.  Yields the returned error, the handler's object after `SetLabels`,
and the calls made. -/
def AddLabel (write : Writer) (obj : Workload) : Option Error × Workload × List MutateCall :=
  let label : Labels := [("netpol-ctrl", obj.GetName ++ "-" ++ obj.GetNamespace)]
  let obj := obj.SetLabels label
  match Mutate write (.workload obj) .Update with
  | (some err, calls) =>
    (some (.wrap ("could not apply label to pod " ++ obj.GetName ++ ": ") err), obj, calls)
  | (none, calls) => (none, obj, calls)

end object

/-! ## Package event -/

namespace event

/-- What an event handler did: its result (an error, nil, or a panic) and the mutate calls it
issued, in order. -/
structure Outcome where
  result : Result Unit
  calls : List MutateCall
  deriving DecidableEq, Repr

/-- The error returned for an object of the reserved namespace. -/
def errKubeSystem : Error := .new "objects in the kube-system namespace won\x27t be modified"

/-- The tail shared by the three handlers: given the policy computed so far (or the failure
that stops the handler), `Mutate` the policy with the given action and return its error.
`before` holds the calls already issued. -/
def submit (write : Writer) (action : object.Action) (before : List MutateCall)
    (r : Result NetworkPolicy) : Outcome :=
  match r with
  | .error err => ⟨.error err, before⟩
  | .panic msg => ⟨.panic msg, before⟩
  | .ok p =>
    match object.Mutate write (.policy p) action with
    | (some err, calls) => ⟨.error err, before ++ calls⟩
    | (none, calls) => ⟨.ok (), before ++ calls⟩

/-- handleLabelChange modifies the existing NetworkPolicy if the object's labels have changed.
It clears all existing LabelSelectorRequirements which were targetting pods based on the old
object's labels, and sets them up according to the new object's labels -/
def handleLabelChange (next : Nat) (oldLabels newLabels : Labels) (p : NetworkPolicy) :
    Result NetworkPolicy × Nat :=
  let p : NetworkPolicy :=
    { p with Spec := { p.Spec with PodSelector := { p.Spec.PodSelector with MatchLabels := newLabels } } }
  let convNewLabels := attr.ConvertLabels newLabels
  let convOldLabels := attr.ConvertLabels oldLabels
  match np.RemoveOldLabels convOldLabels p.Spec.Ingress p.Spec.Egress with
  | .panic msg => (.panic msg, next)
  | .error e => (.error e, next)
  | .ok (ingress, egress) =>
    let p : NetworkPolicy := { p with Spec := { p.Spec with Ingress := ingress, Egress := egress } }
    match np.AppendLabelsToPeers next convNewLabels with
    | (.error err, n) => (.error err, n)
    | (.panic msg, n) => (.panic msg, n)
    | (.ok (ingressPol, egressPol), n) => (.ok (np.ExtendPeers ingressPol egressPol p), n)

/-- handleEnvVarChange handles the case when during an Update event, the metaObject's
environment variables which are pointing to cluster.local addresses have changed, and updates the
metaObject's NetworkPolicy accordingly by adding the necessary labels to the policy's peers. -/
def handleEnvVarChange (c : Client) (next : Nat) (objLabels : Labels)
    (envVars : GoMap String String) (p : NetworkPolicy) : Result NetworkPolicy × Nat :=
  match attr.GetLabelsFromEnvVars c envVars with
  | .error err => (.error err, next)
  | .panic msg => (.panic msg, next)
  | .ok el =>
    match attr.MergeLabels [attr.ConvertLabels objLabels, el] with
    | .error err => (.error err, next)
    | .panic msg => (.panic msg, next)
    | .ok podLabels =>
      match np.AppendLabelsToPeers next podLabels with
      | (.error err, n) => (.error err, n)
      | (.panic msg, n) => (.panic msg, n)
      | (.ok (ingressPol, egressPol), n) => (.ok (np.ExtendPeers ingressPol egressPol p), n)

/-- The policy `HandleAdd` builds once the env vars are known: the two branches on the result of
`GetLabelsFromEnvVars`. -/
def buildPolicy (c : Client) (next : Nat) (policyName : String) (objLabels : Labels)
    (metaObj : Workload) (envVars : GoMap String String) : Result NetworkPolicy × Nat :=
  match attr.GetLabelsFromEnvVars c envVars with
  | .panic msg => (.panic msg, next)
  | .error err =>
    if err.Is .attrErrNoEnvVars || err.Is .attrErrResourceNotFound then
      match np.NewPolicy next policyName metaObj.GetNamespace objLabels
          (attr.ConvertLabels metaObj.GetLabels) with
      | (.error err, n) =>
        (.error (.wrap ("could not deploy new policy for " ++ metaObj.GetName ++ ". ") err), n)
      | r => r
    else (.error err, next)
  | .ok envLabels =>
    match attr.MergeLabels [attr.ConvertLabels objLabels, envLabels] with
    | .error err => (.error err, next)
    | .panic msg => (.panic msg, next)
    | .ok allLabels =>
      match np.NewPolicy next policyName metaObj.GetNamespace objLabels allLabels with
      | (.error err, n) =>
        (.error (.wrap ("could not deploy new policy for " ++ metaObj.GetName ++ ". ") err), n)
      | r => r

/-- The part of `HandleAdd` from the call of `GetLocalEnvVars` to the end: `metaObj` is the
object after the labelling step, `objLabels` the labels `ConvertToMeta` returned, `calls` the
mutate calls issued so far. -/
def addPolicy (c : Client) (write : Writer) (next : Nat) (policyName : String)
    (objLabels : Labels) (metaObj : Workload) (calls : List MutateCall) : Outcome :=
  let envVars : Result (GoMap String String) :=
    match attr.GetLocalEnvVars (.workload metaObj) with
    | .error err => if !err.Is .attrErrNoEnvVars then .error err else .ok []
    | r => r
  match envVars with
  | .error err => ⟨.error err, calls⟩
  | .panic msg => ⟨.panic msg, calls⟩
  | .ok envVars =>
    submit write .Create calls (buildPolicy c next policyName objLabels metaObj envVars).1

/-- HandleAdd handles the case when a K8s object of interest is added to the cluster, and creates
a NetworkPolicy for it -/
def HandleAdd (c : Client) (write : Writer) (next : Nat) (obj : Any) : Outcome :=
  match object.ConvertToMeta (.delivered obj) with
  | .error err => ⟨.error err, []⟩
  | .panic msg => ⟨.panic msg, []⟩
  | .ok (objLabels, metaObj) =>
    let policyName := metaObj.GetName ++ "-" ++ metaObj.GetNamespace ++ "-netpol"
    if metaObj.GetNamespace = "kube-system" then ⟨.error errKubeSystem, []⟩
    else
      let labelled : Option Error × Workload × List MutateCall :=
        if metaObj.GetLabels.length = 0 then object.AddLabel write metaObj
        else (none, metaObj, [])
      match labelled with
      | (some err, _, calls) => ⟨.error err, calls⟩
      | (none, metaObj, calls) => addPolicy c write next policyName objLabels metaObj calls

/-- The part of `HandleUpdate` that follows a successful lookup: the two change handlers, each
run when its maps differ, then the Update of the located policy `p`. -/
def reconcile (c : Client) (write : Writer) (next : Nat) (oldLabels newLabels : Labels)
    (oldObjEnvVars newObjEnvVars : GoMap String String) (p : NetworkPolicy) : Outcome :=
  let afterLabels : Result NetworkPolicy × Nat :=
    if !attr.MapsEqual newLabels oldLabels then handleLabelChange next oldLabels newLabels p
    else (.ok p, next)
  match afterLabels with
  | (.error err, _) => ⟨.error err, []⟩
  | (.panic msg, _) => ⟨.panic msg, []⟩
  | (.ok p, n) =>
    let afterEnv : Result NetworkPolicy × Nat :=
      if !attr.MapsEqual newObjEnvVars oldObjEnvVars then
        handleEnvVarChange c n newLabels newObjEnvVars p
      else (.ok p, n)
    submit write .Update [] afterEnv.1

/-- HandleUpdate handles the case when a K8s object of interest is updated in the cluster,
provided the object's environment variables or labels have changed -/
def HandleUpdate (c : Client) (write : Writer) (next : Nat) (oldObj newObj : Any) : Outcome :=
  match object.ConvertToMeta (.delivered newObj) with
  | .error err => ⟨.error err, []⟩
  | .panic msg => ⟨.panic msg, []⟩
  | .ok (newLabels, newMetaObj) =>
    if newMetaObj.GetNamespace = "kube-system" then ⟨.error errKubeSystem, []⟩
    else
      match object.ConvertToMeta (.delivered oldObj) with
      | .error err => ⟨.error err, []⟩
      | .panic msg => ⟨.panic msg, []⟩
      | .ok (oldLabels, oldMetaObj) =>
        match attr.GetLocalEnvVars (.workload oldMetaObj) with
        | .error err => ⟨.error err, []⟩
        | .panic msg => ⟨.panic msg, []⟩
        | .ok oldObjEnvVars =>
          match attr.GetLocalEnvVars (.workload newMetaObj) with
          | .error err => ⟨.error err, []⟩
          | .panic msg => ⟨.panic msg, []⟩
          | .ok newObjEnvVars =>
            if attr.MapsEqual newObjEnvVars oldObjEnvVars && attr.MapsEqual newLabels oldLabels
            then ⟨.ok (), []⟩
            else
              match np.GetPolicyByPodLabels c next oldMetaObj.GetNamespace oldLabels with
              | (.panic msg, _) => ⟨.panic msg, []⟩
              | (.error err, n) =>
                if err.Is .npErrNotFound then HandleAdd c write n (.workload newMetaObj)
                else ⟨.error err, []⟩
              | (.ok p, n) =>
                reconcile c write n oldLabels newLabels oldObjEnvVars newObjEnvVars p

/-- HandleDelete handles the case when an object of interest is deleted from the cluster. If the
object had a NetworkPolicy belonging to it, the policy gets deleted -/
def HandleDelete (c : Client) (write : Writer) (next : Nat) (obj : Any) : Outcome :=
  match object.ConvertToMeta (.delivered obj) with
  | .error err => ⟨.error err, []⟩
  | .panic msg => ⟨.panic msg, []⟩
  | .ok (objLabels, metaObj) =>
    if metaObj.GetNamespace = "kube-system" then ⟨.error errKubeSystem, []⟩
    else
      submit write .Delete [] (np.GetPolicyByPodLabels c next metaObj.GetNamespace objLabels).1

end event

/-! ## Vocabulary of the statements -/

/-- The resource of the policies, as `getGVR` returns it. -/
def policiesGVR : GroupVersionResource := ⟨"networking.k8s.io", "v1", "networkpolicies"⟩

/-- The resource of the Pods, as `getGVR` returns it. -/
def podsGVR : GroupVersionResource := ⟨"", "v1", "pods"⟩

/-- The peer written `{k: vs}` in the specification, on the wire: a pod selector with the single
requirement `k In vs`. -/
def docPeer (k : String) (vs : List String) : PeerDoc :=
  { PodSelector := some { MatchLabels := [], MatchExpressions := [⟨k, LabelSelectorOpIn, vs⟩] }
    NamespaceSelector := none
    IPBlock := none }

/-- The table `keyValueMap` that `getDefaultSupportedPeers` computes from `_DefaultLabels`. -/
def defaultKeyValues : MultiLabels :=
  [("app.kubernetes.io/name", ["ingress-nginx", "contour", "traefik", "haproxy"]),
   ("k8s-app", ["kube-dns"])]

/-- The peers of the default allow-list, on the wire, in the order of the model. -/
def defaultDocPeers : List PeerDoc :=
  [docPeer "app.kubernetes.io/name" ["ingress-nginx", "contour", "traefik", "haproxy"],
   docPeer "k8s-app" ["kube-dns"]]

/-- A peer on the wire refers to the pair `(k, v)`: one of its pod selector requirements has
key `k` and lists the value `v`. -/
def PeerDoc.refersTo (d : PeerDoc) (k v : String) : Prop :=
  ∃ sel, d.PodSelector = some sel ∧ ∃ req ∈ sel.MatchExpressions, req.Key = k ∧ v ∈ req.Values

/-- A mutate call creates an object. -/
def MutateCall.isCreate : MutateCall → Bool
  | .create _ _ _ => true
  | _ => false

/-- A mutate call updates a policy. -/
def MutateCall.isPolicyUpdate : MutateCall → Bool
  | .update _ _ (.policy _) => true
  | _ => false

/-- Every peer of every rule of a stored policy has a pod selector. -/
def PolicyDoc.podSelectorsSet (d : PolicyDoc) : Prop :=
  ∀ rule ∈ d.Ingress ++ d.Egress, ∀ peer ∈ rule, peer.PodSelector ≠ none

/-- Every rule of an in-memory policy has at least one peer. -/
def NetworkPolicy.rulesNonEmpty (p : NetworkPolicy) : Prop :=
  (∀ rule ∈ p.Spec.Ingress, rule.From ≠ []) ∧ (∀ rule ∈ p.Spec.Egress, rule.To ≠ [])

/-- The pod selector of a peer, when set, sits at an address below `n`. -/
def NetworkPolicyPeer.below (n : Nat) (peer : NetworkPolicyPeer) : Prop :=
  ∀ x, peer.PodSelector = some x → x.addr < n

/-- Every pod selector of the policy sits at an address below `n`. -/
def NetworkPolicy.fresh (n : Nat) (p : NetworkPolicy) : Prop :=
  (∀ rule ∈ p.Spec.Ingress, ∀ peer ∈ rule.From, peer.below n) ∧
  (∀ rule ∈ p.Spec.Egress, ∀ peer ∈ rule.To, peer.below n)

/-- Every peer of the policy has a pod selector. -/
def NetworkPolicy.selectorsSet (p : NetworkPolicy) : Prop :=
  (∀ rule ∈ p.Spec.Ingress, ∀ peer ∈ rule.From, peer.PodSelector ≠ none) ∧
  (∀ rule ∈ p.Spec.Egress, ∀ peer ∈ rule.To, peer.PodSelector ≠ none)

/-- The inner loop of `MergeLabels`: folds one map into the merged map. -/
def mergeInto (mergedLabels : MultiLabels) (target : MultiLabels) : MultiLabels :=
  target.foldl (fun (mergedLabels : MultiLabels) kv =>
    GoMap.set mergedLabels kv.1 (attr.appendUnique (GoMap.getD mergedLabels kv.1 []) kv.2))
    mergedLabels

/-- The peer list of one rule after `ExtendPeers` has gone through the new peers `ps`. -/
def extendList (ps : List NetworkPolicyPeer) (peers : List NetworkPolicyPeer) :
    List NetworkPolicyPeer :=
  ps.foldl (fun (peers : List NetworkPolicyPeer) pol =>
    if !attr.Contains peers pol then peers ++ [pol] else peers) peers

/-- The address held by the pod selector pointer of a peer. -/
def NetworkPolicyPeer.podAddr (peer : NetworkPolicyPeer) : Option Nat :=
  peer.PodSelector.map (fun x => x.addr)

/-- The policy selects by `l` and every rule holds, for every entry `k: v` of `l`, a peer with
the single requirement `k In [v]`. -/
def NetworkPolicy.hasLabelPeers (l : Labels) (p : NetworkPolicy) : Prop :=
  p.Spec.PodSelector.MatchLabels = l ∧
  (∀ rule ∈ p.Spec.Ingress, ∀ k v, GoMap.get? l k = some v →
    ∃ a, np.inPeer a k [v] ∈ rule.From) ∧
  (∀ rule ∈ p.Spec.Egress, ∀ k v, GoMap.get? l k = some v →
    ∃ a, np.inPeer a k [v] ∈ rule.To)

/-- The requirement selects the label set `l`: its operator is In, its key is a key of `l` and
its values contain the value of `l` at that key. -/
def LabelSelectorRequirement.selects (req : LabelSelectorRequirement) (l : Labels) : Prop :=
  req.Operator = LabelSelectorOpIn ∧ ∃ kv ∈ l, kv.1 = req.Key ∧ kv.2 ∈ req.Values

/-- The peer has a pod selector with a requirement that selects `l`. -/
def PeerDoc.selects (d : PeerDoc) (l : Labels) : Prop :=
  ∃ sel, d.PodSelector = some sel ∧ ∃ req ∈ sel.MatchExpressions, req.selects l

/-- The stored policy matches the label set `l`: a peer of one of its ingress or egress rules
selects `l`. -/
def PolicyDoc.matchesLabels (d : PolicyDoc) (l : Labels) : Prop :=
  ∃ rule ∈ d.Ingress ++ d.Egress, ∃ peer ∈ rule, peer.selects l

/-- The peer allows the pair `(k, v)`: its pod selector has a requirement with key `k` and
operator In whose values include `v`. -/
def NetworkPolicyPeer.allowsIn (peer : NetworkPolicyPeer) (k v : String) : Prop :=
  ∃ x, peer.PodSelector = some x ∧
    ∃ req ∈ x.val.MatchExpressions, req.Key = k ∧ req.Operator = LabelSelectorOpIn ∧ v ∈ req.Values

/-- No requirement of the pod selector of the peer, when it has one, intersects `oldLabels`. -/
def NetworkPolicyPeer.clearOf (peer : NetworkPolicyPeer) (oldLabels : MultiLabels) : Prop :=
  ∀ x, peer.PodSelector = some x →
    ∀ req ∈ x.val.MatchExpressions, np.isInOldLabels req oldLabels = false

/-- A cluster whose API server answers every read with the error `timeout`. -/
def Example.clusterDown : Client :=
  { getPod := fun _ _ => .error (.other "timeout")
    getService := fun _ _ => .error (.other "timeout")
    listPolicies := fun _ => .error "timeout" }

/-- A name or namespace segment: a non-empty string of characters of the class
`[a-zA-Z0-9-]`. -/
def isSegment (s : String) : Prop :=
  s.toList ≠ [] ∧ ∀ c ∈ s.toList, attr.isNameChar c = true

/-- The containers `GetLocalEnvVars` goes through. -/
def Workload.containers : Workload → List Container
  | .Pod _ cs => cs
  | .Deployment _ _ cs => cs
  | .StatefulSet _ _ cs => cs
  | .DaemonSet _ _ cs => cs

/-- The reference `value` resolves to `labels` in the cluster: `value` names, as
`name.namespace.pod.cluster.local`, a Pod that the cluster holds with the metadata labels
`labels`, or, as `name.namespace.svc.cluster.local`, a Service that the cluster holds with the
non-empty selector `labels`. -/
def Client.resolves (c : Client) (value : String) (labels : Labels) : Prop :=
  GoMap.WF labels ∧ ∃ name ns, isSegment name ∧ isSegment ns ∧
    ((value = name ++ "." ++ ns ++ ".pod.cluster.local" ∧ c.getPod ns name = .ok labels) ∨
     (value = name ++ "." ++ ns ++ ".svc.cluster.local" ∧ c.getService ns name = .ok labels ∧
        labels ≠ []))

/-- The lookup of the object that the reference `value` names fails with `err`. -/
def Client.lookupFails (c : Client) (value : String) (err : LookupError) : Prop :=
  ∃ name ns, isSegment name ∧ isSegment ns ∧
    ((value = name ++ "." ++ ns ++ ".pod.cluster.local" ∧ c.getPod ns name = .error err) ∨
     (value = name ++ "." ++ ns ++ ".svc.cluster.local" ∧ c.getService ns name = .error err))

/-- A cluster whose namespace `ns1` holds the Pods `a` and `b`, both labelled `app: test`. -/
def Example.clusterTwoPods : Client :=
  { getPod := fun ns name =>
      if ns = "ns1" ∧ (name = "a" ∨ name = "b") then .ok [("app", "test")] else .error .notFound
    getService := fun _ _ => .error .notFound
    listPolicies := fun _ => .ok [] }

/-- Package config.  The errors `ErrConfigNotFound` and `ErrConfigBuild`; the interface
`Provider`, where a method that returns an error yields `none` (`Stat`: `false`), since `New`
only tests `err != nil`; and `New`, in which `Join` stands for `filepath.Join`. -/
inductive config.ConfigError where
  | ErrConfigNotFound
  | ErrConfigBuild
  deriving DecidableEq, Repr
structure config.Provider (Config : Type) where
  GetEnv : String → String
  Stat : String → Bool
  BuildConfigFromFlags : String → String → Option Config
  InClusterConfig : Unit → Option Config
def config.New {Config : Type} (Join : List String → String) (p : config.Provider Config) :
    Except config.ConfigError Config :=
  let kubeconfig := p.GetEnv "KUBECONFIG"
  if kubeconfig ≠ "" then
    match p.BuildConfigFromFlags "" kubeconfig with
    | none => .error .ErrConfigBuild
    | some config => .ok config
  else
    let kubeconfigPath := Join [p.GetEnv "HOME", ".kube", "config"]
    if p.Stat kubeconfigPath then
      match p.BuildConfigFromFlags "" kubeconfigPath with
      | none => .error .ErrConfigBuild
      | some config => .ok config
    else
      match p.InClusterConfig () with
      | some config => .ok config
      | none => .error .ErrConfigNotFound

/-- The provider of the test table: `env` holds the environment, the three flags say whether
the file exists and whether the two builders fail; a built config carries the path it was built
from (the empty path for the in-cluster config). -/
def Example.mockProvider (env : GoMap String String) (fileExists buildConfigError
    inClusterConfigErr : Bool) : config.Provider String :=
  { GetEnv := fun key => GoMap.getD env key ""
    Stat := fun _ => fileExists
    BuildConfigFromFlags := fun _ path => if buildConfigError then none else some path
    InClusterConfig := fun _ => if inClusterConfigErr then none else some "" }

/-- A stand-in for `filepath.Join` on clean path elements. -/
def Example.joinPath : List String → String
  | [] => ""
  | [a] => a
  | a :: rest => a ++ "/" ++ Example.joinPath rest

/-! ## Example clusters and workloads -/

namespace Example

/-- A write collaborator whose calls all succeed. -/
def writeOk : Writer := fun _ => none

/-- A cluster without Pods, Services or policies. -/
def clusterEmpty : Client :=
  { getPod := fun _ _ => .error .notFound
    getService := fun _ _ => .error .notFound
    listPolicies := fun _ => .ok [] }

/-- A cluster whose namespace `ns1` lists the given policies and holds the Service `db` with
selector `tier: data`. -/
def clusterWith (docs : List PolicyDoc) : Client :=
  { getPod := fun _ _ => .error .notFound
    getService := fun ns name =>
      if ns = "ns1" ∧ name = "db" then .ok [("tier", "data")] else .error .notFound
    listPolicies := fun ns => if ns = "ns1" then .ok docs else .ok [] }

/-- A Pod of namespace `ns1` without owner and without containers. -/
def pod (name : String) (labels : Labels) : Workload :=
  .Pod ⟨name, "ns1", labels, []⟩ []

/-- A Pod of namespace `ns1` with one container holding one env entry. -/
def podWithEnv (name : String) (labels : Labels) (envName envValue : String) : Workload :=
  .Pod ⟨name, "ns1", labels, []⟩ [⟨"main", [⟨envName, envValue⟩]⟩]

/-- A Deployment whose metadata labels differ from its selector. -/
def deploymentWeb : Workload :=
  .Deployment ⟨"web", "ns1", [("team", "a")], []⟩ ⟨[("app", "web")], []⟩ []

/-- A Pod of the reserved namespace. -/
def podKubeSystem : Workload :=
  .Pod ⟨"dns", "kube-system", [("k8s-app", "kube-dns")], []⟩ []

/-- The policy with one ingress and one egress rule holding the default peers followed by the
given peers. -/
def policyDoc (name : String) (selector : Labels) (peers : List PeerDoc) : PolicyDoc :=
  { Name := name
    Namespace := "ns1"
    PodSelector := { MatchLabels := selector, MatchExpressions := [] }
    Ingress := [defaultDocPeers ++ peers]
    Egress := [defaultDocPeers ++ peers]
    PolicyTypes := ["Ingress", "Egress"] }

end Example

/-! ## Go maps: lookup, assignment, keys -/

namespace GoMap

set_option linter.unusedSectionVars false

variable {κ ν : Type} [DecidableEq κ]

theorem get?_set (m : GoMap κ ν) (k k' : κ) (v : ν) :
    get? (set m k v) k' = if k = k' then some v else get? m k' := by
  induction m with
  | nil => simp [set, get?]
  | cons e m ih =>
    obtain ⟨k0, v0⟩ := e
    by_cases h0 : k0 = k
    · subst h0
      by_cases h1 : k0 = k' <;> simp [set, get?, h1]
    · by_cases h1 : k0 = k'
      · subst h1
        have : ¬ k = k0 := fun h => h0 h.symm
        simp [set, get?, h0, this]
      · simp [set, get?, h0, h1, ih]

theorem mem_keys_set (m : GoMap κ ν) (k k' : κ) (v : ν) :
    k' ∈ keys (set m k v) ↔ k' = k ∨ k' ∈ keys m := by
  induction m with
  | nil => simp [set, keys]
  | cons e m ih =>
    obtain ⟨k0, v0⟩ := e
    by_cases h0 : k0 = k
    · subst h0
      simp [set, keys]
    · simp only [set, h0, if_false, keys, List.map_cons, List.mem_cons] at ih ⊢
      rw [ih]
      tauto

theorem get?_eq_none (m : GoMap κ ν) (k : κ) : get? m k = none ↔ k ∉ keys m := by
  induction m with
  | nil => simp [get?, keys]
  | cons e m ih =>
    obtain ⟨k0, v0⟩ := e
    by_cases h0 : k0 = k
    · subst h0; simp [get?, keys]
    · have : ¬ k = k0 := fun h => h0 h.symm
      simp only [get?, h0, if_false, ih, keys, List.map_cons, List.mem_cons, this, false_or]

theorem mem_of_get? (m : GoMap κ ν) (k : κ) (v : ν) (h : get? m k = some v) : (k, v) ∈ m := by
  induction m with
  | nil => simp [get?] at h
  | cons e m ih =>
    obtain ⟨k0, v0⟩ := e
    by_cases h0 : k0 = k
    · subst h0
      simp only [get?, if_true, Option.some.injEq] at h
      subst h
      exact List.mem_cons_self _ _
    · simp only [get?, h0, if_false] at h
      exact List.mem_cons_of_mem _ (ih h)

theorem get?_of_mem (m : GoMap κ ν) (hm : WF m) (k : κ) (v : ν) (h : (k, v) ∈ m) :
    get? m k = some v := by
  induction m with
  | nil => simp at h
  | cons e m ih =>
    obtain ⟨k0, v0⟩ := e
    simp only [WF, keys, List.map_cons, List.nodup_cons] at hm
    simp only [List.mem_cons, Prod.mk.injEq] at h
    rcases h with ⟨hk, hv⟩ | h
    · subst hk; subst hv; simp [get?]
    · have hk : k ∈ keys m := List.mem_map.2 ⟨(k, v), h, rfl⟩
      have h0 : ¬ k0 = k := fun e => hm.1 (e ▸ hk)
      simp only [get?, h0, if_false]
      exact ih hm.2 h

theorem WF_set (m : GoMap κ ν) (hm : WF m) (k : κ) (v : ν) : WF (set m k v) := by
  induction m with
  | nil => simp [set, WF, keys]
  | cons e m ih =>
    obtain ⟨k0, v0⟩ := e
    simp only [WF, keys, List.map_cons, List.nodup_cons] at hm
    by_cases h0 : k0 = k
    · subst h0
      simp only [set, if_true, WF, keys, List.map_cons, List.nodup_cons]
      exact hm
    · simp only [set, h0, if_false, WF, keys, List.map_cons, List.nodup_cons]
      refine ⟨?_, ih hm.2⟩
      intro hmem
      have := (mem_keys_set m k k0 v).1 hmem
      rcases this with h | h
      · exact h0 h
      · exact hm.1 h

theorem WF_nil : WF ([] : GoMap κ ν) := by simp [WF, keys]

theorem set_ne_nil (m : GoMap κ ν) (k : κ) (v : ν) : set m k v ≠ [] := by
  cases m with
  | nil => simp [set]
  | cons e m =>
    obtain ⟨k0, v0⟩ := e
    by_cases h0 : k0 = k <;> simp [set, h0]

theorem getD_set (m : GoMap κ ν) (k k' : κ) (v d : ν) :
    getD (set m k v) k' d = if k = k' then v else getD m k' d := by
  unfold getD
  rw [get?_set]
  by_cases h : k = k' <;> simp [h]

theorem mem_keys_of_mem (m : GoMap κ ν) (k : κ) (v : ν) (h : (k, v) ∈ m) : k ∈ keys m :=
  List.mem_map.2 ⟨(k, v), h, rfl⟩

theorem exists_mem_of_mem_keys (m : GoMap κ ν) (k : κ) (h : k ∈ keys m) :
    ∃ v, (k, v) ∈ m ∧ get? m k = some v := by
  cases hg : get? m k with
  | none => exact absurd h ((get?_eq_none m k).1 hg)
  | some v => exact ⟨v, mem_of_get? m k v hg, rfl⟩

end GoMap

section

open event

/-! ## Labels: conversion, merging, resolution of env references -/

theorem foldl_set_get? {ν τ : Type} (g : ν → τ) (l : GoMap String ν) (hl : GoMap.WF l)
    (acc : GoMap String τ) (k : String) :
    GoMap.get? (l.foldl (fun (m : GoMap String τ) kv => GoMap.set m kv.1 (g kv.2)) acc) k =
      match GoMap.get? l k with
      | some v => some (g v)
      | none => GoMap.get? acc k := by
  induction l generalizing acc with
  | nil => simp [GoMap.get?]
  | cons e l ih =>
    obtain ⟨k0, v0⟩ := e
    simp only [GoMap.WF, GoMap.keys, List.map_cons, List.nodup_cons] at hl
    simp only [List.foldl_cons]
    rw [ih hl.2]
    by_cases h0 : k0 = k
    · subst h0
      have hn : GoMap.get? l k0 = none := (GoMap.get?_eq_none l k0).2 hl.1
      simp [hn, GoMap.get?, GoMap.get?_set]
    · simp [GoMap.get?, h0, GoMap.get?_set]

theorem foldl_set_keys {ν τ : Type} (g : ν → τ) (l : GoMap String ν)
    (acc : GoMap String τ) (k : String) :
    k ∈ GoMap.keys (l.foldl (fun (m : GoMap String τ) kv => GoMap.set m kv.1 (g kv.2)) acc) ↔
      k ∈ GoMap.keys acc ∨ k ∈ GoMap.keys l := by
  induction l generalizing acc with
  | nil => simp [GoMap.keys]
  | cons e l ih =>
    obtain ⟨k0, v0⟩ := e
    simp only [List.foldl_cons]
    rw [ih, GoMap.mem_keys_set]
    simp only [GoMap.keys, List.map_cons, List.mem_cons]
    tauto

theorem foldl_set_WF {ν τ : Type} (g : ν → τ) (l : GoMap String ν)
    (acc : GoMap String τ) (hacc : GoMap.WF acc) :
    GoMap.WF (l.foldl (fun (m : GoMap String τ) kv => GoMap.set m kv.1 (g kv.2)) acc) := by
  induction l generalizing acc with
  | nil => exact hacc
  | cons e l ih => exact ih _ (GoMap.WF_set acc hacc _ _)

theorem foldl_set_ne_nil {ν τ : Type} (g : ν → τ) (l : GoMap String ν)
    (acc : GoMap String τ) (h : acc ≠ [] ∨ l ≠ []) :
    l.foldl (fun (m : GoMap String τ) kv => GoMap.set m kv.1 (g kv.2)) acc ≠ [] := by
  induction l generalizing acc with
  | nil => simpa using h
  | cons e l ih => exact ih _ (Or.inl (GoMap.set_ne_nil _ _ _))

theorem ConvertLabels_get? (l : Labels) (hl : GoMap.WF l) (k : String) :
    GoMap.get? (attr.ConvertLabels l) k = (GoMap.get? l k).map (fun v => [v]) := by
  unfold attr.ConvertLabels
  rw [foldl_set_get? (fun v => [v]) l hl]
  cases GoMap.get? l k <;> simp [GoMap.get?]

theorem ConvertLabels_keys (l : Labels) (k : String) :
    k ∈ GoMap.keys (attr.ConvertLabels l) ↔ k ∈ GoMap.keys l := by
  unfold attr.ConvertLabels
  rw [foldl_set_keys (fun v => [v])]
  simp [GoMap.keys]

theorem ConvertLabels_WF (l : Labels) : GoMap.WF (attr.ConvertLabels l) :=
  foldl_set_WF (fun v => [v]) l [] GoMap.WF_nil

theorem ConvertLabels_ne_nil (l : Labels) (h : l ≠ []) : attr.ConvertLabels l ≠ [] :=
  foldl_set_ne_nil (fun v => [v]) l [] (Or.inr h)

theorem ConvertLabels_mem (l : Labels) (hl : GoMap.WF l) (k v : String)
    (h : GoMap.get? l k = some v) : (k, [v]) ∈ attr.ConvertLabels l := by
  apply GoMap.mem_of_get?
  rw [ConvertLabels_get? l hl, h]
  rfl

/-- The set `seen` of `appendUnique` holds `true` exactly at the values marked so far. -/
theorem seen_fold (dst : List String) (acc : GoMap String Bool) (v : String) :
    GoMap.getD (dst.foldl (fun e x => GoMap.set e x true) acc) v false = true ↔
      v ∈ dst ∨ GoMap.getD acc v false = true := by
  induction dst generalizing acc with
  | nil => simp
  | cons x dst ih =>
    simp only [List.foldl_cons, List.mem_cons]
    rw [ih, GoMap.getD_set]
    by_cases h : x = v
    · subst h; simp
    · have : ¬ v = x := fun e => h e.symm
      simp [h, this]

theorem appendUnique_loop (src : List String) (acc : List String × GoMap String Bool)
    (hinv : ∀ v, GoMap.getD acc.2 v false = true ↔ v ∈ acc.1) (x : String) :
    x ∈ (src.foldl (fun (acc : List String × GoMap String Bool) v =>
      if !(GoMap.getD acc.2 v false) then (acc.1 ++ [v], GoMap.set acc.2 v true) else acc)
      acc).1 ↔ x ∈ acc.1 ∨ x ∈ src := by
  induction src generalizing acc with
  | nil => simp
  | cons s src ih =>
    simp only [List.foldl_cons, List.mem_cons]
    by_cases hs : GoMap.getD acc.2 s false = true
    · simp only [hs, Bool.not_true, Bool.false_eq_true, if_false]
      rw [ih acc hinv]
      have : s ∈ acc.1 := (hinv s).1 hs
      constructor
      · rintro (h | h)
        · exact Or.inl h
        · exact Or.inr (Or.inr h)
      · rintro (h | h | h)
        · exact Or.inl h
        · subst h; exact Or.inl this
        · exact Or.inr h
    · have hs' : GoMap.getD acc.2 s false = false := by simpa using hs
      simp only [hs', Bool.not_false, if_true]
      rw [ih]
      · simp only [List.mem_append, List.mem_singleton]
        tauto
      · intro v
        simp only [GoMap.getD_set, List.mem_append, List.mem_singleton]
        by_cases hv : s = v
        · subst hv; simp
        · have : ¬ v = s := fun e => hv e.symm
          simp [hv, this, hinv v]

theorem mem_appendUnique (dst src : List String) (x : String) :
    x ∈ attr.appendUnique dst src ↔ x ∈ dst ∨ x ∈ src := by
  unfold attr.appendUnique
  exact appendUnique_loop src _ (fun v => by
    rw [seen_fold]
    simp [GoMap.getD, GoMap.get?]) x

theorem MergeLabels_pair (a b : MultiLabels) :
    attr.MergeLabels [a, b] = .ok (mergeInto (mergeInto [] a) b) := rfl

theorem mergeInto_getD (target acc : MultiLabels) (k x : String) :
    x ∈ GoMap.getD (mergeInto acc target) k [] ↔
      x ∈ GoMap.getD acc k [] ∨ ∃ vs, (k, vs) ∈ target ∧ x ∈ vs := by
  induction target generalizing acc with
  | nil => simp [mergeInto]
  | cons e target ih =>
    obtain ⟨k0, v0⟩ := e
    have hstep : mergeInto acc ((k0, v0) :: target) =
        mergeInto (GoMap.set acc k0 (attr.appendUnique (GoMap.getD acc k0 []) v0)) target := rfl
    rw [hstep, ih, GoMap.getD_set]
    by_cases h0 : k0 = k
    · subst h0
      simp only [if_true, mem_appendUnique, List.mem_cons, Prod.mk.injEq, true_and]
      constructor
      · rintro ((h | h) | ⟨vs, hvs, hx⟩)
        · exact Or.inl h
        · exact Or.inr ⟨v0, Or.inl rfl, h⟩
        · exact Or.inr ⟨vs, Or.inr hvs, hx⟩
      · rintro (h | ⟨vs, hvs | hvs, hx⟩)
        · exact Or.inl (Or.inl h)
        · subst hvs; exact Or.inl (Or.inr hx)
        · exact Or.inr ⟨vs, hvs, hx⟩
    · have hk : ¬ k = k0 := fun e => h0 e.symm
      simp only [h0, if_false, List.mem_cons, Prod.mk.injEq, hk, false_and, false_or]

theorem mergeInto_keys (target acc : MultiLabels) (k : String) :
    k ∈ GoMap.keys (mergeInto acc target) ↔ k ∈ GoMap.keys acc ∨ k ∈ GoMap.keys target := by
  induction target generalizing acc with
  | nil => simp [mergeInto, GoMap.keys]
  | cons e target ih =>
    obtain ⟨k0, v0⟩ := e
    have hstep : mergeInto acc ((k0, v0) :: target) =
        mergeInto (GoMap.set acc k0 (attr.appendUnique (GoMap.getD acc k0 []) v0)) target := rfl
    rw [hstep, ih, GoMap.mem_keys_set]
    simp only [GoMap.keys, List.map_cons, List.mem_cons]
    tauto

theorem mergeInto_WF (target acc : MultiLabels) (h : GoMap.WF acc) :
    GoMap.WF (mergeInto acc target) := by
  induction target generalizing acc with
  | nil => exact h
  | cons e target ih => exact ih _ (GoMap.WF_set acc h _ _)

theorem appendLabels_WF (src : Labels) (labels : MultiLabels) (h : GoMap.WF labels) :
    GoMap.WF (attr.appendLabels labels src) := by
  unfold attr.appendLabels
  induction src generalizing labels with
  | nil => exact h
  | cons e src ih => exact ih _ (GoMap.WF_set labels h _ _)

theorem envVarsLoop_WF (c : Client) (envVars : List (String × String)) (labels e : MultiLabels)
    (h : GoMap.WF labels) (he : attr.envVarsLoop c envVars labels = .ok e) : GoMap.WF e := by
  induction envVars generalizing labels with
  | nil =>
    simp only [attr.envVarsLoop, Result.ok.injEq] at he
    exact he ▸ h
  | cons kv rest ih =>
    obtain ⟨k, v⟩ := kv
    unfold attr.envVarsLoop at he
    split at he
    · split at he
      · split at he
        · simp at he
        · simp at he
        · exact ih _ (appendLabels_WF _ _ h) he
      · split at he
        · simp at he
        · simp at he
        · exact ih _ (appendLabels_WF _ _ h) he
    · simp at he

theorem GetLabelsFromEnvVars_WF (c : Client) (envVars : GoMap String String) (e : MultiLabels)
    (he : attr.GetLabelsFromEnvVars c envVars = .ok e) : GoMap.WF e := by
  unfold attr.GetLabelsFromEnvVars at he
  split at he
  · simp at he
  · exact envVarsLoop_WF c envVars [] e GoMap.WF_nil he

theorem mem_finalValues (values : List String) (v : String) :
    v ∈ np.finalValues values ↔ v ∈ values := by
  unfold np.finalValues
  have h := foldl_set_keys (fun (_ : Unit) => ()) (values.map (fun x => (x, ()))) [] v
  simp only [List.foldl_map] at h
  rw [h]
  simp [GoMap.keys]

theorem finalValues_singleton (v : String) : np.finalValues [v] = [v] := rfl

/-! ## Conversion and metadata -/

theorem ConvertToMeta_pod (m : ObjectMeta) (cs : List Container) :
    object.ConvertToMeta (.delivered (.workload (.Pod m cs))) =
      (match m.OwnerReferences.find? (fun o => object.isControllerKind o.Kind) with
        | some o =>
          .error (.new ("POD " ++ m.Name ++ " is part of a " ++ o.Kind ++ " so skipping"))
        | none => .ok (m.Labels, .Pod m cs)) := rfl

theorem ConvertToMeta_ok {obj : Any} {l : Labels} {m : Workload}
    (h : object.ConvertToMeta (.delivered obj) = .ok (l, m)) : obj = .workload m := by
  cases obj with
  | nil => simp [object.ConvertToMeta] at h
  | other t x => simp [object.ConvertToMeta] at h
  | workload w =>
    cases w with
    | Pod m0 cs =>
      rw [ConvertToMeta_pod] at h
      cases hf : m0.OwnerReferences.find? (fun o => object.isControllerKind o.Kind) with
      | some o => simp [hf] at h
      | none =>
        simp only [hf, Result.ok.injEq, Prod.mk.injEq] at h
        rw [h.2]
    | Deployment m0 s cs =>
      simp only [object.ConvertToMeta, Result.ok.injEq, Prod.mk.injEq] at h
      rw [h.2]
    | StatefulSet m0 s cs =>
      simp only [object.ConvertToMeta, Result.ok.injEq, Prod.mk.injEq] at h
      rw [h.2]
    | DaemonSet m0 s cs =>
      simp only [object.ConvertToMeta, Result.ok.injEq, Prod.mk.injEq] at h
      rw [h.2]

theorem ConvertToMeta_no_panic (obj : Any) (msg : String) :
    object.ConvertToMeta (.delivered obj) ≠ .panic msg := by
  cases obj with
  | nil => simp [object.ConvertToMeta]
  | other t x => simp [object.ConvertToMeta]
  | workload w =>
    cases w with
    | Pod m0 cs =>
      rw [ConvertToMeta_pod]
      cases m0.OwnerReferences.find? (fun o => object.isControllerKind o.Kind) <;> simp
    | Deployment m0 s cs => simp [object.ConvertToMeta]
    | StatefulSet m0 s cs => simp [object.ConvertToMeta]
    | DaemonSet m0 s cs => simp [object.ConvertToMeta]

theorem SetLabels_GetName (w : Workload) (l : Labels) : (w.SetLabels l).GetName = w.GetName := by
  cases w <;> rfl

theorem SetLabels_GetNamespace (w : Workload) (l : Labels) :
    (w.SetLabels l).GetNamespace = w.GetNamespace := by
  cases w <;> rfl

theorem SetLabels_GetLabels (w : Workload) (l : Labels) : (w.SetLabels l).GetLabels = l := by
  cases w <;> rfl

theorem GetLocalEnvVars_SetLabels (w : Workload) (l : Labels) :
    attr.GetLocalEnvVars (.workload (w.SetLabels l)) = attr.GetLocalEnvVars (.workload w) := by
  cases w <;> rfl

theorem GetLocalEnvVars_workload (w : Workload) :
    ∃ envVars, attr.GetLocalEnvVars (.workload w) = .ok envVars := by
  cases w <;> exact ⟨_, rfl⟩

/-! ## Wire form: encoding, decoding, fresh addresses -/

theorem encodePeer_inPeer (a : Nat) (k : String) (v : List String) :
    encodePeer (np.inPeer a k v) = docPeer k v := rfl

theorem encode_supportedPeers (n : Nat) (m : MultiLabels) :
    (np.supportedPeers n m).map encodePeer = m.map (fun kv => docPeer kv.1 kv.2) := by
  induction m generalizing n with
  | nil => rfl
  | cons kv rest ih =>
    obtain ⟨k, v⟩ := kv
    simp [np.supportedPeers, ih, encodePeer_inPeer]

theorem encode_labelPeers (n : Nat) (m : MultiLabels) :
    (np.labelPeers n m).1.map encodePeer = m.map (fun kv => docPeer kv.1 (np.finalValues kv.2)) ∧
    (np.labelPeers n m).2.map encodePeer = m.map (fun kv => docPeer kv.1 (np.finalValues kv.2)) := by
  induction m generalizing n with
  | nil => exact ⟨rfl, rfl⟩
  | cons kv rest ih =>
    obtain ⟨k, v⟩ := kv
    simp [np.labelPeers, (ih (n + 2)).1, (ih (n + 2)).2, encodePeer_inPeer]

theorem decodePtr_le {α : Type} (n : Nat) (o : Option α) : n ≤ (decodePtr n o).2 := by
  cases o <;> simp [decodePtr]

theorem decodePeer_le (n : Nat) (d : PeerDoc) : n ≤ (decodePeer n d).2 := by
  unfold decodePeer
  exact le_trans (decodePtr_le n _) (le_trans (decodePtr_le _ _) (decodePtr_le _ _))

theorem decodePeer_below (n : Nat) (d : PeerDoc) :
    (decodePeer n d).1.below (decodePeer n d).2 := by
  intro x hx
  have h1 : x.addr < (decodePtr n d.PodSelector).2 := by
    cases hd : d.PodSelector with
    | none => simp [decodePeer, decodePtr, hd] at hx
    | some v =>
      simp [decodePeer, decodePtr, hd] at hx
      subst hx
      simp [decodePtr]
  unfold decodePeer
  exact lt_of_lt_of_le h1 (le_trans (decodePtr_le _ _) (decodePtr_le _ _))

theorem decodePeer_selector (n : Nat) (d : PeerDoc) :
    (decodePeer n d).1.PodSelector = none ↔ d.PodSelector = none := by
  cases hd : d.PodSelector <;> simp [decodePeer, decodePtr, hd]

theorem decodePeers_le (n : Nat) (ds : List PeerDoc) : n ≤ (decodePeers n ds).2 := by
  induction ds generalizing n with
  | nil => simp [decodePeers]
  | cons d ds ih => exact le_trans (decodePeer_le n d) (ih _)

theorem decodePeers_mem (n : Nat) (ds : List PeerDoc) :
    ∀ peer ∈ (decodePeers n ds).1,
      peer.below (decodePeers n ds).2 ∧ ∃ d ∈ ds, (peer.PodSelector = none ↔ d.PodSelector = none) := by
  induction ds generalizing n with
  | nil => simp [decodePeers]
  | cons d ds ih =>
    intro peer hp
    simp only [decodePeers, List.mem_cons] at hp
    rcases hp with hp | hp
    · subst hp
      refine ⟨fun x hx => lt_of_lt_of_le (decodePeer_below n d x hx) (decodePeers_le _ _),
        d, List.mem_cons_self _ _, decodePeer_selector n d⟩
    · obtain ⟨hb, d', hd', hs⟩ := ih _ peer hp
      exact ⟨hb, d', List.mem_cons_of_mem _ hd', hs⟩

theorem decodeRules_le (n : Nat) (rs : List (List PeerDoc)) : n ≤ (decodeRules n rs).2 := by
  induction rs generalizing n with
  | nil => simp [decodeRules]
  | cons r rs ih => exact le_trans (decodePeers_le n r) (ih _)

theorem decodeRules_mem (n : Nat) (rs : List (List PeerDoc)) :
    ∀ peers ∈ (decodeRules n rs).1, ∀ peer ∈ peers,
      peer.below (decodeRules n rs).2 ∧
      ∃ r ∈ rs, ∃ d ∈ r, (peer.PodSelector = none ↔ d.PodSelector = none) := by
  induction rs generalizing n with
  | nil => simp [decodeRules]
  | cons r rs ih =>
    intro peers hps peer hp
    simp only [decodeRules, List.mem_cons] at hps
    rcases hps with hps | hps
    · subst hps
      obtain ⟨hb, d, hd, hs⟩ := decodePeers_mem n r peer hp
      exact ⟨fun x hx => lt_of_lt_of_le (hb x hx) (decodeRules_le _ _),
        r, List.mem_cons_self _ _, d, hd, hs⟩
    · obtain ⟨hb, r', hr', d, hd, hs⟩ := ih _ peers hps peer hp
      exact ⟨hb, r', List.mem_cons_of_mem _ hr', d, hd, hs⟩

theorem decode_le (n : Nat) (d : PolicyDoc) : n ≤ (decode n d).2 := by
  unfold decode
  exact le_trans (decodeRules_le n _) (decodeRules_le _ _)

theorem decode_fresh (n : Nat) (d : PolicyDoc) : (decode n d).1.fresh (decode n d).2 := by
  constructor
  · intro rule hr peer hp x hx
    simp only [decode, List.mem_map] at hr
    obtain ⟨peers, hps, rfl⟩ := hr
    exact lt_of_lt_of_le ((decodeRules_mem n d.Ingress peers hps peer hp).1 x hx)
      (decodeRules_le _ _)
  · intro rule hr peer hp x hx
    simp only [decode, List.mem_map] at hr
    obtain ⟨peers, hps, rfl⟩ := hr
    exact (decodeRules_mem _ d.Egress peers hps peer hp).1 x hx

theorem decode_selectorsSet (n : Nat) (d : PolicyDoc) (h : d.podSelectorsSet) :
    (decode n d).1.selectorsSet := by
  constructor
  · intro rule hr peer hp hnone
    simp only [decode, List.mem_map] at hr
    obtain ⟨peers, hps, rfl⟩ := hr
    obtain ⟨_, r, hr, pd, hpd, hs⟩ := decodeRules_mem n d.Ingress peers hps peer hp
    exact h r (List.mem_append_left _ hr) pd hpd (hs.1 hnone)
  · intro rule hr peer hp hnone
    simp only [decode, List.mem_map] at hr
    obtain ⟨peers, hps, rfl⟩ := hr
    obtain ⟨_, r, hr, pd, hpd, hs⟩ := decodeRules_mem _ d.Egress peers hps peer hp
    exact h r (List.mem_append_right _ hr) pd hpd (hs.1 hnone)

theorem fresh_mono {n m : Nat} {p : NetworkPolicy} (h : p.fresh n) (hnm : n ≤ m) : p.fresh m :=
  ⟨fun rule hr peer hp x hx => lt_of_lt_of_le (h.1 rule hr peer hp x hx) hnm,
   fun rule hr peer hp x hx => lt_of_lt_of_le (h.2 rule hr peer hp x hx) hnm⟩

theorem decodeList_le (n : Nat) (docs : List PolicyDoc) : n ≤ (decodeList n docs).2 := by
  induction docs generalizing n with
  | nil => simp [decodeList]
  | cons d ds ih => exact le_trans (decode_le n d) (ih _)

theorem decodeList_mem (n : Nat) (docs : List PolicyDoc) :
    ∀ p ∈ (decodeList n docs).1,
      p.fresh (decodeList n docs).2 ∧ ((∀ d ∈ docs, d.podSelectorsSet) → p.selectorsSet) := by
  induction docs generalizing n with
  | nil => simp [decodeList]
  | cons d ds ih =>
    intro p hp
    simp only [decodeList, List.mem_cons] at hp
    rcases hp with hp | hp
    · subst hp
      exact ⟨fresh_mono (decode_fresh n d) (decodeList_le _ _),
        fun h => decode_selectorsSet n d (h d (List.mem_cons_self _ _))⟩
    · obtain ⟨hf, hs⟩ := ih _ p hp
      exact ⟨hf, fun h => hs (fun d' hd' => h d' (List.mem_cons_of_mem _ hd'))⟩

theorem decodePtr_encode {α : Type} (n : Nat) (o : Option α) :
    encodePtr (decodePtr n o).1 = o := by
  cases o <;> rfl

theorem decodePeer_encode (n : Nat) (d : PeerDoc) : encodePeer (decodePeer n d).1 = d := by
  simp [encodePeer, decodePeer, decodePtr_encode]

theorem decodePeers_encode (n : Nat) (ds : List PeerDoc) :
    (decodePeers n ds).1.map encodePeer = ds := by
  induction ds generalizing n with
  | nil => rfl
  | cons d ds ih => simp [decodePeers, decodePeer_encode, ih]

theorem decodeRules_encode (n : Nat) (rs : List (List PeerDoc)) :
    (decodeRules n rs).1.map (fun peers => peers.map encodePeer) = rs := by
  induction rs generalizing n with
  | nil => rfl
  | cons r rs ih => simp [decodeRules, decodePeers_encode, ih]

/-- Decoding a stored policy and encoding it again gives the stored policy. -/
theorem decode_encode (n : Nat) (d : PolicyDoc) : encode (decode n d).1 = d := by
  have h1 := decodeRules_encode n d.Ingress
  have h2 := decodeRules_encode (decodeRules n d.Ingress).2 d.Egress
  have e1 : ((fun (r : NetworkPolicyIngressRule) => r.From.map encodePeer) ∘
      fun peers => { From := peers }) = fun peers => peers.map encodePeer := rfl
  have e2 : ((fun (r : NetworkPolicyEgressRule) => r.To.map encodePeer) ∘
      fun peers => { To := peers }) = fun peers => peers.map encodePeer := rfl
  simp only [encode, decode, List.map_map, e1, e2, h1, h2]

theorem decodeList_encode (n : Nat) (docs : List PolicyDoc) :
    (decodeList n docs).1.map encode = docs := by
  induction docs generalizing n with
  | nil => rfl
  | cons d ds ih => simp [decodeList, decode_encode, ih]

/-! ## AppendLabelsToPeers and NewPolicy -/

theorem getDefaultSupportedPeers_default (n : Nat) :
    np.getDefaultSupportedPeers n np._DefaultLabels
      = (np.supportedPeers n defaultKeyValues, n + 2) := rfl

theorem AppendLabelsToPeers_eq (n : Nat) (t : MultiLabels) :
    np.AppendLabelsToPeers n t =
      if t.length = 0 then (.error .npErrEmptyParam, n + 2)
      else (.ok (np.supportedPeers n defaultKeyValues ++ (np.labelPeers (n + 2) t).1,
                 np.supportedPeers n defaultKeyValues ++ (np.labelPeers (n + 2) t).2),
            n + 2 + 2 * t.length) := by
  unfold np.AppendLabelsToPeers
  rw [getDefaultSupportedPeers_default]
  by_cases h : t.length = 0
  · simp [h]
  · simp [h, np.supportedPeers, defaultKeyValues]

theorem map_eq_ok {α β : Type} (f : α → β) (r : Result α) (b : β) (h : r.map f = .ok b) :
    ∃ a, r = .ok a ∧ f a = b := by
  cases r with
  | ok a => exact ⟨a, rfl, by simpa [Result.map] using h⟩
  | error e => simp [Result.map] at h
  | panic m => simp [Result.map] at h

/-- The wire form of the policy `NewPolicy` builds. -/
theorem NewPolicy_encode (n : Nat) (name ns : String) (sel : Labels) (t : MultiLabels) :
    (np.NewPolicy n name ns sel t).1.map encode =
      if name = "" ∨ ns = "" ∨ sel.length = 0 ∨ t.length = 0 then .error .npErrEmptyParam
      else .ok
        { Name := name
          Namespace := ns
          PodSelector := { MatchLabels := sel, MatchExpressions := [] }
          Ingress := [defaultDocPeers ++ t.map (fun kv => docPeer kv.1 (np.finalValues kv.2))]
          Egress := [defaultDocPeers ++ t.map (fun kv => docPeer kv.1 (np.finalValues kv.2))]
          PolicyTypes := ["Ingress", "Egress"] } := by
  unfold np.NewPolicy
  by_cases h1 : name = ""
  · simp [h1, Result.map]
  by_cases h2 : ns = ""
  · simp [h2, Result.map]
  by_cases h3 : sel.length = 0
  · simp [h3, Result.map]
  by_cases h4 : t.length = 0
  · simp [h1, h2, h3, h4, AppendLabelsToPeers_eq, Result.map]
  · simp only [h1, h2, h3, h4, AppendLabelsToPeers_eq, Result.map, Bool.or_false, decide_False,
      Bool.false_eq_true, if_false, or_self, encode, List.map_cons, List.map_nil, List.map_append,
      (encode_labelPeers (n + 2) t).1, (encode_labelPeers (n + 2) t).2, encode_supportedPeers]
    rfl

theorem NewPolicy_ok (n : Nat) (name ns : String) (sel : Labels) (t : MultiLabels)
    (h1 : name ≠ "") (h2 : ns ≠ "") (h3 : sel ≠ []) (h4 : t ≠ []) :
    ∃ p, (np.NewPolicy n name ns sel t).1 = .ok p ∧
      encode p =
        { Name := name
          Namespace := ns
          PodSelector := { MatchLabels := sel, MatchExpressions := [] }
          Ingress := [defaultDocPeers ++ t.map (fun kv => docPeer kv.1 (np.finalValues kv.2))]
          Egress := [defaultDocPeers ++ t.map (fun kv => docPeer kv.1 (np.finalValues kv.2))]
          PolicyTypes := ["Ingress", "Egress"] } := by
  have h := NewPolicy_encode n name ns sel t
  have h3' : ¬ sel.length = 0 := by simpa using h3
  have h4' : ¬ t.length = 0 := by simpa using h4
  simp only [h1, h2, h3', h4', or_self, if_false] at h
  exact map_eq_ok encode _ _ h

theorem policyName_ne (a b : String) : a ++ "-" ++ b ++ "-netpol" ≠ "" := by
  intro h
  have := congrArg String.length h
  simp only [String.length_append] at this
  have h7 : "-netpol".length = 7 := by decide
  rw [h7] at this
  have h0 : "".length = 0 := by decide
  rw [h0] at this
  omega

theorem eq_podAddr {x y : NetworkPolicyPeer} (h : GoEq.eq x y = true) : x.podAddr = y.podAddr := by
  simp only [GoEq.eq, Bool.and_eq_true] at h
  obtain ⟨⟨h1, _⟩, _⟩ := h
  unfold NetworkPolicyPeer.podAddr
  cases hx : x.PodSelector <;> cases hy : y.PodSelector <;> simp_all [ptrEq]

theorem podAddr_inPeer (a : Nat) (k : String) (v : List String) :
    (np.inPeer a k v).podAddr = some a := rfl

theorem below_podAddr {n : Nat} {q : NetworkPolicyPeer} (h : q.below n) (a : Nat)
    (ha : q.podAddr = some a) : a < n := by
  unfold NetworkPolicyPeer.podAddr at ha
  cases hq : q.PodSelector with
  | none => simp [hq] at ha
  | some x =>
    simp only [hq, Option.map_some', Option.some.injEq] at ha
    exact ha ▸ h x hq

theorem supportedPeers_addr (n : Nat) (m : MultiLabels) :
    ∀ x ∈ np.supportedPeers n m, ∃ a, x.podAddr = some a ∧ n ≤ a ∧ a < n + m.length := by
  induction m generalizing n with
  | nil => simp [np.supportedPeers]
  | cons kv rest ih =>
    obtain ⟨k, v⟩ := kv
    intro x hx
    simp only [np.supportedPeers, List.mem_cons] at hx
    rcases hx with hx | hx
    · subst hx
      exact ⟨n, rfl, le_refl _, by simp⟩
    · obtain ⟨a, ha, h1, h2⟩ := ih (n + 1) x hx
      exact ⟨a, ha, by omega, by simp only [List.length_cons]; omega⟩

theorem labelPeers_addr (n : Nat) (t : MultiLabels) :
    (∀ x ∈ (np.labelPeers n t).1, ∃ a, x.podAddr = some a ∧ n ≤ a) ∧
    (∀ x ∈ (np.labelPeers n t).2, ∃ a, x.podAddr = some a ∧ n ≤ a) := by
  induction t generalizing n with
  | nil => simp [np.labelPeers]
  | cons kv rest ih =>
    obtain ⟨k, v⟩ := kv
    constructor
    · intro x hx
      simp only [np.labelPeers, List.mem_cons] at hx
      rcases hx with hx | hx
      · subst hx; exact ⟨n, rfl, le_refl _⟩
      · obtain ⟨a, ha, h1⟩ := (ih (n + 2)).1 x hx
        exact ⟨a, ha, by omega⟩
    · intro x hx
      simp only [np.labelPeers, List.mem_cons] at hx
      rcases hx with hx | hx
      · subst hx; exact ⟨n + 1, rfl, by omega⟩
      · obtain ⟨a, ha, h1⟩ := (ih (n + 2)).2 x hx
        exact ⟨a, ha, by omega⟩

/-- Among the label peers of one direction, a peer is the only one at its address. -/
theorem labelPeers_inj (n : Nat) (t : MultiLabels) :
    (∀ x ∈ (np.labelPeers n t).1, ∀ y ∈ (np.labelPeers n t).1, x.podAddr = y.podAddr → x = y) ∧
    (∀ x ∈ (np.labelPeers n t).2, ∀ y ∈ (np.labelPeers n t).2, x.podAddr = y.podAddr → x = y) := by
  induction t generalizing n with
  | nil => simp [np.labelPeers]
  | cons kv rest ih =>
    obtain ⟨k, v⟩ := kv
    constructor
    · intro x hx y hy hxy
      simp only [np.labelPeers, List.mem_cons] at hx hy
      rcases hx with hx | hx <;> rcases hy with hy | hy
      · rw [hx, hy]
      · subst hx
        obtain ⟨a, ha, h1⟩ := (labelPeers_addr (n + 2) rest).1 y hy
        rw [ha, podAddr_inPeer] at hxy
        simp only [Option.some.injEq] at hxy
        omega
      · subst hy
        obtain ⟨a, ha, h1⟩ := (labelPeers_addr (n + 2) rest).1 x hx
        rw [ha, podAddr_inPeer] at hxy
        simp only [Option.some.injEq] at hxy
        omega
      · exact (ih (n + 2)).1 x hx y hy hxy
    · intro x hx y hy hxy
      simp only [np.labelPeers, List.mem_cons] at hx hy
      rcases hx with hx | hx <;> rcases hy with hy | hy
      · rw [hx, hy]
      · subst hx
        obtain ⟨a, ha, h1⟩ := (labelPeers_addr (n + 2) rest).2 y hy
        rw [ha, podAddr_inPeer] at hxy
        simp only [Option.some.injEq] at hxy
        omega
      · subst hy
        obtain ⟨a, ha, h1⟩ := (labelPeers_addr (n + 2) rest).2 x hx
        rw [ha, podAddr_inPeer] at hxy
        simp only [Option.some.injEq] at hxy
        omega
      · exact (ih (n + 2)).2 x hx y hy hxy

theorem labelPeers_mem (n : Nat) (t : MultiLabels) (k : String) (vs : List String)
    (h : (k, vs) ∈ t) :
    (∃ a, np.inPeer a k (np.finalValues vs) ∈ (np.labelPeers n t).1) ∧
    (∃ a, np.inPeer a k (np.finalValues vs) ∈ (np.labelPeers n t).2) := by
  induction t generalizing n with
  | nil => simp at h
  | cons kv rest ih =>
    obtain ⟨k0, v0⟩ := kv
    simp only [List.mem_cons, Prod.mk.injEq] at h
    rcases h with ⟨hk, hv⟩ | h
    · subst hk; subst hv
      exact ⟨⟨n, List.mem_cons_self _ _⟩, ⟨n + 1, List.mem_cons_self _ _⟩⟩
    · obtain ⟨⟨a, ha⟩, ⟨b, hb⟩⟩ := ih (n + 2) h
      exact ⟨⟨a, List.mem_cons_of_mem _ ha⟩, ⟨b, List.mem_cons_of_mem _ hb⟩⟩

/-! ## Contains and ExtendPeers -/

theorem Contains_iff {α : Type} [GoEq α] (elems : List α) (v : α) :
    attr.Contains elems v = true ↔ ∃ s ∈ elems, GoEq.eq v s = true := by
  unfold attr.Contains
  cases elems with
  | nil => simp
  | cons a l => simp

theorem Contains_string (elems : List String) (v : String) :
    attr.Contains elems v = true ↔ v ∈ elems := by
  rw [Contains_iff]
  simp [GoEq.eq]

theorem ExtendPeers_ingress (ip ep : List NetworkPolicyPeer) (p : NetworkPolicy) :
    (np.ExtendPeers ip ep p).Spec.Ingress =
      p.Spec.Ingress.map (fun r => { From := extendList ip r.From }) := by
  unfold np.ExtendPeers
  simp only
  generalize p.Spec.Ingress = rules
  induction ip generalizing rules with
  | nil => simp [extendList]
  | cons pol ip ih =>
    simp only [List.foldl_cons]
    rw [ih]
    simp only [List.map_map]
    apply List.map_congr_left
    intro r _
    simp only [Function.comp, extendList, List.foldl_cons]
    by_cases h : attr.Contains r.From pol = true
    · simp [h]
    · simp [h]

theorem ExtendPeers_egress (ip ep : List NetworkPolicyPeer) (p : NetworkPolicy) :
    (np.ExtendPeers ip ep p).Spec.Egress =
      p.Spec.Egress.map (fun r => { To := extendList ep r.To }) := by
  unfold np.ExtendPeers
  simp only
  generalize p.Spec.Egress = rules
  induction ep generalizing rules with
  | nil => simp [extendList]
  | cons pol ep ih =>
    simp only [List.foldl_cons]
    rw [ih]
    simp only [List.map_map]
    apply List.map_congr_left
    intro r _
    simp only [Function.comp, extendList, List.foldl_cons]
    by_cases h : attr.Contains r.To pol = true
    · simp [h]
    · simp [h]

theorem ExtendPeers_selector (ip ep : List NetworkPolicyPeer) (p : NetworkPolicy) :
    (np.ExtendPeers ip ep p).Spec.PodSelector = p.Spec.PodSelector ∧
    (np.ExtendPeers ip ep p).Name = p.Name ∧
    (np.ExtendPeers ip ep p).Namespace = p.Namespace := ⟨rfl, rfl, rfl⟩

theorem extendList_prefix (ps peers : List NetworkPolicyPeer) :
    ∃ added, extendList ps peers = peers ++ added ∧ ∀ x ∈ added, x ∈ ps := by
  induction ps generalizing peers with
  | nil => exact ⟨[], by simp [extendList], by simp⟩
  | cons pol ps ih =>
    simp only [extendList, List.foldl_cons]
    by_cases h : attr.Contains peers pol = true
    · simp only [h, Bool.not_true, Bool.false_eq_true, if_false]
      obtain ⟨added, ha, hb⟩ := ih peers
      exact ⟨added, ha, fun x hx => List.mem_cons_of_mem _ (hb x hx)⟩
    · have h' : attr.Contains peers pol = false := by simpa using h
      simp only [h', Bool.not_false, if_true]
      obtain ⟨added, ha, hb⟩ := ih (peers ++ [pol])
      refine ⟨pol :: added, ?_, ?_⟩
      · simp only [extendList] at ha
        rw [ha]
        simp
      · intro x hx
        simp only [List.mem_cons] at hx
        rcases hx with hx | hx
        · subst hx; exact List.mem_cons_self _ _
        · exact List.mem_cons_of_mem _ (hb x hx)

theorem mem_extendList_left (ps peers : List NetworkPolicyPeer) (q : NetworkPolicyPeer)
    (h : q ∈ peers) : q ∈ extendList ps peers := by
  obtain ⟨added, ha, _⟩ := extendList_prefix ps peers
  rw [ha]
  exact List.mem_append_left _ h

/-- A new peer ends up in the rule when every peer at its address, in the rule and among the
new peers, is that peer. -/
theorem mem_extendList_new (ps peers : List NetworkPolicyPeer) (pol : NetworkPolicyPeer)
    (hpol : pol ∈ ps)
    (hold : ∀ q ∈ peers, GoEq.eq pol q = true → q = pol)
    (hnew : ∀ x ∈ ps, GoEq.eq x pol = true → x = pol) :
    pol ∈ extendList ps peers := by
  induction ps generalizing peers with
  | nil => simp at hpol
  | cons x ps ih =>
    simp only [extendList, List.foldl_cons]
    by_cases hc : attr.Contains peers x = true
    · simp only [hc, Bool.not_true, Bool.false_eq_true, if_false]
      simp only [List.mem_cons] at hpol
      rcases hpol with hpol | hpol
      · subst hpol
        obtain ⟨s, hs, hes⟩ := (Contains_iff peers pol).1 hc
        have := hold s hs hes
        subst this
        exact mem_extendList_left ps peers s hs
      · exact ih peers hpol hold (fun y hy => hnew y (List.mem_cons_of_mem _ hy))
    · have hc' : attr.Contains peers x = false := by simpa using hc
      simp only [hc', Bool.not_false, if_true]
      simp only [List.mem_cons] at hpol
      rcases hpol with hpol | hpol
      · subst hpol
        exact mem_extendList_left ps _ pol (List.mem_append_right _ (List.mem_singleton.2 rfl))
      · refine ih (peers ++ [x]) hpol ?_ (fun y hy => hnew y (List.mem_cons_of_mem _ hy))
        intro q hq heq
        simp only [List.mem_append, List.mem_singleton] at hq
        rcases hq with hq | hq
        · exact hold q hq heq
        · subst hq
          have hsym : GoEq.eq q pol = true := by
            simp only [GoEq.eq, Bool.and_eq_true] at heq ⊢
            obtain ⟨⟨h1, h2⟩, h3⟩ := heq
            have sym : ∀ {α : Type} (a b : Option (Ptr α)), ptrEq a b = true → ptrEq b a = true := by
              intro α a b h
              cases a <;> cases b <;> simp_all [ptrEq]
            exact ⟨⟨sym _ _ h1, sym _ _ h2⟩, sym _ _ h3⟩
          exact hnew q (List.mem_cons_self _ _) hsym

/-- A label peer built at or above `n` is added by `ExtendPeers` to a rule whose peers all sit
below `n`. -/
theorem label_peer_added (n : Nat) (t : MultiLabels) (peers : List NetworkPolicyPeer)
    (hpeers : ∀ q ∈ peers, q.below n) :
    (∀ pol ∈ (np.labelPeers (n + 2) t).1,
      pol ∈ extendList (np.supportedPeers n defaultKeyValues ++ (np.labelPeers (n + 2) t).1)
        peers) ∧
    (∀ pol ∈ (np.labelPeers (n + 2) t).2,
      pol ∈ extendList (np.supportedPeers n defaultKeyValues ++ (np.labelPeers (n + 2) t).2)
        peers) := by
  constructor
  · intro pol hpol
    obtain ⟨a, ha, hna⟩ := (labelPeers_addr (n + 2) t).1 pol hpol
    apply mem_extendList_new _ _ pol (List.mem_append_right _ hpol)
    · intro q hq heq
      have := eq_podAddr heq
      rw [ha] at this
      have := below_podAddr (hpeers q hq) a this.symm
      omega
    · intro x hx heq
      have hxa := eq_podAddr heq
      rw [ha] at hxa
      simp only [List.mem_append] at hx
      rcases hx with hx | hx
      · obtain ⟨b, hb, _, h2⟩ := supportedPeers_addr n defaultKeyValues x hx
        rw [hb] at hxa
        simp only [Option.some.injEq] at hxa
        have : defaultKeyValues.length = 2 := rfl
        omega
      · exact (labelPeers_inj (n + 2) t).1 x hx pol hpol (by rw [hxa, ha])
  · intro pol hpol
    obtain ⟨a, ha, hna⟩ := (labelPeers_addr (n + 2) t).2 pol hpol
    apply mem_extendList_new _ _ pol (List.mem_append_right _ hpol)
    · intro q hq heq
      have := eq_podAddr heq
      rw [ha] at this
      have := below_podAddr (hpeers q hq) a this.symm
      omega
    · intro x hx heq
      have hxa := eq_podAddr heq
      rw [ha] at hxa
      simp only [List.mem_append] at hx
      rcases hx with hx | hx
      · obtain ⟨b, hb, _, h2⟩ := supportedPeers_addr n defaultKeyValues x hx
        rw [hb] at hxa
        simp only [Option.some.injEq] at hxa
        have : defaultKeyValues.length = 2 := rfl
        omega
      · exact (labelPeers_inj (n + 2) t).2 x hx pol hpol (by rw [hxa, ha])

theorem ExtendPeers_keeps (l : Labels) (ip ep : List NetworkPolicyPeer) (p : NetworkPolicy)
    (h : p.hasLabelPeers l) : (np.ExtendPeers ip ep p).hasLabelPeers l := by
  refine ⟨h.1, ?_, ?_⟩
  · intro rule hrule k v hkv
    rw [ExtendPeers_ingress] at hrule
    obtain ⟨r, hr, rfl⟩ := List.mem_map.1 hrule
    obtain ⟨a, ha⟩ := h.2.1 r hr k v hkv
    exact ⟨a, mem_extendList_left _ _ _ ha⟩
  · intro rule hrule k v hkv
    rw [ExtendPeers_egress] at hrule
    obtain ⟨r, hr, rfl⟩ := List.mem_map.1 hrule
    obtain ⟨a, ha⟩ := h.2.2 r hr k v hkv
    exact ⟨a, mem_extendList_left _ _ _ ha⟩

/-! ## RemoveOldLabels -/

theorem updateFirstPeer_below (old : MultiLabels) (n : Nat)
    (peers peers' : List NetworkPolicyPeer)
    (h : np.updateFirstPeer old peers = .ok peers') (hb : ∀ q ∈ peers, q.below n) :
    ∀ q ∈ peers', q.below n := by
  cases peers with
  | nil => simp [np.updateFirstPeer] at h
  | cons peer rest =>
    simp only [np.updateFirstPeer] at h
    split at h
    · simp only [Result.ok.injEq] at h
      exact h ▸ hb
    · rename_i ptr hptr
      simp only [Result.ok.injEq] at h
      subst h
      intro q hq
      simp only [List.mem_cons] at hq
      rcases hq with hq | hq
      · subst hq
        intro x hx
        simp only [Option.some.injEq] at hx
        subst hx
        exact hb peer (List.mem_cons_self _ _) ptr hptr
      · exact hb q (List.mem_cons_of_mem _ hq)

theorem updateFirstPeer_ok (old : MultiLabels) (peers : List NetworkPolicyPeer)
    (h : peers ≠ []) : ∃ peers', np.updateFirstPeer old peers = .ok peers' := by
  cases peers with
  | nil => exact absurd rfl h
  | cons peer rest =>
    simp only [np.updateFirstPeer]
    split
    · exact ⟨_, rfl⟩
    · exact ⟨_, rfl⟩

theorem updateIngressRules_below (old : MultiLabels) (n : Nat)
    (rules rules' : List NetworkPolicyIngressRule)
    (h : np.updateIngressRules old rules = .ok rules')
    (hb : ∀ rule ∈ rules, ∀ q ∈ rule.From, q.below n) :
    ∀ rule ∈ rules', ∀ q ∈ rule.From, q.below n := by
  induction rules generalizing rules' with
  | nil =>
    simp only [np.updateIngressRules, Result.ok.injEq] at h
    subst h
    simp
  | cons r rs ih =>
    unfold np.updateIngressRules at h
    split at h
    · simp at h
    · simp at h
    · rename_i peers hpeers
      split at h
      · simp at h
      · simp at h
      · rename_i rs' hrs'
        simp only [Result.ok.injEq] at h
        subst h
        intro rule hrule
        simp only [List.mem_cons] at hrule
        rcases hrule with hrule | hrule
        · subst hrule
          exact updateFirstPeer_below old n r.From peers hpeers (hb r (List.mem_cons_self _ _))
        · exact ih rs' hrs' (fun x hx => hb x (List.mem_cons_of_mem _ hx)) rule hrule

theorem updateEgressRules_below (old : MultiLabels) (n : Nat)
    (rules rules' : List NetworkPolicyEgressRule)
    (h : np.updateEgressRules old rules = .ok rules')
    (hb : ∀ rule ∈ rules, ∀ q ∈ rule.To, q.below n) :
    ∀ rule ∈ rules', ∀ q ∈ rule.To, q.below n := by
  induction rules generalizing rules' with
  | nil =>
    simp only [np.updateEgressRules, Result.ok.injEq] at h
    subst h
    simp
  | cons r rs ih =>
    unfold np.updateEgressRules at h
    split at h
    · simp at h
    · simp at h
    · rename_i peers hpeers
      split at h
      · simp at h
      · simp at h
      · rename_i rs' hrs'
        simp only [Result.ok.injEq] at h
        subst h
        intro rule hrule
        simp only [List.mem_cons] at hrule
        rcases hrule with hrule | hrule
        · subst hrule
          exact updateFirstPeer_below old n r.To peers hpeers (hb r (List.mem_cons_self _ _))
        · exact ih rs' hrs' (fun x hx => hb x (List.mem_cons_of_mem _ hx)) rule hrule

theorem updateIngressRules_ok (old : MultiLabels) (rules : List NetworkPolicyIngressRule)
    (h : ∀ rule ∈ rules, rule.From ≠ []) : ∃ rules', np.updateIngressRules old rules = .ok rules' := by
  induction rules with
  | nil => exact ⟨[], rfl⟩
  | cons r rs ih =>
    obtain ⟨peers, hp⟩ := updateFirstPeer_ok old r.From (h r (List.mem_cons_self _ _))
    obtain ⟨rs', hrs⟩ := ih (fun x hx => h x (List.mem_cons_of_mem _ hx))
    exact ⟨{ From := peers } :: rs', by simp [np.updateIngressRules, hp, hrs]⟩

theorem updateEgressRules_ok (old : MultiLabels) (rules : List NetworkPolicyEgressRule)
    (h : ∀ rule ∈ rules, rule.To ≠ []) : ∃ rules', np.updateEgressRules old rules = .ok rules' := by
  induction rules with
  | nil => exact ⟨[], rfl⟩
  | cons r rs ih =>
    obtain ⟨peers, hp⟩ := updateFirstPeer_ok old r.To (h r (List.mem_cons_self _ _))
    obtain ⟨rs', hrs⟩ := ih (fun x hx => h x (List.mem_cons_of_mem _ hx))
    exact ⟨{ To := peers } :: rs', by simp [np.updateEgressRules, hp, hrs]⟩

theorem RemoveOldLabels_below (old : MultiLabels) (n : Nat) (p : NetworkPolicy)
    (ingress : List NetworkPolicyIngressRule) (egress : List NetworkPolicyEgressRule)
    (h : np.RemoveOldLabels old p.Spec.Ingress p.Spec.Egress = .ok (ingress, egress))
    (hf : p.fresh n) :
    (∀ rule ∈ ingress, ∀ q ∈ rule.From, q.below n) ∧
    (∀ rule ∈ egress, ∀ q ∈ rule.To, q.below n) := by
  unfold np.RemoveOldLabels at h
  split at h
  · simp at h
  · simp at h
  · rename_i i hi
    split at h
    · simp at h
    · simp at h
    · rename_i e he
      simp only [Result.ok.injEq, Prod.mk.injEq] at h
      obtain ⟨h1, h2⟩ := h
      subst h1; subst h2
      exact ⟨updateIngressRules_below old n _ _ hi hf.1, updateEgressRules_below old n _ _ he hf.2⟩

theorem RemoveOldLabels_ok (old : MultiLabels) (p : NetworkPolicy) (h : p.rulesNonEmpty) :
    ∃ r, np.RemoveOldLabels old p.Spec.Ingress p.Spec.Egress = .ok r := by
  obtain ⟨i, hi⟩ := updateIngressRules_ok old p.Spec.Ingress h.1
  obtain ⟨e, he⟩ := updateEgressRules_ok old p.Spec.Egress h.2
  exact ⟨(i, e), by simp [np.RemoveOldLabels, hi, he]⟩

/-! ## GetPolicyByPodLabels -/

theorem scanPolicies_mem (l : Labels) (ps : List NetworkPolicy) (p : NetworkPolicy)
    (h : np.scanPolicies l ps = .ok p) : p ∈ ps := by
  induction ps with
  | nil => simp [np.scanPolicies] at h
  | cons q qs ih =>
    unfold np.scanPolicies at h
    split at h
    · simp only [Result.ok.injEq] at h; subst h; exact List.mem_cons_self _ _
    · simp at h
    · simp at h
    · split at h
      · simp only [Result.ok.injEq] at h; subst h; exact List.mem_cons_self _ _
      · simp at h
      · simp at h
      · exact List.mem_cons_of_mem _ (ih h)

theorem GetPolicyByPodLabels_fresh (c : Client) (next : Nat) (ns : String) (l : Labels)
    (p : NetworkPolicy) (h : (np.GetPolicyByPodLabels c next ns l).1 = .ok p) :
    p.fresh (np.GetPolicyByPodLabels c next ns l).2 := by
  unfold np.GetPolicyByPodLabels at h ⊢
  split at h
  · simp at h
  · rename_i docs hdocs
    simp only [hdocs]
    by_cases hlen : (decodeList next docs).1.length = 0
    · simp [hlen] at h
    · simp only [hlen, if_false] at h ⊢
      exact (decodeList_mem next docs p (scanPolicies_mem l _ p h)).1

theorem scanPeers_no_labels (peers : List NetworkPolicyPeer)
    (h : ∀ peer ∈ peers, peer.PodSelector ≠ none) : np.scanPeers [] peers = .ok false := by
  induction peers with
  | nil => rfl
  | cons peer rest ih =>
    unfold np.scanPeers
    cases hp : peer.PodSelector with
    | none => exact absurd hp (h peer (List.mem_cons_self _ _))
    | some ptr =>
      have : ptr.val.MatchExpressions.any (np.reqMatches []) = false := by
        rw [List.any_eq_false]
        intro req _
        simp [np.reqMatches]
      simp only [this, Bool.false_eq_true, if_false]
      exact ih (fun q hq => h q (List.mem_cons_of_mem _ hq))

theorem scanRules_no_labels (rules : List (List NetworkPolicyPeer))
    (h : ∀ peers ∈ rules, ∀ peer ∈ peers, peer.PodSelector ≠ none) :
    np.scanRules [] rules = .ok false := by
  induction rules with
  | nil => rfl
  | cons peers rest ih =>
    unfold np.scanRules
    rw [scanPeers_no_labels peers (h peers (List.mem_cons_self _ _))]
    exact ih (fun q hq => h q (List.mem_cons_of_mem _ hq))

theorem scanPolicies_no_labels (ps : List NetworkPolicy) (h : ∀ p ∈ ps, p.selectorsSet) :
    np.scanPolicies [] ps = .error .npErrNotFound := by
  induction ps with
  | nil => rfl
  | cons p rest ih =>
    unfold np.scanPolicies
    have hp := h p (List.mem_cons_self _ _)
    rw [scanRules_no_labels _ (by
      intro peers hps peer hpeer
      obtain ⟨rule, hr, rfl⟩ := List.mem_map.1 hps
      exact hp.1 rule hr peer hpeer)]
    simp only
    rw [scanRules_no_labels _ (by
      intro peers hps peer hpeer
      obtain ⟨rule, hr, rfl⟩ := List.mem_map.1 hps
      exact hp.2 rule hr peer hpeer)]
    exact ih (fun q hq => h q (List.mem_cons_of_mem _ hq))

theorem GetPolicyByPodLabels_no_labels (c : Client) (next : Nat) (ns : String)
    (docs : List PolicyDoc) (hlist : c.listPolicies ns = .ok docs)
    (hsel : ∀ d ∈ docs, d.podSelectorsSet) :
    (np.GetPolicyByPodLabels c next ns []).1 = .error .npErrNotFound := by
  unfold np.GetPolicyByPodLabels
  simp only [hlist]
  split
  · rfl
  · exact scanPolicies_no_labels _ (fun p hp => (decodeList_mem next docs p hp).2 hsel)

theorem reqMatches_iff (l : Labels) (req : LabelSelectorRequirement) :
    np.reqMatches l req = true ↔ req.selects l := by
  unfold np.reqMatches LabelSelectorRequirement.selects
  by_cases hop : req.Operator = LabelSelectorOpIn
  · simp only [hop, ne_eq, not_true_eq_false, if_false, List.any_eq_true, Bool.and_eq_true,
      decide_eq_true_eq, Contains_string, true_and]
  · simp [hop]

theorem scanPeers_spec (l : Labels) (peers : List NetworkPolicyPeer)
    (h : ∀ peer ∈ peers, peer.PodSelector ≠ none) :
    ∃ b, np.scanPeers l peers = .ok b ∧
      (b = true ↔ ∃ peer ∈ peers, (encodePeer peer).selects l) := by
  induction peers with
  | nil => exact ⟨false, rfl, by simp⟩
  | cons peer rest ih =>
    obtain ⟨b, hb, hiff⟩ := ih (fun q hq => h q (List.mem_cons_of_mem _ hq))
    cases hp : peer.PodSelector with
    | none => exact absurd hp (h peer (List.mem_cons_self _ _))
    | some ptr =>
      have hsel : (encodePeer peer).selects l ↔
          ptr.val.MatchExpressions.any (np.reqMatches l) = true := by
        simp only [PeerDoc.selects, encodePeer, encodePtr, hp, Option.map_some',
          Option.some.injEq, exists_eq_left', List.any_eq_true, reqMatches_iff]
      by_cases hm : ptr.val.MatchExpressions.any (np.reqMatches l) = true
      · refine ⟨true, by simp [np.scanPeers, hp, hm], ?_⟩
        simp only [true_iff]
        exact ⟨peer, List.mem_cons_self _ _, hsel.2 hm⟩
      · refine ⟨b, by simp [np.scanPeers, hp, hm, hb], ?_⟩
        rw [hiff]
        constructor
        · rintro ⟨q, hq, hs⟩
          exact ⟨q, List.mem_cons_of_mem _ hq, hs⟩
        · rintro ⟨q, hq, hs⟩
          simp only [List.mem_cons] at hq
          rcases hq with hq | hq
          · subst hq
            exact absurd (hsel.1 hs) hm
          · exact ⟨q, hq, hs⟩

theorem scanRules_spec (l : Labels) (rules : List (List NetworkPolicyPeer))
    (h : ∀ peers ∈ rules, ∀ peer ∈ peers, peer.PodSelector ≠ none) :
    ∃ b, np.scanRules l rules = .ok b ∧
      (b = true ↔ ∃ peers ∈ rules, ∃ peer ∈ peers, (encodePeer peer).selects l) := by
  induction rules with
  | nil => exact ⟨false, rfl, by simp⟩
  | cons peers rest ih =>
    obtain ⟨b, hb, hiff⟩ := ih (fun q hq => h q (List.mem_cons_of_mem _ hq))
    obtain ⟨b0, hb0, hiff0⟩ := scanPeers_spec l peers (h peers (List.mem_cons_self _ _))
    cases b0 with
    | true =>
      refine ⟨true, by simp [np.scanRules, hb0], ?_⟩
      simp only [true_iff]
      obtain ⟨peer, hp, hs⟩ := hiff0.1 rfl
      exact ⟨peers, List.mem_cons_self _ _, peer, hp, hs⟩
    | false =>
      refine ⟨b, by simp [np.scanRules, hb0, hb], ?_⟩
      rw [hiff]
      constructor
      · rintro ⟨ps, hps, x⟩
        exact ⟨ps, List.mem_cons_of_mem _ hps, x⟩
      · rintro ⟨ps, hps, peer, hp, hs⟩
        simp only [List.mem_cons] at hps
        rcases hps with hps | hps
        · subst hps
          have := hiff0.2 ⟨peer, hp, hs⟩
          simp at this
        · exact ⟨ps, hps, peer, hp, hs⟩

theorem encode_matches (p : NetworkPolicy) (l : Labels) :
    (encode p).matchesLabels l ↔
      (∃ peers ∈ p.Spec.Ingress.map (fun r => r.From), ∃ peer ∈ peers,
        (encodePeer peer).selects l) ∨
      (∃ peers ∈ p.Spec.Egress.map (fun r => r.To), ∃ peer ∈ peers,
        (encodePeer peer).selects l) := by
  simp only [PolicyDoc.matchesLabels, encode, List.mem_append, List.mem_map]
  constructor
  · rintro ⟨rule, (⟨r, hr, rfl⟩ | ⟨r, hr, rfl⟩), d, hd, hs⟩
    · obtain ⟨peer, hp, rfl⟩ := List.mem_map.1 hd
      exact Or.inl ⟨r.From, ⟨r, hr, rfl⟩, peer, hp, hs⟩
    · obtain ⟨peer, hp, rfl⟩ := List.mem_map.1 hd
      exact Or.inr ⟨r.To, ⟨r, hr, rfl⟩, peer, hp, hs⟩
  · rintro (⟨peers, ⟨r, hr, rfl⟩, peer, hp, hs⟩ | ⟨peers, ⟨r, hr, rfl⟩, peer, hp, hs⟩)
    · exact ⟨_, Or.inl ⟨r, hr, rfl⟩, encodePeer peer, List.mem_map.2 ⟨peer, hp, rfl⟩, hs⟩
    · exact ⟨_, Or.inr ⟨r, hr, rfl⟩, encodePeer peer, List.mem_map.2 ⟨peer, hp, rfl⟩, hs⟩

/-- On policies whose peers all have a pod selector, the scan returns the first policy that
matches, and NotFound when none does. -/
theorem scanPolicies_spec (l : Labels) (ps : List NetworkPolicy)
    (h : ∀ p ∈ ps, p.selectorsSet) :
    ((∀ p ∈ ps, ¬ (encode p).matchesLabels l) ∧ np.scanPolicies l ps = .error .npErrNotFound) ∨
    (∃ pre p post, ps = pre ++ p :: post ∧ (∀ q ∈ pre, ¬ (encode q).matchesLabels l) ∧
      (encode p).matchesLabels l ∧ np.scanPolicies l ps = .ok p) := by
  induction ps with
  | nil => exact Or.inl ⟨by simp, rfl⟩
  | cons p rest ih =>
    have hp := h p (List.mem_cons_self _ _)
    obtain ⟨bi, hbi, hiffi⟩ := scanRules_spec l (p.Spec.Ingress.map (fun r => r.From)) (by
      intro peers hps peer hpeer
      obtain ⟨rule, hr, rfl⟩ := List.mem_map.1 hps
      exact hp.1 rule hr peer hpeer)
    obtain ⟨be, hbe, hiffe⟩ := scanRules_spec l (p.Spec.Egress.map (fun r => r.To)) (by
      intro peers hps peer hpeer
      obtain ⟨rule, hr, rfl⟩ := List.mem_map.1 hps
      exact hp.2 rule hr peer hpeer)
    cases bi with
    | true =>
      refine Or.inr ⟨[], p, rest, rfl, by simp, ?_, by simp [np.scanPolicies, hbi]⟩
      exact (encode_matches p l).2 (Or.inl (hiffi.1 rfl))
    | false =>
      cases be with
      | true =>
        refine Or.inr ⟨[], p, rest, rfl, by simp, ?_, by simp [np.scanPolicies, hbi, hbe]⟩
        exact (encode_matches p l).2 (Or.inr (hiffe.1 rfl))
      | false =>
        have hno : ¬ (encode p).matchesLabels l := by
          intro hm
          rcases (encode_matches p l).1 hm with hm | hm
          · have := hiffi.2 hm; simp at this
          · have := hiffe.2 hm; simp at this
        have hstep : np.scanPolicies l (p :: rest) = np.scanPolicies l rest := by
          simp [np.scanPolicies, hbi, hbe]
        rcases ih (fun q hq => h q (List.mem_cons_of_mem _ hq)) with ⟨hall, hres⟩ |
            ⟨pre, q, post, hsplit, hpre, hq, hres⟩
        · refine Or.inl ⟨?_, by rw [hstep, hres]⟩
          intro q hq
          simp only [List.mem_cons] at hq
          rcases hq with hq | hq
          · subst hq; exact hno
          · exact hall q hq
        · refine Or.inr ⟨p :: pre, q, post, by rw [hsplit]; rfl, ?_, hq, by rw [hstep, hres]⟩
          intro x hx
          simp only [List.mem_cons] at hx
          rcases hx with hx | hx
          · subst hx; exact hno
          · exact hpre x hx

/-- The lookup on a namespace whose list call succeeds and whose peers all have a pod selector:
NotFound when no listed policy matches the labels, otherwise the first listed policy that
matches. -/
theorem GetPolicyByPodLabels_spec (c : Client) (next : Nat) (ns : String) (l : Labels)
    (docs : List PolicyDoc) (hlist : c.listPolicies ns = .ok docs)
    (hsel : ∀ d ∈ docs, d.podSelectorsSet) :
    ((∀ d ∈ docs, ¬ d.matchesLabels l) ∧
      (np.GetPolicyByPodLabels c next ns l).1 = .error .npErrNotFound) ∨
    (∃ pre p post, docs = pre ++ encode p :: post ∧ (∀ d ∈ pre, ¬ d.matchesLabels l) ∧
      (encode p).matchesLabels l ∧ (np.GetPolicyByPodLabels c next ns l).1 = .ok p) := by
  have henc := decodeList_encode next docs
  have hs : ∀ p ∈ (decodeList next docs).1, p.selectorsSet :=
    fun p hp => (decodeList_mem next docs p hp).2 hsel
  have hres : (np.GetPolicyByPodLabels c next ns l).1 = np.scanPolicies l (decodeList next docs).1 := by
    unfold np.GetPolicyByPodLabels
    simp only [hlist]
    by_cases hlen : (decodeList next docs).1.length = 0
    · have : (decodeList next docs).1 = [] := List.length_eq_zero.1 hlen
      simp [hlen, this, np.scanPolicies]
    · simp [hlen]
  rw [hres]
  rcases scanPolicies_spec l _ hs with ⟨hall, hnf⟩ | ⟨pre, p, post, hsplit, hpre, hp, hok⟩
  · refine Or.inl ⟨?_, hnf⟩
    intro d hd
    rw [← henc] at hd
    obtain ⟨p, hp, rfl⟩ := List.mem_map.1 hd
    exact hall p hp
  · refine Or.inr ⟨pre.map encode, p, post.map encode, ?_, ?_, hp, hok⟩
    · rw [← henc, hsplit]
      simp
    · intro d hd
      obtain ⟨q, hq, rfl⟩ := List.mem_map.1 hd
      exact hpre q hq

/-! ## Mutate, AddLabel and the tail of the handlers -/

theorem Mutate_congr (write : Writer) (a : object.Action) (p q : NetworkPolicy)
    (h : encode p = encode q) :
    object.Mutate write (.policy p) a = object.Mutate write (.policy q) a := by
  have hn : p.Name = q.Name := congrArg PolicyDoc.Name h
  have hs : p.Namespace = q.Namespace := congrArg PolicyDoc.Namespace h
  simp [object.Mutate, object.getGVR, object.toWire, MetaObject.GetName, MetaObject.GetNamespace,
    h, hn, hs]

theorem Mutate_policy (write : Writer) (a : object.Action) (p : NetworkPolicy) :
    (object.Mutate write (.policy p) a).2 =
      [match a with
        | .Create => .create policiesGVR p.Namespace (.policy (encode p))
        | .Update => .update policiesGVR p.Namespace (.policy (encode p))
        | .Delete => .delete policiesGVR p.Namespace p.Name] := by
  cases a <;>
    simp only [object.Mutate, object.getGVR, object.toWire, MetaObject.GetNamespace,
      MetaObject.GetName, policiesGVR] <;>
    split <;> rfl

theorem submit_congr (write : Writer) (a : object.Action) (before : List MutateCall)
    (r r' : Result NetworkPolicy) (h : r.map encode = r'.map encode) :
    submit write a before r = submit write a before r' := by
  cases r with
  | ok p =>
    cases r' with
    | ok q =>
      have hpq : encode p = encode q := by simpa [Result.map] using h
      simp [submit, Mutate_congr write a p q hpq]
    | error e => simp [Result.map] at h
    | panic m => simp [Result.map] at h
  | error e =>
    cases r' with
    | ok q => simp [Result.map] at h
    | error e' =>
      have : e = e' := by simpa [Result.map] using h
      simp [submit, this]
    | panic m => simp [Result.map] at h
  | panic m =>
    cases r' with
    | ok q => simp [Result.map] at h
    | error e' => simp [Result.map] at h
    | panic m' =>
      have : m = m' := by simpa [Result.map] using h
      simp [submit, this]

theorem submit_calls (write : Writer) (a : object.Action) (before : List MutateCall)
    (r : Result NetworkPolicy) :
    (submit write a before r).calls =
      match r with
      | .ok p => before ++ (object.Mutate write (.policy p) a).2
      | _ => before := by
  cases r with
  | ok p =>
    simp only [submit]
    split <;> simp_all
  | error e => rfl
  | panic m => rfl

theorem submit_result_ok (write : Writer) (a : object.Action) (before : List MutateCall)
    (p : NetworkPolicy) (hw : ∀ call, write call = none) :
    (submit write a before (.ok p)).result = .ok () := by
  cases a <;>
    simp [submit, object.Mutate, object.getGVR, object.toWire, hw]

theorem submit_not_ok (write : Writer) (a : object.Action) (before : List MutateCall)
    (r : Result NetworkPolicy) (h : ∀ p, r ≠ .ok p) :
    (submit write a before r).result ≠ .ok () ∧ (submit write a before r).calls = before := by
  cases r with
  | ok p => exact absurd rfl (h p)
  | error e => simp [submit]
  | panic m => simp [submit]

theorem submit_create_ok (write : Writer) (before : List MutateCall) (p : NetworkPolicy)
    (hw : ∀ call, write call = none) :
    submit write .Create before (.ok p) =
      ⟨.ok (), before ++ [.create policiesGVR p.Namespace (.policy (encode p))]⟩ := by
  simp [submit, object.Mutate, object.getGVR, object.toWire, hw, MetaObject.GetNamespace,
    policiesGVR]

theorem submit_update_ok (write : Writer) (before : List MutateCall) (p : NetworkPolicy)
    (hw : ∀ call, write call = none) :
    submit write .Update before (.ok p) =
      ⟨.ok (), before ++ [.update policiesGVR p.Namespace (.policy (encode p))]⟩ := by
  simp [submit, object.Mutate, object.getGVR, object.toWire, hw, MetaObject.GetNamespace,
    policiesGVR]

theorem AddLabel_ok (write : Writer) (w : Workload) (hw : ∀ call, write call = none) :
    ∃ gvr, object.AddLabel write w =
      (none, w.SetLabels [("netpol-ctrl", w.GetName ++ "-" ++ w.GetNamespace)],
        [.update gvr w.GetNamespace
          (.workload (w.SetLabels [("netpol-ctrl", w.GetName ++ "-" ++ w.GetNamespace)]))]) := by
  cases w with
  | Pod m cs =>
    exact ⟨⟨"", "v1", "pods"⟩, by
      simp [object.AddLabel, object.Mutate, object.getGVR, object.toWire, hw, Workload.SetLabels,
        MetaObject.GetNamespace, MetaObject.GetName, Workload.GetNamespace, Workload.meta]⟩
  | Deployment m s cs =>
    exact ⟨⟨"apps", "v1", "deployments"⟩, by
      simp [object.AddLabel, object.Mutate, object.getGVR, object.toWire, hw, Workload.SetLabels,
        MetaObject.GetNamespace, MetaObject.GetName, Workload.GetNamespace, Workload.meta]⟩
  | StatefulSet m s cs =>
    exact ⟨⟨"apps", "v1", "statefulsets"⟩, by
      simp [object.AddLabel, object.Mutate, object.getGVR, object.toWire, hw, Workload.SetLabels,
        MetaObject.GetNamespace, MetaObject.GetName, Workload.GetNamespace, Workload.meta]⟩
  | DaemonSet m s cs =>
    exact ⟨⟨"apps", "v1", "daemonsets"⟩, by
      simp [object.AddLabel, object.Mutate, object.getGVR, object.toWire, hw, Workload.SetLabels,
        MetaObject.GetNamespace, MetaObject.GetName, Workload.GetNamespace, Workload.meta]⟩

theorem AddLabel_calls (write : Writer) (w : Workload) :
    ∀ call ∈ (object.AddLabel write w).2.2, call.isPolicyUpdate = false := by
  intro call hc
  unfold object.AddLabel at hc
  dsimp only at hc
  split at hc
  all_goals
    rename_i heq
    have h2 := congrArg Prod.snd heq
    simp only at h2 hc
    cases w <;>
      simp only [Workload.SetLabels, object.Mutate, object.getGVR, object.toWire] at h2 <;>
      split at h2 <;> simp only at h2 <;> subst h2 <;>
      simp only [List.mem_singleton] at hc <;> subst hc <;> rfl

/-! ## HandleAdd -/

theorem buildPolicy_empty_selector (c : Client) (next : Nat) (name : String) (w : Workload)
    (envVars : GoMap String String) (p : NetworkPolicy) :
    (buildPolicy c next name [] w envVars).1 ≠ .ok p := by
  unfold buildPolicy
  split
  · simp
  · split
    · simp [np.NewPolicy]
    · simp
  · split
    · simp
    · simp
    · simp [np.NewPolicy]

/-- The policy after the error wrapping of `buildPolicy`. -/
theorem wrap_map (r : Result NetworkPolicy × Nat) (msg : String) :
    (match r with
      | (.error err, n) => ((Result.error (Error.wrap msg err) : Result NetworkPolicy), n)
      | r => r).1.map encode =
    match r.1.map encode with
      | .error err => .error (Error.wrap msg err)
      | x => x := by
  obtain ⟨r, n⟩ := r
  cases r <;> simp [Result.map]

theorem buildPolicy_encode (c : Client) (n n' : Nat) (name : String) (l : Labels) (w : Workload)
    (envVars : GoMap String String) :
    (buildPolicy c n name l w envVars).1.map encode
      = (buildPolicy c n' name l w envVars).1.map encode := by
  unfold buildPolicy
  split
  · rfl
  · split
    · rw [wrap_map, wrap_map, NewPolicy_encode, NewPolicy_encode]
    · rfl
  · split
    · rfl
    · rfl
    · rw [wrap_map, wrap_map, NewPolicy_encode, NewPolicy_encode]

theorem addPolicy_next (c : Client) (write : Writer) (n n' : Nat) (name : String) (l : Labels)
    (w : Workload) (calls : List MutateCall) :
    addPolicy c write n name l w calls = addPolicy c write n' name l w calls := by
  unfold addPolicy
  dsimp only
  generalize (match attr.GetLocalEnvVars (.workload w) with
    | .error err => if (!err.Is .attrErrNoEnvVars) = true then Result.error err else .ok []
    | r => r) = ev
  cases ev with
  | ok e => exact submit_congr _ _ _ _ _ (buildPolicy_encode c n n' _ _ _ _)
  | error e => rfl
  | panic m => rfl

theorem HandleAdd_next (c : Client) (write : Writer) (n n' : Nat) (obj : Any) :
    HandleAdd c write n obj = HandleAdd c write n' obj := by
  unfold HandleAdd
  cases object.ConvertToMeta (.delivered obj) with
  | error e => rfl
  | panic m => rfl
  | ok v =>
    obtain ⟨l, w⟩ := v
    dsimp only
    by_cases hns : w.GetNamespace = "kube-system"
    · simp [hns]
    · simp only [hns, if_false]
      generalize (if w.GetLabels.length = 0 then object.AddLabel write w else (none, w, [])) = lab
      obtain ⟨e, w', calls⟩ := lab
      cases e with
      | some e => rfl
      | none => exact addPolicy_next c write n n' _ _ _ _

theorem addPolicy_no_policy_update (c : Client) (write : Writer) (n : Nat) (name : String)
    (l : Labels) (w : Workload) (calls : List MutateCall)
    (h : ∀ call ∈ calls, call.isPolicyUpdate = false) :
    ∀ call ∈ (addPolicy c write n name l w calls).calls, call.isPolicyUpdate = false := by
  unfold addPolicy
  dsimp only
  generalize (match attr.GetLocalEnvVars (.workload w) with
    | .error err => if (!err.Is .attrErrNoEnvVars) = true then Result.error err else .ok []
    | r => r) = ev
  cases ev with
  | error e => exact h
  | panic m => exact h
  | ok e =>
    rw [submit_calls]
    split
    · intro call hc
      rw [Mutate_policy] at hc
      simp only [List.mem_append, List.mem_singleton] at hc
      rcases hc with hc | hc
      · exact h call hc
      · subst hc; rfl
    · exact h

theorem HandleAdd_no_policy_update (c : Client) (write : Writer) (n : Nat) (obj : Any) :
    ∀ call ∈ (HandleAdd c write n obj).calls, call.isPolicyUpdate = false := by
  unfold HandleAdd
  cases object.ConvertToMeta (.delivered obj) with
  | error e => simp
  | panic m => simp
  | ok v =>
    obtain ⟨l, w⟩ := v
    dsimp only
    by_cases hns : w.GetNamespace = "kube-system"
    · simp [hns]
    · simp only [hns, if_false]
      by_cases hl : w.GetLabels.length = 0
      · simp only [hl, if_true]
        have hcalls := AddLabel_calls write w
        generalize object.AddLabel write w = lab at hcalls
        obtain ⟨e, w', calls⟩ := lab
        cases e with
        | some e => exact hcalls
        | none => exact addPolicy_no_policy_update c write n _ _ _ _ hcalls
      · simp only [hl, if_false]
        exact addPolicy_no_policy_update c write n _ _ _ _ (by simp)

/-- The policy `HandleAdd` sends when the env references resolve to `e`. -/
theorem addPolicy_resolved (c : Client) (write : Writer) (next : Nat) (name : String)
    (l : Labels) (w : Workload) (calls : List MutateCall) (envVars : GoMap String String)
    (e : MultiLabels)
    (hname : name ≠ "") (hns : w.GetNamespace ≠ "") (hl : l ≠ [])
    (henv : attr.GetLocalEnvVars (.workload w) = .ok envVars)
    (he : attr.GetLabelsFromEnvVars c envVars = .ok e)
    (hw : ∀ call, write call = none) :
    addPolicy c write next name l w calls =
      ⟨.ok (), calls ++ [.create policiesGVR w.GetNamespace (.policy
        { Name := name
          Namespace := w.GetNamespace
          PodSelector := { MatchLabels := l, MatchExpressions := [] }
          Ingress := [defaultDocPeers ++
            (mergeInto (mergeInto [] (attr.ConvertLabels l)) e).map
              (fun kv => docPeer kv.1 (np.finalValues kv.2))]
          Egress := [defaultDocPeers ++
            (mergeInto (mergeInto [] (attr.ConvertLabels l)) e).map
              (fun kv => docPeer kv.1 (np.finalValues kv.2))]
          PolicyTypes := ["Ingress", "Egress"] })]⟩ := by
  have ht : mergeInto (mergeInto [] (attr.ConvertLabels l)) e ≠ [] := by
    cases l with
    | nil => exact absurd rfl hl
    | cons kv rest =>
      intro hnil
      have hk : kv.1 ∈ GoMap.keys (mergeInto (mergeInto [] (attr.ConvertLabels (kv :: rest))) e) := by
        rw [mergeInto_keys, mergeInto_keys, ConvertLabels_keys]
        exact Or.inl (Or.inr (List.mem_map.2 ⟨kv, List.mem_cons_self _ _, rfl⟩))
      rw [hnil] at hk
      simp [GoMap.keys] at hk
  obtain ⟨p, hp, hdoc⟩ := NewPolicy_ok next name w.GetNamespace l _ hname hns hl ht
  have hb : (buildPolicy c next name l w envVars).1 = .ok p := by
    unfold buildPolicy
    simp only [he, MergeLabels_pair]
    generalize np.NewPolicy next name w.GetNamespace l
      (mergeInto (mergeInto [] (attr.ConvertLabels l)) e) = r at hp
    obtain ⟨r1, n⟩ := r
    simp only at hp
    subst hp
    rfl
  have hN : p.Namespace = w.GetNamespace := by
    have := congrArg PolicyDoc.Namespace hdoc
    simpa [encode] using this
  unfold addPolicy
  simp only [henv, hb, submit_create_ok write calls p hw, hdoc, hN]

/-- The peer that the merged labels of `l` and `e` yield for a key of `l` or of `e`. -/
theorem merged_peer (l : Labels) (hl : GoMap.WF l) (e : MultiLabels) (he : GoMap.WF e)
    (k : String) (hk : k ∈ GoMap.keys l ∨ k ∈ GoMap.keys e) :
    ∃ vs, docPeer k vs ∈
        (mergeInto (mergeInto [] (attr.ConvertLabels l)) e).map
          (fun kv => docPeer kv.1 (np.finalValues kv.2)) ∧
      ∀ v, v ∈ vs ↔ (GoMap.get? l k = some v ∨ v ∈ GoMap.getD e k []) := by
  have hkeys : k ∈ GoMap.keys (mergeInto (mergeInto [] (attr.ConvertLabels l)) e) := by
    rw [mergeInto_keys, mergeInto_keys, ConvertLabels_keys]
    rcases hk with h | h
    · exact Or.inl (Or.inr h)
    · exact Or.inr h
  obtain ⟨vs, hmem, hget⟩ := GoMap.exists_mem_of_mem_keys _ k hkeys
  refine ⟨np.finalValues vs, List.mem_map.2 ⟨(k, vs), hmem, rfl⟩, ?_⟩
  intro v
  have hvs : vs = GoMap.getD (mergeInto (mergeInto [] (attr.ConvertLabels l)) e) k [] := by
    simp [GoMap.getD, hget]
  rw [mem_finalValues, hvs, mergeInto_getD, mergeInto_getD]
  have h1 : (∃ ws, (k, ws) ∈ attr.ConvertLabels l ∧ v ∈ ws) ↔ GoMap.get? l k = some v := by
    constructor
    · rintro ⟨ws, hws, hv⟩
      have := GoMap.get?_of_mem _ (ConvertLabels_WF l) k ws hws
      rw [ConvertLabels_get? l hl] at this
      cases hg : GoMap.get? l k with
      | none => simp [hg] at this
      | some x =>
        simp only [hg, Option.map_some', Option.some.injEq] at this
        subst this
        simp only [List.mem_singleton] at hv
        rw [hv]
    · intro hg
      refine ⟨[v], GoMap.mem_of_get? _ k [v] ?_, List.mem_singleton.2 rfl⟩
      rw [ConvertLabels_get? l hl, hg]
      rfl
  have h2 : (∃ ws, (k, ws) ∈ e ∧ v ∈ ws) ↔ v ∈ GoMap.getD e k [] := by
    constructor
    · rintro ⟨ws, hws, hv⟩
      have := GoMap.get?_of_mem e he k ws hws
      simpa [GoMap.getD, this] using hv
    · intro hv
      cases hg : GoMap.get? e k with
      | none => simp [GoMap.getD, hg] at hv
      | some ws =>
        refine ⟨ws, GoMap.mem_of_get? e k ws hg, ?_⟩
        simpa [GoMap.getD, hg] using hv
  rw [h1, h2]
  simp [GoMap.getD, GoMap.get?]

/-! ## HandleUpdate -/

theorem handleLabelChange_spec (n : Nat) (oldLabels newLabels : Labels) (p p1 : NetworkPolicy)
    (hf : p.fresh n) (hwf : GoMap.WF newLabels)
    (h : (handleLabelChange n oldLabels newLabels p).1 = .ok p1) :
    p1.hasLabelPeers newLabels ∧ p1.Namespace = p.Namespace ∧ p1.Name = p.Name := by
  unfold handleLabelChange at h
  dsimp only at h
  cases hr : np.RemoveOldLabels (attr.ConvertLabels oldLabels) p.Spec.Ingress p.Spec.Egress with
  | panic msg => simp [hr] at h
  | error e => simp [hr] at h
  | ok r =>
    obtain ⟨ingress, egress⟩ := r
    obtain ⟨hbi, hbe⟩ := RemoveOldLabels_below _ n p ingress egress hr hf
    simp only [hr, AppendLabelsToPeers_eq] at h
    by_cases hlen : (attr.ConvertLabels newLabels).length = 0
    · simp [hlen] at h
    · simp only [hlen, if_false, Result.ok.injEq] at h
      subst h
      refine ⟨⟨rfl, ?_, ?_⟩, rfl, rfl⟩
      · intro rule hrule k v hkv
        rw [ExtendPeers_ingress] at hrule
        obtain ⟨r, hr', rfl⟩ := List.mem_map.1 hrule
        obtain ⟨⟨a, ha⟩, _⟩ := labelPeers_mem (n + 2) _ k [v]
          (ConvertLabels_mem newLabels hwf k v hkv)
        rw [finalValues_singleton] at ha
        exact ⟨a, (label_peer_added n _ r.From (hbi r hr')).1 _ ha⟩
      · intro rule hrule k v hkv
        rw [ExtendPeers_egress] at hrule
        obtain ⟨r, hr', rfl⟩ := List.mem_map.1 hrule
        obtain ⟨_, ⟨a, ha⟩⟩ := labelPeers_mem (n + 2) _ k [v]
          (ConvertLabels_mem newLabels hwf k v hkv)
        rw [finalValues_singleton] at ha
        exact ⟨a, (label_peer_added n _ r.To (hbe r hr')).2 _ ha⟩

theorem handleLabelChange_ok (n : Nat) (oldLabels newLabels : Labels) (p : NetworkPolicy)
    (hp : p.rulesNonEmpty) (hl : newLabels ≠ []) :
    ∃ p1, (handleLabelChange n oldLabels newLabels p).1 = .ok p1 := by
  obtain ⟨r, hr⟩ := RemoveOldLabels_ok (attr.ConvertLabels oldLabels) p hp
  have hlen : ¬ (attr.ConvertLabels newLabels).length = 0 := by
    simpa using ConvertLabels_ne_nil newLabels hl
  unfold handleLabelChange
  dsimp only
  simp only [hr, AppendLabelsToPeers_eq, hlen, if_false]
  exact ⟨_, rfl⟩

theorem handleEnvVarChange_spec (c : Client) (n : Nat) (objLabels l : Labels)
    (envVars : GoMap String String) (p p2 : NetworkPolicy) (hp : p.hasLabelPeers l)
    (h : (handleEnvVarChange c n objLabels envVars p).1 = .ok p2) :
    p2.hasLabelPeers l ∧ p2.Namespace = p.Namespace ∧ p2.Name = p.Name := by
  unfold handleEnvVarChange at h
  split at h
  · simp at h
  · simp at h
  · split at h
    · simp at h
    · simp at h
    · rename_i podLabels _
      rw [AppendLabelsToPeers_eq] at h
      by_cases hlen : podLabels.length = 0
      · simp [hlen] at h
      · simp only [hlen, if_false, Result.ok.injEq] at h
        subst h
        exact ⟨ExtendPeers_keeps l _ _ p hp, rfl, rfl⟩

theorem handleEnvVarChange_ok (c : Client) (n : Nat) (objLabels : Labels)
    (envVars : GoMap String String) (e : MultiLabels) (p : NetworkPolicy)
    (hl : objLabels ≠ []) (he : attr.GetLabelsFromEnvVars c envVars = .ok e) :
    ∃ p2, (handleEnvVarChange c n objLabels envVars p).1 = .ok p2 := by
  have ht : mergeInto (mergeInto [] (attr.ConvertLabels objLabels)) e ≠ [] := by
    cases objLabels with
    | nil => exact absurd rfl hl
    | cons kv rest =>
      intro hnil
      have hk : kv.1 ∈ GoMap.keys
          (mergeInto (mergeInto [] (attr.ConvertLabels (kv :: rest))) e) := by
        rw [mergeInto_keys, mergeInto_keys, ConvertLabels_keys]
        exact Or.inl (Or.inr (List.mem_map.2 ⟨kv, List.mem_cons_self _ _, rfl⟩))
      rw [hnil] at hk
      simp [GoMap.keys] at hk
  have hlen : ¬ (mergeInto (mergeInto [] (attr.ConvertLabels objLabels)) e).length = 0 := by
    simpa using ht
  unfold handleEnvVarChange
  simp only [he, MergeLabels_pair, AppendLabelsToPeers_eq, hlen, if_false]
  exact ⟨_, rfl⟩

theorem encode_hasLabelPeers (l : Labels) (p : NetworkPolicy) (h : p.hasLabelPeers l) :
    (encode p).PodSelector.MatchLabels = l ∧
    (∀ rule ∈ (encode p).Ingress, ∀ k v, GoMap.get? l k = some v → docPeer k [v] ∈ rule) ∧
    (∀ rule ∈ (encode p).Egress, ∀ k v, GoMap.get? l k = some v → docPeer k [v] ∈ rule) := by
  refine ⟨h.1, ?_, ?_⟩
  · intro rule hrule k v hkv
    simp only [encode, List.mem_map] at hrule
    obtain ⟨r, hr, rfl⟩ := hrule
    obtain ⟨a, ha⟩ := h.2.1 r hr k v hkv
    exact List.mem_map.2 ⟨_, ha, encodePeer_inPeer a k [v]⟩
  · intro rule hrule k v hkv
    simp only [encode, List.mem_map] at hrule
    obtain ⟨r, hr, rfl⟩ := hrule
    obtain ⟨a, ha⟩ := h.2.2 r hr k v hkv
    exact List.mem_map.2 ⟨_, ha, encodePeer_inPeer a k [v]⟩

theorem HandleUpdate_located (c : Client) (write : Writer) (next : Nat)
    (oldObj newObj : Any) (oldLabels newLabels : Labels) (oldMetaObj newMetaObj : Workload)
    (oldEnvVars newEnvVars : GoMap String String) (p : NetworkPolicy)
    (hnew : object.ConvertToMeta (.delivered newObj) = .ok (newLabels, newMetaObj))
    (hns : newMetaObj.GetNamespace ≠ "kube-system")
    (hold : object.ConvertToMeta (.delivered oldObj) = .ok (oldLabels, oldMetaObj))
    (hoe : attr.GetLocalEnvVars (.workload oldMetaObj) = .ok oldEnvVars)
    (hne : attr.GetLocalEnvVars (.workload newMetaObj) = .ok newEnvVars)
    (hchg : (attr.MapsEqual newEnvVars oldEnvVars && attr.MapsEqual newLabels oldLabels) = false)
    (hlook : (np.GetPolicyByPodLabels c next oldMetaObj.GetNamespace oldLabels).1 = .ok p) :
    HandleUpdate c write next oldObj newObj =
      reconcile c write (np.GetPolicyByPodLabels c next oldMetaObj.GetNamespace oldLabels).2
        oldLabels newLabels oldEnvVars newEnvVars p := by
  unfold HandleUpdate
  simp only [hnew, hns, hold, hoe, hne, hchg, if_false, Bool.false_eq_true]
  generalize np.GetPolicyByPodLabels c next oldMetaObj.GetNamespace oldLabels = look at hlook
  obtain ⟨r, n⟩ := look
  simp only at hlook
  subst hlook
  rfl

/-- The calls of `reconcile` when the labels changed: none, or the Update of a policy that has
the peers of the new labels. -/
theorem reconcile_label_change (c : Client) (write : Writer) (n : Nat)
    (oldLabels newLabels : Labels) (oldEnvVars newEnvVars : GoMap String String)
    (p : NetworkPolicy) (hchg : attr.MapsEqual newLabels oldLabels = false)
    (hf : p.fresh n) (hwf : GoMap.WF newLabels) :
    (reconcile c write n oldLabels newLabels oldEnvVars newEnvVars p).calls = [] ∨
    ∃ p2, p2.hasLabelPeers newLabels ∧ p2.Namespace = p.Namespace ∧
      (reconcile c write n oldLabels newLabels oldEnvVars newEnvVars p).calls =
        [.update policiesGVR p2.Namespace (.policy (encode p2))] := by
  unfold reconcile
  simp only [hchg, Bool.not_false, if_true]
  have hspec := handleLabelChange_spec n oldLabels newLabels p
  generalize handleLabelChange n oldLabels newLabels p = r1 at hspec
  obtain ⟨r1, n1⟩ := r1
  cases r1 with
  | error e => exact Or.inl rfl
  | panic m => exact Or.inl rfl
  | ok p1 =>
    obtain ⟨h1, h1ns, _⟩ := hspec p1 hf hwf rfl
    simp only
    by_cases henv : attr.MapsEqual newEnvVars oldEnvVars = true
    · simp only [henv, Bool.not_true, Bool.false_eq_true, if_false, submit_calls, Mutate_policy,
        List.nil_append]
      exact Or.inr ⟨p1, h1, h1ns, rfl⟩
    · have henv' : attr.MapsEqual newEnvVars oldEnvVars = false := by simpa using henv
      simp only [henv', Bool.not_false, if_true, submit_calls]
      have hspec2 := handleEnvVarChange_spec c n1 newLabels newLabels newEnvVars p1
      generalize handleEnvVarChange c n1 newLabels newEnvVars p1 = r2 at hspec2
      obtain ⟨r2, n2⟩ := r2
      cases r2 with
      | error e => exact Or.inl rfl
      | panic m => exact Or.inl rfl
      | ok p2 =>
        obtain ⟨h2, h2ns, _⟩ := hspec2 p2 h1 rfl
        simp only [Mutate_policy, List.nil_append]
        exact Or.inr ⟨p2, h2, h2ns.trans h1ns, rfl⟩

/-- The Update is issued when no rule of the located policy is empty and the env references,
if they changed, resolve. -/
theorem reconcile_label_change_calls (c : Client) (write : Writer) (n : Nat)
    (oldLabels newLabels : Labels) (oldEnvVars newEnvVars : GoMap String String)
    (p : NetworkPolicy) (hchg : attr.MapsEqual newLabels oldLabels = false)
    (hl : newLabels ≠ []) (hp : p.rulesNonEmpty)
    (henv : attr.MapsEqual newEnvVars oldEnvVars = true ∨
      ∃ e, attr.GetLabelsFromEnvVars c newEnvVars = .ok e) :
    (reconcile c write n oldLabels newLabels oldEnvVars newEnvVars p).calls ≠ [] := by
  unfold reconcile
  simp only [hchg, Bool.not_false, if_true]
  have hok := handleLabelChange_ok n oldLabels newLabels p hp hl
  generalize handleLabelChange n oldLabels newLabels p = r1 at hok
  obtain ⟨r1, n1⟩ := r1
  obtain ⟨p1, hp1⟩ := hok
  simp only at hp1
  subst hp1
  simp only
  by_cases he : attr.MapsEqual newEnvVars oldEnvVars = true
  · simp [he, submit_calls, Mutate_policy]
  · have he' : attr.MapsEqual newEnvVars oldEnvVars = false := by simpa using he
    rcases henv with henv | ⟨e, henv⟩
    · exact absurd henv he
    · obtain ⟨p2, hp2⟩ := handleEnvVarChange_ok c n1 newLabels newEnvVars e p1 hl henv
      simp [he', submit_calls, hp2, Mutate_policy]

/-! ## The claims -/

/-- C1 (the code at the failing input): the Deployment `web` of `ns1` has metadata labels
`team: a`, selector `app: web` and no env vars.  HandleAdd creates the policy `web-ns1-netpol`
with pod selector `app: web`, but its label peer comes from the metadata labels, `team In [a]`:
neither rule holds the peer `app In [web]` of the effective label set. -/
theorem HandleAdd_deployment_peers_from_metadata :
    HandleAdd Example.clusterEmpty Example.writeOk 0 (.workload Example.deploymentWeb) =
      ⟨.ok (), [.create policiesGVR "ns1"
        (.policy (Example.policyDoc "web-ns1-netpol" [("app", "web")] [docPeer "team" ["a"]]))]⟩ ∧
    object.ConvertToMeta (.delivered (.workload Example.deploymentWeb))
      = .ok ([("app", "web")], Example.deploymentWeb) ∧
    docPeer "app" ["web"] ∉ defaultDocPeers ++ [docPeer "team" ["a"]] :=
  ⟨rfl, rfl, by decide⟩

/-- C2: a qualifying workload (convertible, outside kube-system, in a namespace) with non-empty
effective labels `l` whose cluster-local env references resolve to the multimap `e`, handled
with a write collaborator that succeeds: HandleAdd returns nil and its last call creates the
policy named after the workload, in its namespace, with pod selector exactly `l`, one ingress
and one egress rule, and in both, for every key `k` of `l` or of `e`, a peer `k In vs` whose
values are `l[k]` together with the values of `e[k]`.  The only call that may precede the
Create is the Update that labels a workload without metadata labels. -/
theorem HandleAdd_env_peers (c : Client) (write : Writer) (next : Nat) (obj : Any)
    (l : Labels) (w : Workload) (envVars : GoMap String String) (e : MultiLabels)
    (hconv : object.ConvertToMeta (.delivered obj) = .ok (l, w))
    (hns : w.GetNamespace ≠ "kube-system") (hns' : w.GetNamespace ≠ "")
    (hl : l ≠ []) (hwf : GoMap.WF l)
    (henv : attr.GetLocalEnvVars (.workload w) = .ok envVars)
    (he : attr.GetLabelsFromEnvVars c envVars = .ok e)
    (hw : ∀ call, write call = none) :
    ∃ pre doc ingress egress,
      HandleAdd c write next obj =
        ⟨.ok (), pre ++ [.create policiesGVR w.GetNamespace (.policy doc)]⟩ ∧
      (∀ call ∈ pre, call.isCreate = false) ∧
      doc.Name = w.GetName ++ "-" ++ w.GetNamespace ++ "-netpol" ∧
      doc.Namespace = w.GetNamespace ∧
      doc.PodSelector.MatchLabels = l ∧
      doc.Ingress = [ingress] ∧ doc.Egress = [egress] ∧
      ∀ k, k ∈ GoMap.keys l ∨ k ∈ GoMap.keys e →
        ∃ vs, docPeer k vs ∈ ingress ∧ docPeer k vs ∈ egress ∧
          ∀ v, v ∈ vs ↔ (GoMap.get? l k = some v ∨ v ∈ GoMap.getD e k []) := by
  have hpeers : ∀ k, k ∈ GoMap.keys l ∨ k ∈ GoMap.keys e →
      ∃ vs, docPeer k vs ∈ defaultDocPeers ++
            (mergeInto (mergeInto [] (attr.ConvertLabels l)) e).map
              (fun kv => docPeer kv.1 (np.finalValues kv.2)) ∧
          docPeer k vs ∈ defaultDocPeers ++
            (mergeInto (mergeInto [] (attr.ConvertLabels l)) e).map
              (fun kv => docPeer kv.1 (np.finalValues kv.2)) ∧
          ∀ v, v ∈ vs ↔ (GoMap.get? l k = some v ∨ v ∈ GoMap.getD e k []) := by
    intro k hk
    obtain ⟨vs, hmem, hv⟩ := merged_peer l hwf e (GetLabelsFromEnvVars_WF c envVars e he) k hk
    exact ⟨vs, List.mem_append_right _ hmem, List.mem_append_right _ hmem, hv⟩
  by_cases hlen : w.GetLabels.length = 0
  · obtain ⟨gvr, hadd⟩ := AddLabel_ok write w hw
    refine ⟨[.update gvr w.GetNamespace
        (.workload (w.SetLabels [("netpol-ctrl", w.GetName ++ "-" ++ w.GetNamespace)]))],
      ⟨w.GetName ++ "-" ++ w.GetNamespace ++ "-netpol", w.GetNamespace, ⟨l, []⟩,
        [defaultDocPeers ++ (mergeInto (mergeInto [] (attr.ConvertLabels l)) e).map
          (fun kv => docPeer kv.1 (np.finalValues kv.2))],
        [defaultDocPeers ++ (mergeInto (mergeInto [] (attr.ConvertLabels l)) e).map
          (fun kv => docPeer kv.1 (np.finalValues kv.2))], ["Ingress", "Egress"]⟩,
      _, _, ?_, ?_, rfl, rfl, rfl, rfl, rfl, hpeers⟩
    · have h := addPolicy_resolved c write next (w.GetName ++ "-" ++ w.GetNamespace ++ "-netpol")
        l (w.SetLabels [("netpol-ctrl", w.GetName ++ "-" ++ w.GetNamespace)])
        [.update gvr w.GetNamespace
          (.workload (w.SetLabels [("netpol-ctrl", w.GetName ++ "-" ++ w.GetNamespace)]))]
        envVars e (policyName_ne _ _) (by rw [SetLabels_GetNamespace]; exact hns') hl
        (by rw [GetLocalEnvVars_SetLabels]; exact henv) he hw
      rw [SetLabels_GetNamespace] at h
      simp only [HandleAdd, hconv, hns, if_false, hlen, if_true, hadd, h]
    · intro call hc
      simp only [List.mem_singleton] at hc
      subst hc
      rfl
  · refine ⟨[],
      ⟨w.GetName ++ "-" ++ w.GetNamespace ++ "-netpol", w.GetNamespace, ⟨l, []⟩,
        [defaultDocPeers ++ (mergeInto (mergeInto [] (attr.ConvertLabels l)) e).map
          (fun kv => docPeer kv.1 (np.finalValues kv.2))],
        [defaultDocPeers ++ (mergeInto (mergeInto [] (attr.ConvertLabels l)) e).map
          (fun kv => docPeer kv.1 (np.finalValues kv.2))], ["Ingress", "Egress"]⟩,
      _, _, ?_, by simp, rfl, rfl, rfl, rfl, rfl, hpeers⟩
    have h := addPolicy_resolved c write next (w.GetName ++ "-" ++ w.GetNamespace ++ "-netpol")
      l w [] envVars e (policyName_ne _ _) hns' hl henv he hw
    simp only [HandleAdd, hconv, hns, if_false, hlen, h]

/-- Witness of C2: the Pod `web` labelled `app: web` refers to the Service `db`, whose selector
is `tier: data`. -/
theorem HandleAdd_env_peers_witness :
    ∃ pre doc ingress egress,
      HandleAdd (Example.clusterWith []) Example.writeOk 0
          (.workload (Example.podWithEnv "web" [("app", "web")] "DB" "db.ns1.svc.cluster.local"))
        = ⟨.ok (), pre ++ [.create policiesGVR "ns1" (.policy doc)]⟩ ∧
      (∀ call ∈ pre, call.isCreate = false) ∧
      doc.Name = "web-ns1-netpol" ∧
      doc.Namespace = "ns1" ∧
      doc.PodSelector.MatchLabels = [("app", "web")] ∧
      doc.Ingress = [ingress] ∧ doc.Egress = [egress] ∧
      ∀ k, k ∈ GoMap.keys [("app", "web")] ∨ k ∈ GoMap.keys [("tier", ["data"])] →
        ∃ vs, docPeer k vs ∈ ingress ∧ docPeer k vs ∈ egress ∧
          ∀ v, v ∈ vs ↔
            (GoMap.get? [("app", "web")] k = some v ∨ v ∈ GoMap.getD [("tier", ["data"])] k []) :=
  HandleAdd_env_peers (Example.clusterWith []) Example.writeOk 0 _ [("app", "web")]
    (Example.podWithEnv "web" [("app", "web")] "DB" "db.ns1.svc.cluster.local")
    [("DB", "db.ns1.svc.cluster.local")] [("tier", ["data"])]
    rfl (by decide) (by decide) (by decide) (by decide) rfl rfl (fun _ => rfl)

/-- C3 (the code on every input of the claim): for a Pod without labels and without controlling
owner, outside kube-system, with a write collaborator that succeeds, HandleAdd issues the Update
that applies the label `netpol-ctrl` and nothing else: it never returns nil and never reaches the
Create.  `NewPolicy` is called with the label map that `ConvertToMeta` returned before the
labelling, which is still empty, and fails with ErrEmptyParam. -/
theorem HandleAdd_unlabelled_pod (c : Client) (write : Writer) (next : Nat) (m : ObjectMeta)
    (cs : List Container) (hl : m.Labels = [])
    (hown : m.OwnerReferences.find? (fun o => object.isControllerKind o.Kind) = none)
    (hns : m.Namespace ≠ "kube-system") (hw : ∀ call, write call = none) :
    (HandleAdd c write next (.workload (.Pod m cs))).result ≠ .ok () ∧
    (HandleAdd c write next (.workload (.Pod m cs))).calls =
      [.update podsGVR m.Namespace (.workload (.Pod
        { m with Labels := [("netpol-ctrl", m.Name ++ "-" ++ m.Namespace)] } cs))] := by
  have hconv : object.ConvertToMeta (.delivered (.workload (.Pod m cs))) = .ok ([], .Pod m cs) := by
    simp [object.ConvertToMeta, hown, hl]
  obtain ⟨envVars, henv⟩ := GetLocalEnvVars_workload (.Pod m cs)
  have henv' : attr.GetLocalEnvVars (.workload (.Pod
      { m with Labels := [("netpol-ctrl", m.Name ++ "-" ++ m.Namespace)] } cs)) = .ok envVars := henv
  have hb := submit_not_ok write .Create
    [.update podsGVR m.Namespace (.workload (.Pod
        { m with Labels := [("netpol-ctrl", m.Name ++ "-" ++ m.Namespace)] } cs))]
    (buildPolicy c next (m.Name ++ "-" ++ m.Namespace ++ "-netpol") [] (.Pod
        { m with Labels := [("netpol-ctrl", m.Name ++ "-" ++ m.Namespace)] } cs) envVars).1
    (fun p => buildPolicy_empty_selector c next _ _ envVars p)
  simpa [HandleAdd, addPolicy, hconv, Workload.GetNamespace, Workload.GetName, Workload.GetLabels,
    Workload.meta, hns, hl, object.AddLabel, object.Mutate, object.getGVR, object.toWire,
    Workload.SetLabels, hw, MetaObject.GetNamespace, MetaObject.GetName, henv', podsGVR] using hb

/-- Witness of C3: the Pod `web` of `ns1` without labels. -/
theorem HandleAdd_unlabelled_pod_witness :
    (HandleAdd Example.clusterEmpty Example.writeOk 0 (.workload (Example.pod "web" []))).result
      ≠ .ok () ∧
    (HandleAdd Example.clusterEmpty Example.writeOk 0 (.workload (Example.pod "web" []))).calls =
      [.update podsGVR "ns1" (.workload (Example.pod "web" [("netpol-ctrl", "web-ns1")]))] :=
  HandleAdd_unlabelled_pod Example.clusterEmpty Example.writeOk 0 ⟨"web", "ns1", [], []⟩ [] rfl rfl
    (by decide) (fun _ => rfl)

/-- C4 (the code at the failing input): HandleAdd creates, for the Pod `web` labelled
`app: test`, a policy whose rules hold the two default peers and then `app In [test]`.  With that
policy in the cluster, the update of the labels to `app: changed` submits a policy whose first
ingress rule and first egress rule still hold the peer `app In [test]`: the purge only filters
the requirements of the first peer of each rule, which is a default peer. -/
theorem HandleUpdate_keeps_old_label_peer :
    HandleAdd Example.clusterEmpty Example.writeOk 0
        (.workload (Example.pod "web" [("app", "test")])) =
      ⟨.ok (), [.create policiesGVR "ns1"
        (.policy (Example.policyDoc "web-ns1-netpol" [("app", "test")] [docPeer "app" ["test"]]))]⟩ ∧
    HandleUpdate
        (Example.clusterWith
          [Example.policyDoc "web-ns1-netpol" [("app", "test")] [docPeer "app" ["test"]]])
        Example.writeOk 0
        (.workload (Example.pod "web" [("app", "test")]))
        (.workload (Example.pod "web" [("app", "changed")])) =
      ⟨.ok (), [.update policiesGVR "ns1"
        (.policy (Example.policyDoc "web-ns1-netpol" [("app", "changed")]
          ([docPeer "app" ["test"]] ++ defaultDocPeers ++ [docPeer "app" ["changed"]])))]⟩ ∧
    (Example.policyDoc "web-ns1-netpol" [("app", "changed")]
      ([docPeer "app" ["test"]] ++ defaultDocPeers ++ [docPeer "app" ["changed"]])).Ingress.head?
      = some (defaultDocPeers ++
          ([docPeer "app" ["test"]] ++ defaultDocPeers ++ [docPeer "app" ["changed"]])) ∧
    (Example.policyDoc "web-ns1-netpol" [("app", "changed")]
      ([docPeer "app" ["test"]] ++ defaultDocPeers ++ [docPeer "app" ["changed"]])).Egress.head?
      = some (defaultDocPeers ++
          ([docPeer "app" ["test"]] ++ defaultDocPeers ++ [docPeer "app" ["changed"]])) ∧
    docPeer "app" ["test"] ∈ defaultDocPeers ++
      ([docPeer "app" ["test"]] ++ defaultDocPeers ++ [docPeer "app" ["changed"]]) ∧
    (docPeer "app" ["test"]).refersTo "app" "test" :=
  ⟨rfl, rfl, rfl, rfl, by decide,
    ⟨_, rfl, _, List.mem_singleton.2 rfl, rfl, List.mem_singleton.2 rfl⟩⟩

theorem handleLabelChange_selector (n : Nat) (oldLabels newLabels : Labels)
    (p p1 : NetworkPolicy) (h : (handleLabelChange n oldLabels newLabels p).1 = .ok p1) :
    p1.Spec.PodSelector.MatchExpressions = p.Spec.PodSelector.MatchExpressions := by
  unfold handleLabelChange at h
  dsimp only at h
  cases hr : np.RemoveOldLabels (attr.ConvertLabels oldLabels) p.Spec.Ingress p.Spec.Egress with
  | panic msg => simp [hr] at h
  | error e => simp [hr] at h
  | ok r =>
    obtain ⟨ingress, egress⟩ := r
    simp only [hr, AppendLabelsToPeers_eq] at h
    by_cases hlen : (attr.ConvertLabels newLabels).length = 0
    · simp [hlen] at h
    · simp only [hlen, if_false, Result.ok.injEq] at h
      subst h
      rfl

theorem handleEnvVarChange_selector (c : Client) (n : Nat) (objLabels : Labels)
    (envVars : GoMap String String) (p p2 : NetworkPolicy)
    (h : (handleEnvVarChange c n objLabels envVars p).1 = .ok p2) :
    p2.Spec.PodSelector = p.Spec.PodSelector := by
  unfold handleEnvVarChange at h
  split at h
  · simp at h
  · simp at h
  · split at h
    · simp at h
    · simp at h
    · rename_i podLabels _
      rw [AppendLabelsToPeers_eq] at h
      by_cases hlen : podLabels.length = 0
      · simp [hlen] at h
      · simp only [hlen, if_false, Result.ok.injEq] at h
        subst h
        rfl

/-- The Update that `reconcile` issues after a label change carries the match expressions of the
pod selector of the located policy. -/
theorem reconcile_label_change_selector (c : Client) (write : Writer) (n : Nat)
    (oldLabels newLabels : Labels) (oldEnvVars newEnvVars : GoMap String String)
    (p : NetworkPolicy) (hchg : attr.MapsEqual newLabels oldLabels = false) :
    ∀ gvr ns obj,
      MutateCall.update gvr ns obj ∈
        (reconcile c write n oldLabels newLabels oldEnvVars newEnvVars p).calls →
      ∃ doc, obj = .policy doc ∧
        doc.PodSelector.MatchExpressions = p.Spec.PodSelector.MatchExpressions := by
  intro gvr ns obj
  unfold reconcile
  simp only [hchg, Bool.not_false, if_true]
  have hspec := handleLabelChange_selector n oldLabels newLabels p
  generalize handleLabelChange n oldLabels newLabels p = r1 at hspec
  obtain ⟨r1, n1⟩ := r1
  cases r1 with
  | error e => intro hmem; simp at hmem
  | panic m => intro hmem; simp at hmem
  | ok p1 =>
    have h1 := hspec p1 rfl
    simp only
    by_cases henv : attr.MapsEqual newEnvVars oldEnvVars = true
    · simp only [henv, Bool.not_true, Bool.false_eq_true, if_false, submit_calls, Mutate_policy,
        List.nil_append, List.mem_singleton, MutateCall.update.injEq]
      rintro ⟨_, _, hobj⟩
      exact ⟨encode p1, hobj, h1⟩
    · have henv' : attr.MapsEqual newEnvVars oldEnvVars = false := by simpa using henv
      simp only [henv', Bool.not_false, if_true, submit_calls]
      have hspec2 := handleEnvVarChange_selector c n1 newLabels newEnvVars p1
      generalize handleEnvVarChange c n1 newLabels newEnvVars p1 = r2 at hspec2
      obtain ⟨r2, n2⟩ := r2
      cases r2 with
      | error e => intro hmem; simp at hmem
      | panic m => intro hmem; simp at hmem
      | ok p2 =>
        have h2 := hspec2 p2 rfl
        simp only [Mutate_policy, List.nil_append, List.mem_singleton, MutateCall.update.injEq]
        rintro ⟨_, _, hobj⟩
        refine ⟨encode p2, hobj, ?_⟩
        show p2.Spec.PodSelector.MatchExpressions = _
        rw [h2, h1]

/-- C5 (counterexample): the labels of the Pod `web` change from `app: test` to `app: changed`
while the namespace lists a policy, located through its peer `app In [test]`, whose pod selector
holds the match labels `app: test` and the match expression `tier In [front]`.  The policy that
HandleUpdate submits in the Update call has the match labels `app: changed` and still the match
expression `tier In [front]`: its pod selector is not exactly the new labels. -/
theorem HandleUpdate_keeps_match_expressions :
    ∃ doc,
      HandleUpdate
        (Example.clusterWith
          [{ Name := "web-ns1-netpol"
             Namespace := "ns1"
             PodSelector :=
               { MatchLabels := [("app", "test")]
                 MatchExpressions := [{ Key := "tier", Operator := "In", Values := ["front"] }] }
             Ingress := [defaultDocPeers ++ [docPeer "app" ["test"]]]
             Egress := [defaultDocPeers ++ [docPeer "app" ["test"]]]
             PolicyTypes := ["Ingress", "Egress"] }])
        Example.writeOk 0
        (.workload (Example.pod "web" [("app", "test")]))
        (.workload (Example.pod "web" [("app", "changed")])) =
        ⟨.ok (), [.update policiesGVR "ns1" (.policy doc)]⟩ ∧
      doc.PodSelector =
        { MatchLabels := [("app", "changed")]
          MatchExpressions := [{ Key := "tier", Operator := "In", Values := ["front"] }] } ∧
      doc.PodSelector ≠ { MatchLabels := [("app", "changed")], MatchExpressions := [] } :=
  ⟨_, rfl, rfl, by decide⟩

/-- C5 (amended): a HandleUpdate that locates a policy `p` with the old direct labels while the
direct labels change to the non-empty set `newLabels`.  Every Update call it issues carries a
policy whose pod selector has exactly `newLabels` as match labels and the match expressions of
the pod selector of `p` (none when `p` was built by NewPolicy), and whose ingress rules and
egress rules all hold, for every entry `k: v` of `newLabels`, the peer `k In [v]`.  That Update,
of a policy in the same namespace as `p`, is the one call issued whenever no rule of `p` has an
empty peer list and the env references either did not change or resolve. -/
theorem HandleUpdate_label_change (c : Client) (write : Writer) (next : Nat)
    (oldObj newObj : Any) (oldLabels newLabels : Labels) (oldMetaObj newMetaObj : Workload)
    (oldEnvVars newEnvVars : GoMap String String) (p : NetworkPolicy)
    (hnew : object.ConvertToMeta (.delivered newObj) = .ok (newLabels, newMetaObj))
    (hns : newMetaObj.GetNamespace ≠ "kube-system")
    (hold : object.ConvertToMeta (.delivered oldObj) = .ok (oldLabels, oldMetaObj))
    (hoe : attr.GetLocalEnvVars (.workload oldMetaObj) = .ok oldEnvVars)
    (hne : attr.GetLocalEnvVars (.workload newMetaObj) = .ok newEnvVars)
    (hchg : attr.MapsEqual newLabels oldLabels = false)
    (hlook : (np.GetPolicyByPodLabels c next oldMetaObj.GetNamespace oldLabels).1 = .ok p)
    (hl : newLabels ≠ []) (hwf : GoMap.WF newLabels) :
    (∀ gvr ns obj,
      MutateCall.update gvr ns obj ∈ (HandleUpdate c write next oldObj newObj).calls →
      ∃ doc, obj = .policy doc ∧ doc.PodSelector.MatchLabels = newLabels ∧
        doc.PodSelector.MatchExpressions = p.Spec.PodSelector.MatchExpressions ∧
        (∀ rule ∈ doc.Ingress, ∀ k v, GoMap.get? newLabels k = some v → docPeer k [v] ∈ rule) ∧
        (∀ rule ∈ doc.Egress, ∀ k v, GoMap.get? newLabels k = some v → docPeer k [v] ∈ rule)) ∧
    (p.rulesNonEmpty →
      (attr.MapsEqual newEnvVars oldEnvVars = true ∨
        ∃ e, attr.GetLabelsFromEnvVars c newEnvVars = .ok e) →
      ∃ doc, (HandleUpdate c write next oldObj newObj).calls =
        [.update policiesGVR p.Namespace (.policy doc)]) := by
  have hc : (attr.MapsEqual newEnvVars oldEnvVars && attr.MapsEqual newLabels oldLabels)
      = false := by simp [hchg]
  rw [HandleUpdate_located c write next oldObj newObj oldLabels newLabels oldMetaObj newMetaObj
    oldEnvVars newEnvVars p hnew hns hold hoe hne hc hlook]
  have hf := GetPolicyByPodLabels_fresh c next oldMetaObj.GetNamespace oldLabels p hlook
  have hcalls := reconcile_label_change c write _ oldLabels newLabels oldEnvVars newEnvVars p
    hchg hf hwf
  have hsel := reconcile_label_change_selector c write
    (np.GetPolicyByPodLabels c next oldMetaObj.GetNamespace oldLabels).2
    oldLabels newLabels oldEnvVars newEnvVars p hchg
  constructor
  · intro gvr ns obj hmem
    obtain ⟨doc', hobj', hexpr⟩ := hsel gvr ns obj hmem
    rcases hcalls with h0 | ⟨p2, h2, _, hc2⟩
    · rw [h0] at hmem
      simp at hmem
    · rw [hc2] at hmem
      simp only [List.mem_singleton, MutateCall.update.injEq] at hmem
      obtain ⟨_, _, hobj⟩ := hmem
      have hdoc : doc' = encode p2 := by
        rw [hobj'] at hobj
        simpa using hobj
      obtain ⟨e1, e2, e3⟩ := encode_hasLabelPeers newLabels p2 h2
      exact ⟨encode p2, hobj, e1, hdoc ▸ hexpr, e2, e3⟩
  · intro hp henv
    rcases hcalls with h0 | ⟨p2, _, h2ns, hc2⟩
    · exact absurd h0 (reconcile_label_change_calls c write _ oldLabels newLabels oldEnvVars
        newEnvVars p hchg hl hp henv)
    · exact ⟨encode p2, by rw [hc2, h2ns]⟩

/-- Witness of C5 (amended): the labels of the Pod `web` change from `app: test` to
`app: changed` while the cluster lists the policy that HandleAdd created for `app: test`. -/
theorem HandleUpdate_label_change_witness :
    ∃ doc,
      (HandleUpdate
        (Example.clusterWith
          [Example.policyDoc "web-ns1-netpol" [("app", "test")] [docPeer "app" ["test"]]])
        Example.writeOk 0
        (.workload (Example.pod "web" [("app", "test")]))
        (.workload (Example.pod "web" [("app", "changed")]))).calls =
      [.update policiesGVR "ns1" (.policy doc)] :=
  (HandleUpdate_label_change
    (Example.clusterWith
      [Example.policyDoc "web-ns1-netpol" [("app", "test")] [docPeer "app" ["test"]]])
    Example.writeOk 0 (.workload (Example.pod "web" [("app", "test")]))
    (.workload (Example.pod "web" [("app", "changed")])) [("app", "test")] [("app", "changed")]
    (Example.pod "web" [("app", "test")]) (Example.pod "web" [("app", "changed")]) [] []
    (decode 0 (Example.policyDoc "web-ns1-netpol" [("app", "test")] [docPeer "app" ["test"]])).1
    rfl (by decide) rfl rfl rfl rfl rfl (by decide) (by decide)).2
    (by unfold NetworkPolicy.rulesNonEmpty; decide) (Or.inl rfl)

/-- C6 (counterexample): the old and the new Pod carry the same labels and their env entries
resolve to the same labels `tier: [data]`, but the entry was renamed from `DB` to `DATABASE`.
HandleUpdate compares the env references, finds them changed and issues an Update. -/
theorem HandleUpdate_env_rename_updates :
    object.ConvertToMeta
        (.delivered (.workload (Example.podWithEnv "web" [("app", "web")] "DB" "db.ns1.svc.cluster.local"))) =
      .ok ([("app", "web")],
        Example.podWithEnv "web" [("app", "web")] "DB" "db.ns1.svc.cluster.local") ∧
    object.ConvertToMeta
        (.delivered (.workload
          (Example.podWithEnv "web" [("app", "web")] "DATABASE" "db.ns1.svc.cluster.local"))) =
      .ok ([("app", "web")],
        Example.podWithEnv "web" [("app", "web")] "DATABASE" "db.ns1.svc.cluster.local") ∧
    attr.GetLabelsFromEnvVars (Example.clusterWith []) [("DB", "db.ns1.svc.cluster.local")] =
      .ok [("tier", ["data"])] ∧
    attr.GetLabelsFromEnvVars (Example.clusterWith [])
        [("DATABASE", "db.ns1.svc.cluster.local")] = .ok [("tier", ["data"])] ∧
    ∃ doc,
      HandleUpdate
        (Example.clusterWith
          [Example.policyDoc "web-ns1-netpol" [("app", "web")]
            [docPeer "app" ["web"], docPeer "tier" ["data"]]])
        Example.writeOk 0
        (.workload (Example.podWithEnv "web" [("app", "web")] "DB" "db.ns1.svc.cluster.local"))
        (.workload
          (Example.podWithEnv "web" [("app", "web")] "DATABASE" "db.ns1.svc.cluster.local")) =
      ⟨.ok (), [.update policiesGVR "ns1" (.policy doc)]⟩ :=
  ⟨rfl, rfl, rfl, rfl, _, rfl⟩

/-- C6 (amended): for an old and a new workload state, both convertible, the new one outside
kube-system, whose direct labels are equal and whose cluster-local env references (env var name
to value) are equal, HandleUpdate returns nil and issues no mutate call. -/
theorem HandleUpdate_noop (c : Client) (write : Writer) (next : Nat) (oldObj newObj : Any)
    (oldLabels newLabels : Labels) (oldMetaObj newMetaObj : Workload)
    (oldEnvVars newEnvVars : GoMap String String)
    (hnew : object.ConvertToMeta (.delivered newObj) = .ok (newLabels, newMetaObj))
    (hns : newMetaObj.GetNamespace ≠ "kube-system")
    (hold : object.ConvertToMeta (.delivered oldObj) = .ok (oldLabels, oldMetaObj))
    (hoe : attr.GetLocalEnvVars (.workload oldMetaObj) = .ok oldEnvVars)
    (hne : attr.GetLocalEnvVars (.workload newMetaObj) = .ok newEnvVars)
    (hl : attr.MapsEqual newLabels oldLabels = true)
    (he : attr.MapsEqual newEnvVars oldEnvVars = true) :
    HandleUpdate c write next oldObj newObj = ⟨.ok (), []⟩ := by
  simp [HandleUpdate, hnew, hns, hold, hoe, hne, hl, he]

/-- Witness of C6: a Pod whose labels and env entry are the same before and after. -/
theorem HandleUpdate_noop_witness :
    HandleUpdate
      (Example.clusterWith
        [Example.policyDoc "web-ns1-netpol" [("app", "web")]
          [docPeer "app" ["web"], docPeer "tier" ["data"]]])
      Example.writeOk 0
      (.workload (Example.podWithEnv "web" [("app", "web")] "DB" "db.ns1.svc.cluster.local"))
      (.workload (Example.podWithEnv "web" [("app", "web")] "DB" "db.ns1.svc.cluster.local"))
      = ⟨.ok (), []⟩ :=
  HandleUpdate_noop _ _ 0 _ _ [("app", "web")] [("app", "web")] _ _
    [("DB", "db.ns1.svc.cluster.local")] [("DB", "db.ns1.svc.cluster.local")]
    rfl (by decide) rfl rfl rfl rfl rfl

/-- C7: an event for an object of namespace kube-system makes HandleAdd, HandleDelete and
HandleUpdate (the object being the new one, the old one arbitrary) return an error without
issuing any mutate call, whatever the labels, the env vars, the cluster and the write
collaborator. -/
theorem kube_system_rejected (c : Client) (write : Writer) (next : Nat) (oldObj obj : Any)
    (h : obj.namespace? = some "kube-system") :
    (∃ err, event.HandleAdd c write next obj = ⟨.error err, []⟩) ∧
    (∃ err, event.HandleDelete c write next obj = ⟨.error err, []⟩) ∧
    (∃ err, event.HandleUpdate c write next oldObj obj = ⟨.error err, []⟩) := by
  cases hc : object.ConvertToMeta (.delivered obj) with
  | panic msg => exact absurd hc (ConvertToMeta_no_panic obj msg)
  | error e =>
    refine ⟨⟨e, ?_⟩, ⟨e, ?_⟩, ⟨e, ?_⟩⟩
    · simp [event.HandleAdd, hc]
    · simp [event.HandleDelete, hc]
    · simp [event.HandleUpdate, hc]
  | ok v =>
    obtain ⟨l, m⟩ := v
    have hobj := ConvertToMeta_ok hc
    subst hobj
    have hns : m.GetNamespace = "kube-system" := by simpa [Any.namespace?] using h
    refine ⟨⟨event.errKubeSystem, ?_⟩, ⟨event.errKubeSystem, ?_⟩, ⟨event.errKubeSystem, ?_⟩⟩
    · simp [event.HandleAdd, hc, hns]
    · simp [event.HandleDelete, hc, hns]
    · simp [event.HandleUpdate, hc, hns]

/-- Witness of C7: a Pod of kube-system, with the labels of the cluster DNS, against a cluster
that lists a policy. -/
theorem kube_system_rejected_witness :
    (Any.workload Example.podKubeSystem).namespace? = some "kube-system" ∧
    ((∃ err, event.HandleAdd (Example.clusterWith [Example.policyDoc "p" [("a", "b")] []])
        Example.writeOk 0 (.workload Example.podKubeSystem) = ⟨.error err, []⟩) ∧
     (∃ err, event.HandleDelete (Example.clusterWith [Example.policyDoc "p" [("a", "b")] []])
        Example.writeOk 0 (.workload Example.podKubeSystem) = ⟨.error err, []⟩) ∧
     (∃ err, event.HandleUpdate (Example.clusterWith [Example.policyDoc "p" [("a", "b")] []])
        Example.writeOk 0 (.workload (Example.pod "dns" [])) (.workload Example.podKubeSystem)
          = ⟨.error err, []⟩)) :=
  ⟨rfl, kube_system_rejected _ _ 0 _ _ rfl⟩

/-- C8 (the code at the failing input): the Pods `a` (labels `app: a`, `env: prod`) and `b`
(labels `app: b`, `env: prod`) each got their policy from HandleAdd.  With the two policies
listed in that order, the delete of `b` issues the Delete call for `a-ns1-netpol`, the policy of
`a`: the lookup returns the first policy with a peer on any label of `b`, here `env In [prod]`. -/
theorem HandleDelete_deletes_other_policy :
    HandleAdd Example.clusterEmpty Example.writeOk 0
        (.workload (Example.pod "a" [("app", "a"), ("env", "prod")])) =
      ⟨.ok (), [.create policiesGVR "ns1"
        (.policy (Example.policyDoc "a-ns1-netpol" [("app", "a"), ("env", "prod")]
          [docPeer "app" ["a"], docPeer "env" ["prod"]]))]⟩ ∧
    HandleAdd Example.clusterEmpty Example.writeOk 0
        (.workload (Example.pod "b" [("app", "b"), ("env", "prod")])) =
      ⟨.ok (), [.create policiesGVR "ns1"
        (.policy (Example.policyDoc "b-ns1-netpol" [("app", "b"), ("env", "prod")]
          [docPeer "app" ["b"], docPeer "env" ["prod"]]))]⟩ ∧
    HandleDelete
        (Example.clusterWith
          [Example.policyDoc "a-ns1-netpol" [("app", "a"), ("env", "prod")]
            [docPeer "app" ["a"], docPeer "env" ["prod"]],
           Example.policyDoc "b-ns1-netpol" [("app", "b"), ("env", "prod")]
            [docPeer "app" ["b"], docPeer "env" ["prod"]]])
        Example.writeOk 0
        (.workload (Example.pod "b" [("app", "b"), ("env", "prod")])) =
      ⟨.ok (), [.delete policiesGVR "ns1" "a-ns1-netpol"]⟩ :=
  ⟨rfl, rfl, rfl⟩

/-- For a convertible workload outside kube-system, HandleDelete follows the label-match lookup
made with the workload's namespace and direct labels.  When the lookup reports NotFound it
returns NotFound and issues no mutate call; when the lookup returns a policy, the calls issued
are exactly one Delete, of that policy's name in that policy's namespace.  In terms of the
policies the namespace lists, provided the list call succeeds and every listed peer has a pod
selector: when no listed policy matches the direct labels, as is the case for an empty label
set, HandleDelete returns NotFound without a call; otherwise its calls are exactly one Delete,
of a listed policy that matches. -/
theorem HandleDelete_outcomes (c : Client) (write : Writer) (next : Nat) (obj : Any)
    (objLabels : Labels) (metaObj : Workload)
    (hconv : object.ConvertToMeta (.delivered obj) = .ok (objLabels, metaObj))
    (hns : metaObj.GetNamespace ≠ "kube-system") :
    ((np.GetPolicyByPodLabels c next metaObj.GetNamespace objLabels).1 = .error .npErrNotFound →
      HandleDelete c write next obj = ⟨.error .npErrNotFound, []⟩) ∧
    (∀ p, (np.GetPolicyByPodLabels c next metaObj.GetNamespace objLabels).1 = .ok p →
      (HandleDelete c write next obj).calls = [.delete policiesGVR p.Namespace p.Name]) ∧
    (∀ docs, c.listPolicies metaObj.GetNamespace = .ok docs → (∀ d ∈ docs, d.podSelectorsSet) →
      ((∀ d ∈ docs, ¬ d.matchesLabels objLabels) →
        HandleDelete c write next obj = ⟨.error .npErrNotFound, []⟩) ∧
      (objLabels = [] → HandleDelete c write next obj = ⟨.error .npErrNotFound, []⟩) ∧
      ((∃ d ∈ docs, d.matchesLabels objLabels) →
        ∃ d ∈ docs, d.matchesLabels objLabels ∧
          (HandleDelete c write next obj).calls = [.delete policiesGVR d.Namespace d.Name])) := by
  have h1 : (np.GetPolicyByPodLabels c next metaObj.GetNamespace objLabels).1
      = .error .npErrNotFound → HandleDelete c write next obj = ⟨.error .npErrNotFound, []⟩ := by
    intro h
    simp [HandleDelete, hconv, hns, h, submit]
  have h2 : ∀ p, (np.GetPolicyByPodLabels c next metaObj.GetNamespace objLabels).1 = .ok p →
      (HandleDelete c write next obj).calls = [.delete policiesGVR p.Namespace p.Name] := by
    intro p h
    simp only [HandleDelete, hconv, hns, if_false, h, submit_calls, Mutate_policy, List.nil_append]
  refine ⟨h1, h2, ?_⟩
  intro docs hlist hsel
  have hspec := GetPolicyByPodLabels_spec c next metaObj.GetNamespace objLabels docs hlist hsel
  have hnone : (∀ d ∈ docs, ¬ d.matchesLabels objLabels) →
      HandleDelete c write next obj = ⟨.error .npErrNotFound, []⟩ := by
    intro hno
    rcases hspec with ⟨_, hnf⟩ | ⟨pre, p, post, hsplit, _, hp, _⟩
    · exact h1 hnf
    · exact absurd hp (hno _ (by rw [hsplit]; simp))
  refine ⟨hnone, ?_, ?_⟩
  · intro hl
    apply hnone
    rintro d _ ⟨rule, _, peer, _, sel, _, req, _, _, kv, hkv, _⟩
    rw [hl] at hkv
    simp at hkv
  · rintro ⟨d, hd, hm⟩
    rcases hspec with ⟨hno, _⟩ | ⟨pre, p, post, hsplit, _, hp, hok⟩
    · exact absurd hm (hno d hd)
    · exact ⟨encode p, by rw [hsplit]; simp, hp, h2 p hok⟩

/-- The delete of the Pod `a` in a cluster that lists its policy. -/
theorem HandleDelete_outcomes_witness :
    (HandleDelete
        (Example.clusterWith
          [Example.policyDoc "a-ns1-netpol" [("app", "a")] [docPeer "app" ["a"]]])
        Example.writeOk 0 (.workload (Example.pod "a" [("app", "a")]))).calls
      = [.delete policiesGVR "ns1" "a-ns1-netpol"] :=
  (HandleDelete_outcomes
    (Example.clusterWith [Example.policyDoc "a-ns1-netpol" [("app", "a")] [docPeer "app" ["a"]]])
    Example.writeOk 0 (.workload (Example.pod "a" [("app", "a")])) [("app", "a")]
    (Example.pod "a" [("app", "a")]) rfl (by decide)).2.1
    (decode 0 (Example.policyDoc "a-ns1-netpol" [("app", "a")] [docPeer "app" ["a"]])).1 rfl

/-- C10: a HandleUpdate whose direct labels or env references changed and whose label-match
lookup, made with the old direct labels in the namespace of the old object, reports NotFound:
its outcome (result and sequence of mutate calls) is that of HandleAdd on the new object, and
none of its calls updates a policy. -/
theorem HandleUpdate_not_found_is_add (c : Client) (write : Writer) (next : Nat)
    (oldObj newObj : Any) (oldLabels newLabels : Labels) (oldMetaObj newMetaObj : Workload)
    (oldEnvVars newEnvVars : GoMap String String)
    (hnew : object.ConvertToMeta (.delivered newObj) = .ok (newLabels, newMetaObj))
    (hns : newMetaObj.GetNamespace ≠ "kube-system")
    (hold : object.ConvertToMeta (.delivered oldObj) = .ok (oldLabels, oldMetaObj))
    (hoe : attr.GetLocalEnvVars (.workload oldMetaObj) = .ok oldEnvVars)
    (hne : attr.GetLocalEnvVars (.workload newMetaObj) = .ok newEnvVars)
    (hchg : attr.MapsEqual newLabels oldLabels = false ∨
      attr.MapsEqual newEnvVars oldEnvVars = false)
    (hlook : (np.GetPolicyByPodLabels c next oldMetaObj.GetNamespace oldLabels).1
      = .error .npErrNotFound) :
    HandleUpdate c write next oldObj newObj = HandleAdd c write next newObj ∧
    ∀ call ∈ (HandleUpdate c write next oldObj newObj).calls, call.isPolicyUpdate = false := by
  have hobj := ConvertToMeta_ok hnew
  have heq : HandleUpdate c write next oldObj newObj = HandleAdd c write next newObj := by
    have hc : (attr.MapsEqual newEnvVars oldEnvVars && attr.MapsEqual newLabels oldLabels)
        = false := by
      rcases hchg with h | h <;> simp [h]
    unfold HandleUpdate
    simp only [hnew, hns, hold, hoe, hne, hc, if_false, Bool.false_eq_true]
    generalize np.GetPolicyByPodLabels c next oldMetaObj.GetNamespace oldLabels = look at hlook
    obtain ⟨r, n⟩ := look
    simp only at hlook
    subst hlook
    simp only [Error.Is, decide_True, if_true]
    rw [hobj]
    exact HandleAdd_next c write n next _
  refine ⟨heq, ?_⟩
  rw [heq]
  exact HandleAdd_no_policy_update c write next newObj

/-- Witness of C10: the labels of the Pod `web` change and the cluster lists no policy. -/
theorem HandleUpdate_not_found_is_add_witness :
    HandleUpdate Example.clusterEmpty Example.writeOk 0
        (.workload (Example.pod "web" [("app", "test")]))
        (.workload (Example.pod "web" [("app", "changed")])) =
      HandleAdd Example.clusterEmpty Example.writeOk 0
        (.workload (Example.pod "web" [("app", "changed")])) ∧
    ∀ call ∈ (HandleUpdate Example.clusterEmpty Example.writeOk 0
        (.workload (Example.pod "web" [("app", "test")]))
        (.workload (Example.pod "web" [("app", "changed")]))).calls,
      call.isPolicyUpdate = false :=
  HandleUpdate_not_found_is_add Example.clusterEmpty Example.writeOk 0 _ _
    [("app", "test")] [("app", "changed")] (Example.pod "web" [("app", "test")])
    (Example.pod "web" [("app", "changed")]) [] [] rfl (by decide) rfl rfl rfl
    (Or.inl rfl) rfl

/-! ## The peers AppendLabelsToPeers builds -/

theorem inPeer_allowsIn (a : Nat) (k v : String) (vs : List String) (h : v ∈ vs) :
    (np.inPeer a k vs).allowsIn k v :=
  ⟨_, rfl, ⟨k, LabelSelectorOpIn, vs⟩, List.mem_singleton.2 rfl, rfl, rfl, h⟩

theorem finalValues_nodup (values : List String) : (np.finalValues values).Nodup := by
  unfold np.finalValues
  have h := foldl_set_WF (fun (_ : Unit) => ()) (values.map (fun x => (x, ()))) []
    GoMap.WF_nil
  simp only [List.foldl_map] at h
  exact h

/-- C19: for every non-empty `targetLabels`, AppendLabelsToPeers succeeds, and its ingress list
and its egress list both hold, for each of the five entries of the default allow-list, a peer
whose pod selector has an In requirement on the key of the entry with the value of the entry
among its values. -/
theorem AppendLabelsToPeers_default_entries (next : Nat) (targetLabels : MultiLabels)
    (h : targetLabels ≠ []) :
    ∃ ingressPeers egressPeers,
      (np.AppendLabelsToPeers next targetLabels).1 = .ok (ingressPeers, egressPeers) ∧
      ∀ kv ∈ [("app.kubernetes.io/name", "ingress-nginx"), ("app.kubernetes.io/name", "contour"),
          ("app.kubernetes.io/name", "traefik"), ("app.kubernetes.io/name", "haproxy"),
          ("k8s-app", "kube-dns")],
        (∃ peer ∈ ingressPeers, peer.allowsIn kv.1 kv.2) ∧
        (∃ peer ∈ egressPeers, peer.allowsIn kv.1 kv.2) := by
  have hlen : ¬ targetLabels.length = 0 := by
    intro h0
    exact h (List.length_eq_zero.1 h0)
  rw [AppendLabelsToPeers_eq, if_neg hlen]
  refine ⟨_, _, rfl, ?_⟩
  have h1 : ∀ v ∈ ["ingress-nginx", "contour", "traefik", "haproxy"], ∀ rest,
      ∃ peer ∈ np.supportedPeers next defaultKeyValues ++ rest,
        peer.allowsIn "app.kubernetes.io/name" v := by
    intro v hv rest
    refine ⟨np.inPeer next "app.kubernetes.io/name"
      ["ingress-nginx", "contour", "traefik", "haproxy"], ?_, inPeer_allowsIn _ _ _ _ hv⟩
    simp [np.supportedPeers, defaultKeyValues]
  have h2 : ∀ rest, ∃ peer ∈ np.supportedPeers next defaultKeyValues ++ rest,
      peer.allowsIn "k8s-app" "kube-dns" := by
    intro rest
    refine ⟨np.inPeer (next + 1) "k8s-app" ["kube-dns"], ?_,
      inPeer_allowsIn _ _ _ _ (List.mem_singleton.2 rfl)⟩
    simp [np.supportedPeers, defaultKeyValues]
  intro kv hkv
  simp only [List.mem_cons, List.mem_singleton, List.not_mem_nil, or_false] at hkv
  rcases hkv with rfl | rfl | rfl | rfl | rfl
  · exact ⟨h1 _ (by simp) _, h1 _ (by simp) _⟩
  · exact ⟨h1 _ (by simp) _, h1 _ (by simp) _⟩
  · exact ⟨h1 _ (by simp) _, h1 _ (by simp) _⟩
  · exact ⟨h1 _ (by simp) _, h1 _ (by simp) _⟩
  · exact ⟨h2 _, h2 _⟩

/-- Witness of C19: the labels `app: [test]`. -/
theorem AppendLabelsToPeers_default_entries_witness :
    ∃ ingressPeers egressPeers,
      (np.AppendLabelsToPeers 0 [("app", ["test"])]).1 = .ok (ingressPeers, egressPeers) ∧
      ∀ kv ∈ [("app.kubernetes.io/name", "ingress-nginx"), ("app.kubernetes.io/name", "contour"),
          ("app.kubernetes.io/name", "traefik"), ("app.kubernetes.io/name", "haproxy"),
          ("k8s-app", "kube-dns")],
        (∃ peer ∈ ingressPeers, peer.allowsIn kv.1 kv.2) ∧
        (∃ peer ∈ egressPeers, peer.allowsIn kv.1 kv.2) :=
  AppendLabelsToPeers_default_entries 0 [("app", ["test"])] (by decide)

/-- C20: for every non-empty `targetLabels`, AppendLabelsToPeers succeeds with an ingress list
and an egress list that are equal on the wire (same selectors, whatever the pointers): the two
default peers, one per default key, followed by one peer per entry of `targetLabels` in the
order of the entries, each with the single requirement `key In values` where the value list has
no duplicates and holds exactly the values listed for the key. -/
theorem AppendLabelsToPeers_lists (next : Nat) (targetLabels : MultiLabels)
    (h : targetLabels ≠ []) :
    ∃ ingressPeers egressPeers,
      (np.AppendLabelsToPeers next targetLabels).1 = .ok (ingressPeers, egressPeers) ∧
      ingressPeers.map encodePeer = egressPeers.map encodePeer ∧
      ingressPeers.map encodePeer =
        defaultDocPeers ++ targetLabels.map (fun kv => docPeer kv.1 (np.finalValues kv.2)) ∧
      ∀ kv ∈ targetLabels,
        (np.finalValues kv.2).Nodup ∧ ∀ v, v ∈ np.finalValues kv.2 ↔ v ∈ kv.2 := by
  have hlen : ¬ targetLabels.length = 0 := by
    intro h0
    exact h (List.length_eq_zero.1 h0)
  rw [AppendLabelsToPeers_eq, if_neg hlen]
  refine ⟨_, _, rfl, ?_, ?_, ?_⟩
  · rw [List.map_append, List.map_append, (encode_labelPeers _ _).1, (encode_labelPeers _ _).2]
  · rw [List.map_append, (encode_labelPeers _ _).1, encode_supportedPeers]
    rfl
  · intro kv _
    exact ⟨finalValues_nodup kv.2, mem_finalValues kv.2⟩

/-- Witness of C20: the key `app` listed with the value `a` twice and the value `b` once. -/
theorem AppendLabelsToPeers_lists_witness :
    ∃ ingressPeers egressPeers,
      (np.AppendLabelsToPeers 0 [("app", ["a", "a", "b"])]).1 = .ok (ingressPeers, egressPeers) ∧
      ingressPeers.map encodePeer = egressPeers.map encodePeer ∧
      ingressPeers.map encodePeer =
        defaultDocPeers ++
          [("app", ["a", "a", "b"])].map (fun kv => docPeer kv.1 (np.finalValues kv.2)) ∧
      ∀ kv ∈ [("app", ["a", "a", "b"])],
        (np.finalValues kv.2).Nodup ∧ ∀ v, v ∈ np.finalValues kv.2 ↔ v ∈ kv.2 :=
  AppendLabelsToPeers_lists 0 [("app", ["a", "a", "b"])] (by decide)

/-! ## ExtendPeers applied twice -/

theorem ptrEq_refl {α : Type} (p : Option (Ptr α)) : ptrEq p p = true := by
  cases p <;> simp [ptrEq]

theorem peerEq_refl (x : NetworkPolicyPeer) : GoEq.eq x x = true := by
  show (ptrEq x.PodSelector x.PodSelector && ptrEq x.NamespaceSelector x.NamespaceSelector
    && ptrEq x.IPBlock x.IPBlock) = true
  simp [ptrEq_refl]

theorem Contains_append (peers more : List NetworkPolicyPeer) (x : NetworkPolicyPeer)
    (h : attr.Contains peers x = true) : attr.Contains (peers ++ more) x = true := by
  rw [Contains_iff] at h ⊢
  obtain ⟨s, hs, he⟩ := h
  exact ⟨s, List.mem_append_left _ hs, he⟩

theorem Contains_extendList (ps peers : List NetworkPolicyPeer) (x : NetworkPolicyPeer)
    (h : attr.Contains peers x = true) : attr.Contains (extendList ps peers) x = true := by
  obtain ⟨added, ha, _⟩ := extendList_prefix ps peers
  rw [ha]
  exact Contains_append peers added x h

theorem extendList_cons (pol : NetworkPolicyPeer) (ps peers : List NetworkPolicyPeer) :
    extendList (pol :: ps) peers =
      extendList ps (if !attr.Contains peers pol then peers ++ [pol] else peers) := rfl

/-- Once `ExtendPeers` went through the new peers, each of them is found in the rule. -/
theorem Contains_extendList_new (ps peers : List NetworkPolicyPeer) :
    ∀ x ∈ ps, attr.Contains (extendList ps peers) x = true := by
  induction ps generalizing peers with
  | nil => intro x hx; simp at hx
  | cons pol ps ih =>
    intro x hx
    rw [extendList_cons]
    simp only [List.mem_cons] at hx
    rcases hx with rfl | hx
    · apply Contains_extendList
      by_cases hc : attr.Contains peers x = true
      · simp [hc]
      · have hc' : attr.Contains peers x = false := by simpa using hc
        simp only [hc', Bool.not_false, if_true]
        rw [Contains_iff]
        exact ⟨x, by simp, peerEq_refl x⟩
    · exact ih _ x hx

theorem extendList_of_contained (ps peers : List NetworkPolicyPeer)
    (h : ∀ x ∈ ps, attr.Contains peers x = true) : extendList ps peers = peers := by
  induction ps with
  | nil => rfl
  | cons pol ps ih =>
    rw [extendList_cons]
    have hc := h pol (List.mem_cons_self _ _)
    simp only [hc, Bool.not_true, Bool.false_eq_true, if_false]
    exact ih (fun x hx => h x (List.mem_cons_of_mem _ hx))

theorem extendList_twice (ps peers : List NetworkPolicyPeer) :
    extendList ps (extendList ps peers) = extendList ps peers :=
  extendList_of_contained ps _ (Contains_extendList_new ps peers)

theorem ExtendPeers_eq (ip ep : List NetworkPolicyPeer) (p : NetworkPolicy) :
    np.ExtendPeers ip ep p =
      { p with Spec := { p.Spec with
          Ingress := p.Spec.Ingress.map (fun r => { From := extendList ip r.From })
          Egress := p.Spec.Egress.map (fun r => { To := extendList ep r.To }) } } := by
  have h1 := ExtendPeers_ingress ip ep p
  have h2 := ExtendPeers_egress ip ep p
  have h3 : np.ExtendPeers ip ep p =
      { p with Spec := { p.Spec with
          Ingress := (np.ExtendPeers ip ep p).Spec.Ingress
          Egress := (np.ExtendPeers ip ep p).Spec.Egress } } := rfl
  rw [h3, h1, h2]

/-- C15: ExtendPeers is idempotent.  Applied a second time with the same new ingress peers and
the same new egress peers, it returns the policy of the first application unchanged: every rule
keeps the peer list it had after the first application. -/
theorem ExtendPeers_idempotent (ingressPol egressPol : List NetworkPolicyPeer)
    (p : NetworkPolicy) :
    np.ExtendPeers ingressPol egressPol (np.ExtendPeers ingressPol egressPol p) =
      np.ExtendPeers ingressPol egressPol p := by
  rw [ExtendPeers_eq ingressPol egressPol (np.ExtendPeers ingressPol egressPol p),
    ExtendPeers_eq ingressPol egressPol p]
  have e1 : ((fun r : NetworkPolicyIngressRule =>
        ({ From := extendList ingressPol r.From } : NetworkPolicyIngressRule)) ∘
      fun r : NetworkPolicyIngressRule => { From := extendList ingressPol r.From }) =
      fun r => { From := extendList ingressPol r.From } := by
    funext r
    simp only [Function.comp, extendList_twice]
  have e2 : ((fun r : NetworkPolicyEgressRule =>
        ({ To := extendList egressPol r.To } : NetworkPolicyEgressRule)) ∘
      fun r : NetworkPolicyEgressRule => { To := extendList egressPol r.To }) =
      fun r => { To := extendList egressPol r.To } := by
    funext r
    simp only [Function.comp, extendList_twice]
  simp only [List.map_map, e1, e2]

/-! ## RemoveOldLabels, rule by rule -/

theorem keptRequirements_clear (old : MultiLabels) (reqs : List LabelSelectorRequirement)
    (h : ∀ req ∈ reqs, np.isInOldLabels req old = false) :
    np.keptRequirements old reqs = reqs := by
  unfold np.keptRequirements
  rw [List.filter_eq_self]
  intro req hreq
  simp [h req hreq]

theorem updateFirstPeer_clear (old : MultiLabels) (peers : List NetworkPolicyPeer)
    (hne : peers ≠ []) (h : ∀ peer ∈ peers, peer.clearOf old) :
    np.updateFirstPeer old peers = .ok peers := by
  cases peers with
  | nil => exact absurd rfl hne
  | cons peer rest =>
    have hp := h peer (List.mem_cons_self _ _)
    obtain ⟨sel, nsSel, ipb⟩ := peer
    cases sel with
    | none => simp only [np.updateFirstPeer]
    | some ptr =>
      obtain ⟨a, ml, me⟩ := ptr
      have hk := keptRequirements_clear old me (hp ⟨a, ml, me⟩ rfl)
      simp only [np.updateFirstPeer, hk]

theorem updateIngressRules_index (old : MultiLabels)
    (rules rules' : List NetworkPolicyIngressRule)
    (h : np.updateIngressRules old rules = .ok rules') :
    rules'.length = rules.length ∧
    ∀ (i : Nat) (r : NetworkPolicyIngressRule), rules[i]? = some r →
      ∃ peers, np.updateFirstPeer old r.From = .ok peers ∧ rules'[i]? = some { From := peers } := by
  induction rules generalizing rules' with
  | nil =>
    simp only [np.updateIngressRules, Result.ok.injEq] at h
    subst h
    simp
  | cons rule rules ih =>
    simp only [np.updateIngressRules] at h
    cases hp : np.updateFirstPeer old rule.From with
    | panic msg => simp [hp] at h
    | error e => simp [hp] at h
    | ok peers =>
      simp only [hp] at h
      cases hr : np.updateIngressRules old rules with
      | panic msg => simp [hr] at h
      | error e => simp [hr] at h
      | ok rs =>
        simp only [hr, Result.ok.injEq] at h
        subst h
        obtain ⟨hlen, hidx⟩ := ih rs hr
        refine ⟨by simp [hlen], ?_⟩
        intro i r hi
        cases i with
        | zero =>
          simp only [List.getElem?_cons_zero, Option.some.injEq] at hi
          subst hi
          exact ⟨peers, hp, by simp⟩
        | succ j =>
          simp only [List.getElem?_cons_succ] at hi ⊢
          exact hidx j r hi

theorem updateEgressRules_index (old : MultiLabels)
    (rules rules' : List NetworkPolicyEgressRule)
    (h : np.updateEgressRules old rules = .ok rules') :
    rules'.length = rules.length ∧
    ∀ (i : Nat) (r : NetworkPolicyEgressRule), rules[i]? = some r →
      ∃ peers, np.updateFirstPeer old r.To = .ok peers ∧ rules'[i]? = some { To := peers } := by
  induction rules generalizing rules' with
  | nil =>
    simp only [np.updateEgressRules, Result.ok.injEq] at h
    subst h
    simp
  | cons rule rules ih =>
    simp only [np.updateEgressRules] at h
    cases hp : np.updateFirstPeer old rule.To with
    | panic msg => simp [hp] at h
    | error e => simp [hp] at h
    | ok peers =>
      simp only [hp] at h
      cases hr : np.updateEgressRules old rules with
      | panic msg => simp [hr] at h
      | error e => simp [hr] at h
      | ok rs =>
        simp only [hr, Result.ok.injEq] at h
        subst h
        obtain ⟨hlen, hidx⟩ := ih rs hr
        refine ⟨by simp [hlen], ?_⟩
        intro i r hi
        cases i with
        | zero =>
          simp only [List.getElem?_cons_zero, Option.some.injEq] at hi
          subst hi
          exact ⟨peers, hp, by simp⟩
        | succ j =>
          simp only [List.getElem?_cons_succ] at hi ⊢
          exact hidx j r hi

/-- C17 (counterexample): a policy with two ingress rules, the second of which starts with the
peer `app In [test]`.  RemoveOldLabels for the old labels `app: [test]` empties the requirement
list of that peer: the rule after the first is edited. -/
theorem RemoveOldLabels_edits_second_rule :
    np.RemoveOldLabels [("app", ["test"])]
      [{ From := [np.inPeer 0 "k8s-app" ["kube-dns"]] },
       { From := [np.inPeer 1 "app" ["test"], np.inPeer 2 "tier" ["data"]] }]
      [{ To := [np.inPeer 3 "k8s-app" ["kube-dns"]] }] =
    .ok
      ([{ From := [np.inPeer 0 "k8s-app" ["kube-dns"]] },
        { From :=
            [{ PodSelector := some { addr := 1, val := { MatchLabels := [], MatchExpressions := [] } }
               NamespaceSelector := none
               IPBlock := none },
             np.inPeer 2 "tier" ["data"]] }],
       [{ To := [np.inPeer 3 "k8s-app" ["kube-dns"]] }]) := by
  decide

/-- C17 (amended): for ingress and egress rules that all have at least one peer,
RemoveOldLabels returns as many ingress rules and as many egress rules as it was given, and a
rule, the first or a later one, none of whose peers has a pod-selector requirement intersecting
`oldLabels` stands unchanged at its index in the result. -/
theorem RemoveOldLabels_rules (oldLabels : MultiLabels)
    (ingressRules : List NetworkPolicyIngressRule) (egressRules : List NetworkPolicyEgressRule)
    (hi : ∀ rule ∈ ingressRules, rule.From ≠ []) (he : ∀ rule ∈ egressRules, rule.To ≠ []) :
    ∃ ingress egress,
      np.RemoveOldLabels oldLabels ingressRules egressRules = .ok (ingress, egress) ∧
      ingress.length = ingressRules.length ∧ egress.length = egressRules.length ∧
      (∀ (i : Nat) (rule : NetworkPolicyIngressRule), ingressRules[i]? = some rule →
        (∀ peer ∈ rule.From, peer.clearOf oldLabels) → ingress[i]? = some rule) ∧
      (∀ (i : Nat) (rule : NetworkPolicyEgressRule), egressRules[i]? = some rule →
        (∀ peer ∈ rule.To, peer.clearOf oldLabels) → egress[i]? = some rule) := by
  obtain ⟨ingress, hin⟩ := updateIngressRules_ok oldLabels ingressRules hi
  obtain ⟨egress, heg⟩ := updateEgressRules_ok oldLabels egressRules he
  obtain ⟨hl1, hx1⟩ := updateIngressRules_index oldLabels ingressRules ingress hin
  obtain ⟨hl2, hx2⟩ := updateEgressRules_index oldLabels egressRules egress heg
  refine ⟨ingress, egress, by simp [np.RemoveOldLabels, hin, heg], hl1, hl2, ?_, ?_⟩
  · intro i rule hrule hclear
    obtain ⟨peers, hp, hres⟩ := hx1 i rule hrule
    have hmem : rule ∈ ingressRules := List.mem_iff_getElem?.2 ⟨i, hrule⟩
    rw [updateFirstPeer_clear oldLabels rule.From (hi rule hmem) hclear] at hp
    simp only [Result.ok.injEq] at hp
    rw [hres, ← hp]
  · intro i rule hrule hclear
    obtain ⟨peers, hp, hres⟩ := hx2 i rule hrule
    have hmem : rule ∈ egressRules := List.mem_iff_getElem?.2 ⟨i, hrule⟩
    rw [updateFirstPeer_clear oldLabels rule.To (he rule hmem) hclear] at hp
    simp only [Result.ok.injEq] at hp
    rw [hres, ← hp]

/-- Witness of C17 (amended): the rules of the counterexample; the first ingress rule and the
egress rule hold nothing to purge. -/
theorem RemoveOldLabels_rules_witness :
    ∃ ingress egress,
      np.RemoveOldLabels [("app", ["test"])]
        [{ From := [np.inPeer 0 "k8s-app" ["kube-dns"]] },
         { From := [np.inPeer 1 "app" ["test"], np.inPeer 2 "tier" ["data"]] }]
        [{ To := [np.inPeer 3 "k8s-app" ["kube-dns"]] }] = .ok (ingress, egress) ∧
      ingress.length = 2 ∧ egress.length = 1 ∧
      ingress[0]? = some { From := [np.inPeer 0 "k8s-app" ["kube-dns"]] } ∧
      egress[0]? = some { To := [np.inPeer 3 "k8s-app" ["kube-dns"]] } := by
  obtain ⟨ingress, egress, h, h1, h2, h3, h4⟩ :=
    RemoveOldLabels_rules [("app", ["test"])]
      [{ From := [np.inPeer 0 "k8s-app" ["kube-dns"]] },
       { From := [np.inPeer 1 "app" ["test"], np.inPeer 2 "tier" ["data"]] }]
      [{ To := [np.inPeer 3 "k8s-app" ["kube-dns"]] }] (by decide) (by decide)
  refine ⟨ingress, egress, h, h1, h2, h3 0 _ rfl ?_, h4 0 _ rfl ?_⟩
  · intro peer hpeer x hx req hreq
    simp only [List.mem_singleton] at hpeer
    subst hpeer
    simp only [np.inPeer, Option.some.injEq] at hx
    subst hx
    simp only [List.mem_singleton] at hreq
    subst hreq
    rfl
  · intro peer hpeer x hx req hreq
    simp only [List.mem_singleton] at hpeer
    subst hpeer
    simp only [np.inPeer, Option.some.injEq] at hx
    subst hx
    simp only [List.mem_singleton] at hreq
    subst hreq
    rfl

/-- C16 (the code at the failing input): a policy as NewPolicy builds it for the label
`app: test`, with one ingress and one egress rule that hold a default peer followed by the peer
`app In [test]`.  RemoveOldLabels for the old labels `app: [test]` returns both rules as they
were: the peer `app In [test]`, which is not the first peer of its rule, is still there. -/
theorem RemoveOldLabels_keeps_later_peer :
    np.RemoveOldLabels [("app", ["test"])]
      [{ From := [np.inPeer 0 "k8s-app" ["kube-dns"], np.inPeer 1 "app" ["test"]] }]
      [{ To := [np.inPeer 2 "k8s-app" ["kube-dns"], np.inPeer 3 "app" ["test"]] }] =
    .ok
      ([{ From := [np.inPeer 0 "k8s-app" ["kube-dns"], np.inPeer 1 "app" ["test"]] }],
       [{ To := [np.inPeer 2 "k8s-app" ["kube-dns"], np.inPeer 3 "app" ["test"]] }]) := by
  decide

/-- C14 (the code at the failing input): the policy `web-ns1-netpol` is read back from the
cluster with the two default peers and the peer `app In [test]` in its ingress rule and in its
egress rule, and AppendLabelsToPeers builds the new peers for `app: [test]` at the addresses
the decoded policy left unused.  ExtendPeers appends all three new peers to both rules, although
each of them equals, selector for selector, a peer the rule already holds. -/
theorem ExtendPeers_appends_equal_peers :
    (np.AppendLabelsToPeers
      (decode 0 (Example.policyDoc "web-ns1-netpol" [("app", "test")]
        [docPeer "app" ["test"]])).2
      [("app", ["test"])]).1.map (fun peers =>
      encode (np.ExtendPeers peers.1 peers.2
        (decode 0 (Example.policyDoc "web-ns1-netpol" [("app", "test")]
          [docPeer "app" ["test"]])).1)) =
    .ok
      { Name := "web-ns1-netpol"
        Namespace := "ns1"
        PodSelector := { MatchLabels := [("app", "test")], MatchExpressions := [] }
        Ingress := [defaultDocPeers ++ [docPeer "app" ["test"]] ++
          (defaultDocPeers ++ [docPeer "app" ["test"]])]
        Egress := [defaultDocPeers ++ [docPeer "app" ["test"]] ++
          (defaultDocPeers ++ [docPeer "app" ["test"]])]
        PolicyTypes := ["Ingress", "Egress"] } := by
  decide

/-- C18 (the code at the failing input): namespace `ns1` lists one policy whose ingress rule
holds a peer with an IP block only, followed by the peer `app In [a]`.  The policy matches the
label set `app: a`, yet the lookup for that label set panics on the first peer. -/
theorem GetPolicyByPodLabels_panics_on_ip_block :
    (np.GetPolicyByPodLabels
      (Example.clusterWith
        [{ Name := "allow-office"
           Namespace := "ns1"
           PodSelector := { MatchLabels := [("app", "a")], MatchExpressions := [] }
           Ingress := [[{ PodSelector := none, NamespaceSelector := none,
                          IPBlock := some { CIDR := "10.0.0.0/8", Except := [] } },
                        docPeer "app" ["a"]]]
           Egress := []
           PolicyTypes := ["Ingress"] }])
      0 "ns1" [("app", "a")]).1 =
      .panic "invalid memory address or nil pointer dereference" ∧
    PolicyDoc.matchesLabels
      { Name := "allow-office"
        Namespace := "ns1"
        PodSelector := { MatchLabels := [("app", "a")], MatchExpressions := [] }
        Ingress := [[{ PodSelector := none, NamespaceSelector := none,
                       IPBlock := some { CIDR := "10.0.0.0/8", Except := [] } },
                     docPeer "app" ["a"]]]
        Egress := []
        PolicyTypes := ["Ingress"] }
      [("app", "a")] := by
  refine ⟨by decide, ?_⟩
  refine ⟨_, List.mem_append_left _ (List.mem_singleton.2 rfl), docPeer "app" ["a"],
    by simp, _, rfl, ⟨"app", LabelSelectorOpIn, ["a"]⟩, List.mem_singleton.2 rfl, rfl,
    ("app", "a"), List.mem_singleton.2 rfl, rfl, List.mem_singleton.2 rfl⟩

/-! ## Failures of the resolution of env references -/

theorem getLabelsFromSvc_error (c : Client) (name ns : String) (e : Error)
    (h : attr.getLabelsFromSvc c name ns = .error e) :
    e = .attrErrResourceNotFound ∨ ∃ msg m, e = .wrap msg (.external m) := by
  unfold attr.getLabelsFromSvc at h
  split at h
  · simp only [Result.error.injEq] at h
    exact Or.inl h.symm
  · simp only [Result.error.injEq] at h
    exact Or.inr ⟨_, _, h.symm⟩
  · dsimp only at h
    split at h
    · simp only [Result.error.injEq] at h
      exact Or.inl h.symm
    · simp at h

theorem envVarsLoop_error (c : Client) (envVars : List (String × String)) (labels : MultiLabels)
    (e : Error) (h : attr.envVarsLoop c envVars labels = .error e) :
    e = .attrErrResourceNotFound ∨ ∃ msg m, e = .wrap msg (.external m) := by
  induction envVars generalizing labels with
  | nil => simp [attr.envVarsLoop] at h
  | cons kv rest ih =>
    obtain ⟨k, v⟩ := kv
    unfold attr.envVarsLoop at h
    split at h
    · split at h
      · split at h
        · simp only [Result.error.injEq] at h
          exact Or.inl h.symm
        · simp only [Result.error.injEq] at h
          exact Or.inr ⟨_, _, h.symm⟩
        · exact ih _ h
      · split at h
        · rename_i e' hsvc
          simp only [Result.error.injEq] at h
          subst h
          exact getLabelsFromSvc_error c _ _ _ hsvc
        · simp at h
        · exact ih _ h
    · simp at h

/-- The errors of `GetLabelsFromEnvVars`: the two sentinels, or the wrapped error of a
collaborator. -/
theorem GetLabelsFromEnvVars_error (c : Client) (envVars : GoMap String String) (e : Error)
    (h : attr.GetLabelsFromEnvVars c envVars = .error e) :
    e = .attrErrNoEnvVars ∨ e = .attrErrResourceNotFound ∨
      ∃ msg m, e = .wrap msg (.external m) := by
  unfold attr.GetLabelsFromEnvVars at h
  split at h
  · simp only [Result.error.injEq] at h
    exact Or.inl h.symm
  · exact Or.inr (envVarsLoop_error c envVars [] e h)

/-- The test `errors.Is(err, ErrNoEnvVars) || errors.Is(err, ErrResourceNotFound)` of HandleAdd
on an error of `GetLabelsFromEnvVars`. -/
theorem tolerated_iff (c : Client) (envVars : GoMap String String) (e : Error)
    (h : attr.GetLabelsFromEnvVars c envVars = .error e) :
    (e.Is .attrErrNoEnvVars || e.Is .attrErrResourceNotFound) = true ↔
      (e = .attrErrNoEnvVars ∨ e = .attrErrResourceNotFound) := by
  rcases GetLabelsFromEnvVars_error c envVars e h with rfl | rfl | ⟨msg, m, rfl⟩
  · simp [Error.Is]
  · simp [Error.Is]
  · simp [Error.Is]

theorem addPolicy_tolerated (c : Client) (write : Writer) (next : Nat) (name : String)
    (l : Labels) (w : Workload) (calls : List MutateCall) (envVars : GoMap String String)
    (e : Error)
    (hname : name ≠ "") (hns : w.GetNamespace ≠ "") (hl : l ≠ []) (hm : w.GetLabels ≠ [])
    (henv : attr.GetLocalEnvVars (.workload w) = .ok envVars)
    (he : attr.GetLabelsFromEnvVars c envVars = .error e)
    (htol : e = .attrErrNoEnvVars ∨ e = .attrErrResourceNotFound) :
    ∃ p, addPolicy c write next name l w calls = submit write .Create calls (.ok p) ∧
      p.Namespace = w.GetNamespace ∧
      encode p =
        { Name := name
          Namespace := w.GetNamespace
          PodSelector := { MatchLabels := l, MatchExpressions := [] }
          Ingress := [defaultDocPeers ++
            (attr.ConvertLabels w.GetLabels).map (fun kv => docPeer kv.1 (np.finalValues kv.2))]
          Egress := [defaultDocPeers ++
            (attr.ConvertLabels w.GetLabels).map (fun kv => docPeer kv.1 (np.finalValues kv.2))]
          PolicyTypes := ["Ingress", "Egress"] } := by
  obtain ⟨p, hp, hdoc⟩ := NewPolicy_ok next name w.GetNamespace l _ hname hns hl
    (ConvertLabels_ne_nil w.GetLabels hm)
  have hIs := (tolerated_iff c envVars e he).2 htol
  have hb : (buildPolicy c next name l w envVars).1 = .ok p := by
    unfold buildPolicy
    simp only [he, hIs, if_true]
    generalize np.NewPolicy next name w.GetNamespace l (attr.ConvertLabels w.GetLabels) = r at hp
    obtain ⟨r1, n⟩ := r
    simp only at hp
    subst hp
    rfl
  have hN : p.Namespace = w.GetNamespace := by
    have := congrArg PolicyDoc.Namespace hdoc
    simpa [encode] using this
  refine ⟨p, ?_, hN, hdoc⟩
  unfold addPolicy
  simp only [henv, hb]

theorem addPolicy_failed (c : Client) (write : Writer) (next : Nat) (name : String)
    (l : Labels) (w : Workload) (calls : List MutateCall) (envVars : GoMap String String)
    (e : Error)
    (henv : attr.GetLocalEnvVars (.workload w) = .ok envVars)
    (he : attr.GetLabelsFromEnvVars c envVars = .error e)
    (h1 : e ≠ .attrErrNoEnvVars) (h2 : e ≠ .attrErrResourceNotFound) :
    addPolicy c write next name l w calls = ⟨.error e, calls⟩ := by
  have hIs : (e.Is .attrErrNoEnvVars || e.Is .attrErrResourceNotFound) = false := by
    cases hb : (e.Is .attrErrNoEnvVars || e.Is .attrErrResourceNotFound) with
    | false => rfl
    | true =>
      rcases (tolerated_iff c envVars e he).1 hb with h | h
      · exact absurd h h1
      · exact absurd h h2
  unfold addPolicy buildPolicy
  simp only [henv, he, hIs, Bool.false_eq_true, if_false, submit]

/-- C13: a qualifying workload (convertible, outside kube-system, in a namespace) with
non-empty effective labels `l` and non-empty metadata labels, whose env references fail to
resolve with the error `e`.  When `e` is NoEnvVars or ResourceNotFound, HandleAdd issues one
call, the Create of the policy named after the workload, whose pod selector is `l` and whose
peers are the default peers followed by one peer per key of the metadata labels of the workload
(for a Pod, the labels `l`), and it returns nil when the write collaborator succeeds.  When `e`
is any other error, HandleAdd returns `e` and issues no call. -/
theorem HandleAdd_env_failure (c : Client) (write : Writer) (next : Nat) (obj : Any)
    (l : Labels) (w : Workload) (envVars : GoMap String String) (e : Error)
    (hconv : object.ConvertToMeta (.delivered obj) = .ok (l, w))
    (hns : w.GetNamespace ≠ "kube-system") (hns' : w.GetNamespace ≠ "")
    (hl : l ≠ []) (hm : w.GetLabels ≠ [])
    (henv : attr.GetLocalEnvVars (.workload w) = .ok envVars)
    (he : attr.GetLabelsFromEnvVars c envVars = .error e) :
    ((e = .attrErrNoEnvVars ∨ e = .attrErrResourceNotFound) →
      (HandleAdd c write next obj).calls =
        [.create policiesGVR w.GetNamespace (.policy
          { Name := w.GetName ++ "-" ++ w.GetNamespace ++ "-netpol"
            Namespace := w.GetNamespace
            PodSelector := { MatchLabels := l, MatchExpressions := [] }
            Ingress := [defaultDocPeers ++
              (attr.ConvertLabels w.GetLabels).map
                (fun kv => docPeer kv.1 (np.finalValues kv.2))]
            Egress := [defaultDocPeers ++
              (attr.ConvertLabels w.GetLabels).map
                (fun kv => docPeer kv.1 (np.finalValues kv.2))]
            PolicyTypes := ["Ingress", "Egress"] })] ∧
      ((∀ call, write call = none) → (HandleAdd c write next obj).result = .ok ())) ∧
    (e ≠ .attrErrNoEnvVars → e ≠ .attrErrResourceNotFound →
      HandleAdd c write next obj = ⟨.error e, []⟩) := by
  have hlen : ¬ w.GetLabels.length = 0 := fun h0 => hm (List.length_eq_zero.1 h0)
  have hadd : HandleAdd c write next obj =
      addPolicy c write next (w.GetName ++ "-" ++ w.GetNamespace ++ "-netpol") l w [] := by
    simp only [HandleAdd, hconv, hns, if_false, hlen]
  rw [hadd]
  constructor
  · intro htol
    obtain ⟨p, hp, hN, hdoc⟩ := addPolicy_tolerated c write next
      (w.GetName ++ "-" ++ w.GetNamespace ++ "-netpol") l w [] envVars e (policyName_ne _ _)
      hns' hl hm henv he htol
    rw [hp]
    constructor
    · rw [submit_calls]
      simp only [Mutate_policy, List.nil_append, hN, hdoc]
    · intro hw
      exact submit_result_ok write .Create [] p hw
  · intro h1 h2
    exact addPolicy_failed c write next _ l w [] envVars e henv he h1 h2

/-- Witness of C13: the Pod `web` labelled `app: web` refers to the Service `cache`, which the
first cluster does not hold and which the second cluster fails to read. -/
theorem HandleAdd_env_failure_witness :
    (HandleAdd (Example.clusterWith []) Example.writeOk 0
        (.workload (Example.podWithEnv "web" [("app", "web")] "CACHE"
          "cache.ns1.svc.cluster.local"))).calls =
      [.create policiesGVR "ns1" (.policy
        { Name := "web-ns1-netpol"
          Namespace := "ns1"
          PodSelector := { MatchLabels := [("app", "web")], MatchExpressions := [] }
          Ingress := [defaultDocPeers ++ [docPeer "app" ["web"]]]
          Egress := [defaultDocPeers ++ [docPeer "app" ["web"]]]
          PolicyTypes := ["Ingress", "Egress"] })] ∧
    (HandleAdd (Example.clusterWith []) Example.writeOk 0
        (.workload (Example.podWithEnv "web" [("app", "web")] "CACHE"
          "cache.ns1.svc.cluster.local"))).result = .ok () ∧
    HandleAdd Example.clusterDown Example.writeOk 0
        (.workload (Example.podWithEnv "web" [("app", "web")] "CACHE"
          "cache.ns1.svc.cluster.local")) =
      ⟨.error (.wrap "could not fetch svc cache. " (.external "timeout")), []⟩ :=
  have h := (HandleAdd_env_failure (Example.clusterWith []) Example.writeOk 0
    (.workload (Example.podWithEnv "web" [("app", "web")] "CACHE" "cache.ns1.svc.cluster.local"))
    [("app", "web")]
    (Example.podWithEnv "web" [("app", "web")] "CACHE" "cache.ns1.svc.cluster.local")
    [("CACHE", "cache.ns1.svc.cluster.local")] .attrErrResourceNotFound
    rfl (by decide) (by decide) (by decide) (by decide) rfl rfl).1 (Or.inr rfl)
  ⟨h.1, h.2 (fun _ => rfl),
    (HandleAdd_env_failure Example.clusterDown Example.writeOk 0
      (.workload (Example.podWithEnv "web" [("app", "web")] "CACHE"
        "cache.ns1.svc.cluster.local"))
      [("app", "web")]
      (Example.podWithEnv "web" [("app", "web")] "CACHE" "cache.ns1.svc.cluster.local")
      [("CACHE", "cache.ns1.svc.cluster.local")]
      (.wrap "could not fetch svc cache. " (.external "timeout"))
      rfl (by decide) (by decide) (by decide) (by decide) rfl rfl).2 (by decide) (by decide)⟩

/-! ## A located policy and its labels -/

theorem scanPeers_nil_ne (peers : List NetworkPolicyPeer) :
    np.scanPeers [] peers ≠ .ok true := by
  induction peers with
  | nil => simp [np.scanPeers]
  | cons peer rest ih =>
    unfold np.scanPeers
    cases hp : peer.PodSelector with
    | none => simp
    | some ptr =>
      have : ptr.val.MatchExpressions.any (np.reqMatches []) = false := by
        rw [List.any_eq_false]
        intro req _
        simp [np.reqMatches]
      simp only [this, Bool.false_eq_true, if_false]
      exact ih

theorem scanRules_nil_ne (rules : List (List NetworkPolicyPeer)) :
    np.scanRules [] rules ≠ .ok true := by
  induction rules with
  | nil => simp [np.scanRules]
  | cons peers rest ih =>
    unfold np.scanRules
    have h := scanPeers_nil_ne peers
    cases hs : np.scanPeers [] peers with
    | panic msg => simp
    | error e => simp
    | ok b =>
      cases b with
      | true => exact absurd hs h
      | false => exact ih

theorem scanPolicies_nil_ne (ps : List NetworkPolicy) (p : NetworkPolicy) :
    np.scanPolicies [] ps ≠ .ok p := by
  induction ps with
  | nil => simp [np.scanPolicies]
  | cons q rest ih =>
    unfold np.scanPolicies
    have h1 := scanRules_nil_ne (q.Spec.Ingress.map (fun r => r.From))
    have h2 := scanRules_nil_ne (q.Spec.Egress.map (fun r => r.To))
    cases hs : np.scanRules [] (q.Spec.Ingress.map (fun r => r.From)) with
    | panic msg => simp
    | error e => simp
    | ok b =>
      cases b with
      | true => exact absurd hs h1
      | false =>
        simp only
        cases hs2 : np.scanRules [] (q.Spec.Egress.map (fun r => r.To)) with
        | panic msg => simp
        | error e => simp
        | ok b2 =>
          cases b2 with
          | true => exact absurd hs2 h2
          | false => exact ih

/-- A lookup that locates a policy was made with a non-empty label set. -/
theorem located_labels_ne_nil (c : Client) (next : Nat) (ns : String) (l : Labels)
    (p : NetworkPolicy) (h : (np.GetPolicyByPodLabels c next ns l).1 = .ok p) : l ≠ [] := by
  intro hl
  subst hl
  unfold np.GetPolicyByPodLabels at h
  cases hlist : c.listPolicies ns with
  | error msg => simp [hlist] at h
  | ok docs =>
    simp only [hlist] at h
    by_cases hlen : (decodeList next docs).1.length = 0
    · simp [hlen] at h
    · simp only [hlen, if_false] at h
      exact scanPolicies_nil_ne _ p h

theorem MapsEqual_length {κ ν : Type} [DecidableEq κ] [GoEq ν] (a b : GoMap κ ν)
    (h : attr.MapsEqual a b = true) : a.length = b.length := by
  unfold attr.MapsEqual at h
  by_cases hl : a.length = b.length
  · exact hl
  · simp [hl] at h

/-! ## ExtendPeers with freshly built peers -/

theorem peerEq_false_of_addr (x y : NetworkPolicyPeer) (a b : Nat)
    (hx : x.podAddr = some a) (hy : y.podAddr = some b) (hne : a ≠ b) :
    GoEq.eq x y = false := by
  cases h : GoEq.eq x y with
  | false => rfl
  | true =>
    have := eq_podAddr h
    rw [hx, hy] at this
    exact absurd (Option.some.inj this) hne

theorem peerEq_false_of_below (x q : NetworkPolicyPeer) (n a : Nat)
    (hx : x.podAddr = some a) (hn : n ≤ a) (hq : q.below n) : GoEq.eq x q = false := by
  cases h : GoEq.eq x q with
  | false => rfl
  | true =>
    have h1 := eq_podAddr h
    rw [hx] at h1
    have := below_podAddr hq a h1.symm
    omega

/-- New peers that differ, by address, from every peer of the rule and from each other are all
appended, in their order. -/
theorem extendList_fresh (ps peers : List NetworkPolicyPeer)
    (hold : ∀ x ∈ ps, ∀ q ∈ peers, GoEq.eq x q = false)
    (hnew : ps.Pairwise (fun x y => GoEq.eq y x = false)) :
    extendList ps peers = peers ++ ps := by
  induction ps generalizing peers with
  | nil => simp [extendList]
  | cons pol ps ih =>
    rw [extendList_cons]
    have hc : attr.Contains peers pol = false := by
      cases hcc : attr.Contains peers pol with
      | false => rfl
      | true =>
        obtain ⟨s, hs, he⟩ := (Contains_iff peers pol).1 hcc
        rw [hold pol (List.mem_cons_self _ _) s hs] at he
        exact absurd he (by simp)
    simp only [hc, Bool.not_false, if_true]
    rw [List.pairwise_cons] at hnew
    rw [ih (peers ++ [pol]) ?_ hnew.2]
    · simp
    · intro x hx q hq
      simp only [List.mem_append, List.mem_singleton] at hq
      rcases hq with hq | rfl
      · exact hold x (List.mem_cons_of_mem _ hx) q hq
      · exact hnew.1 x hx

theorem supportedPeers_pairwise (n : Nat) (m : MultiLabels) :
    (np.supportedPeers n m).Pairwise (fun x y => GoEq.eq y x = false) := by
  induction m generalizing n with
  | nil => simp [np.supportedPeers]
  | cons kv rest ih =>
    obtain ⟨k, v⟩ := kv
    simp only [np.supportedPeers, List.pairwise_cons]
    refine ⟨?_, ih (n + 1)⟩
    intro y hy
    obtain ⟨a, ha, hle, _⟩ := supportedPeers_addr (n + 1) rest y hy
    exact peerEq_false_of_addr y _ a n ha (podAddr_inPeer n k v) (by omega)

theorem labelPeers_pairwise (n : Nat) (t : MultiLabels) :
    (np.labelPeers n t).1.Pairwise (fun x y => GoEq.eq y x = false) ∧
    (np.labelPeers n t).2.Pairwise (fun x y => GoEq.eq y x = false) := by
  induction t generalizing n with
  | nil => simp [np.labelPeers]
  | cons kv rest ih =>
    obtain ⟨k, v⟩ := kv
    simp only [np.labelPeers, List.pairwise_cons]
    refine ⟨⟨?_, (ih (n + 2)).1⟩, ⟨?_, (ih (n + 2)).2⟩⟩
    · intro y hy
      obtain ⟨a, ha, hle⟩ := (labelPeers_addr (n + 2) rest).1 y hy
      exact peerEq_false_of_addr y _ a n ha (podAddr_inPeer n k _) (by omega)
    · intro y hy
      obtain ⟨a, ha, hle⟩ := (labelPeers_addr (n + 2) rest).2 y hy
      exact peerEq_false_of_addr y _ a (n + 1) ha (podAddr_inPeer (n + 1) k _) (by omega)

/-- The peers `AppendLabelsToPeers` builds at the addresses from `n` on are all appended to a
rule whose peers sit below `n`. -/
theorem extendList_built (n : Nat) (t : MultiLabels) (peers : List NetworkPolicyPeer)
    (hpeers : ∀ q ∈ peers, q.below n) :
    extendList (np.supportedPeers n defaultKeyValues ++ (np.labelPeers (n + 2) t).1) peers =
      peers ++ (np.supportedPeers n defaultKeyValues ++ (np.labelPeers (n + 2) t).1) ∧
    extendList (np.supportedPeers n defaultKeyValues ++ (np.labelPeers (n + 2) t).2) peers =
      peers ++ (np.supportedPeers n defaultKeyValues ++ (np.labelPeers (n + 2) t).2) := by
  have haddr1 : ∀ x ∈ np.supportedPeers n defaultKeyValues, ∃ a, x.podAddr = some a ∧
      n ≤ a ∧ a < n + 2 := supportedPeers_addr n defaultKeyValues
  have key : ∀ l : List NetworkPolicyPeer,
      (∀ x ∈ l, ∃ a, x.podAddr = some a ∧ n + 2 ≤ a) →
      l.Pairwise (fun x y => GoEq.eq y x = false) →
      extendList (np.supportedPeers n defaultKeyValues ++ l) peers =
        peers ++ (np.supportedPeers n defaultKeyValues ++ l) := by
    intro l hl hp
    apply extendList_fresh
    · intro x hx q hq
      simp only [List.mem_append] at hx
      rcases hx with hx | hx
      · obtain ⟨a, ha, hle, _⟩ := haddr1 x hx
        exact peerEq_false_of_below x q n a ha hle (hpeers q hq)
      · obtain ⟨a, ha, hle⟩ := hl x hx
        exact peerEq_false_of_below x q n a ha (by omega) (hpeers q hq)
    · rw [List.pairwise_append]
      refine ⟨supportedPeers_pairwise n defaultKeyValues, hp, ?_⟩
      intro x hx y hy
      obtain ⟨a, ha, _, hlt⟩ := haddr1 x hx
      obtain ⟨b, hb, hle⟩ := hl y hy
      exact peerEq_false_of_addr y x b a hb ha (by omega)
  exact ⟨key _ (labelPeers_addr (n + 2) t).1 (labelPeers_pairwise (n + 2) t).1,
    key _ (labelPeers_addr (n + 2) t).2 (labelPeers_pairwise (n + 2) t).2⟩

/-! ## HandleUpdate when the env references changed -/

theorem merged_ne_nil (l : Labels) (e : MultiLabels) (hl : l ≠ []) :
    mergeInto (mergeInto [] (attr.ConvertLabels l)) e ≠ [] := by
  cases l with
  | nil => exact absurd rfl hl
  | cons kv rest =>
    intro hnil
    have hk : kv.1 ∈ GoMap.keys (mergeInto (mergeInto [] (attr.ConvertLabels (kv :: rest))) e) := by
      rw [mergeInto_keys, mergeInto_keys, ConvertLabels_keys]
      exact Or.inl (Or.inr (List.mem_map.2 ⟨kv, List.mem_cons_self _ _, rfl⟩))
    rw [hnil] at hk
    simp [GoMap.keys] at hk

/-- The policy `handleEnvVarChange` returns when the env references resolve to `e`: every rule
of `p`, followed by the default peers and one peer per entry of the merged labels. -/
theorem handleEnvVarChange_encode (c : Client) (n : Nat) (l : Labels)
    (envVars : GoMap String String) (e : MultiLabels) (p : NetworkPolicy)
    (hl : l ≠ []) (he : attr.GetLabelsFromEnvVars c envVars = .ok e) (hf : p.fresh n) :
    ∃ p2, (handleEnvVarChange c n l envVars p).1 = .ok p2 ∧ p2.Namespace = p.Namespace ∧
      encode p2 =
        { encode p with
          Ingress := (encode p).Ingress.map (fun rule => rule ++ (defaultDocPeers ++
            (mergeInto (mergeInto [] (attr.ConvertLabels l)) e).map
              (fun kv => docPeer kv.1 (np.finalValues kv.2))))
          Egress := (encode p).Egress.map (fun rule => rule ++ (defaultDocPeers ++
            (mergeInto (mergeInto [] (attr.ConvertLabels l)) e).map
              (fun kv => docPeer kv.1 (np.finalValues kv.2)))) } := by
  have hlen : ¬ (mergeInto (mergeInto [] (attr.ConvertLabels l)) e).length = 0 :=
    fun h0 => merged_ne_nil l e hl (List.length_eq_zero.1 h0)
  refine ⟨np.ExtendPeers
    (np.supportedPeers n defaultKeyValues ++
      (np.labelPeers (n + 2) (mergeInto (mergeInto [] (attr.ConvertLabels l)) e)).1)
    (np.supportedPeers n defaultKeyValues ++
      (np.labelPeers (n + 2) (mergeInto (mergeInto [] (attr.ConvertLabels l)) e)).2) p,
    ?_, rfl, ?_⟩
  · unfold handleEnvVarChange
    simp only [he, MergeLabels_pair, AppendLabelsToPeers_eq, hlen, if_false]
  · have h1 : ∀ r ∈ p.Spec.Ingress,
        (extendList (np.supportedPeers n defaultKeyValues ++
          (np.labelPeers (n + 2) (mergeInto (mergeInto [] (attr.ConvertLabels l)) e)).1)
          r.From).map encodePeer =
        r.From.map encodePeer ++ (defaultDocPeers ++
          (mergeInto (mergeInto [] (attr.ConvertLabels l)) e).map
            (fun kv => docPeer kv.1 (np.finalValues kv.2))) := by
      intro r hr
      rw [(extendList_built n _ r.From (hf.1 r hr)).1, List.map_append, List.map_append,
        (encode_labelPeers _ _).1, encode_supportedPeers]
      rfl
    have h2 : ∀ r ∈ p.Spec.Egress,
        (extendList (np.supportedPeers n defaultKeyValues ++
          (np.labelPeers (n + 2) (mergeInto (mergeInto [] (attr.ConvertLabels l)) e)).2)
          r.To).map encodePeer =
        r.To.map encodePeer ++ (defaultDocPeers ++
          (mergeInto (mergeInto [] (attr.ConvertLabels l)) e).map
            (fun kv => docPeer kv.1 (np.finalValues kv.2))) := by
      intro r hr
      rw [(extendList_built n _ r.To (hf.2 r hr)).2, List.map_append, List.map_append,
        (encode_labelPeers _ _).2, encode_supportedPeers]
      rfl
    rw [ExtendPeers_eq]
    simp only [encode, List.map_map]
    congr 1
    · exact List.map_congr_left h1
    · exact List.map_congr_left h2

/-- C12: a HandleUpdate that locates the policy `p` while the direct labels are the same in the
old and in the new object and the env references changed and resolve to `e`.  It issues one
call, the Update of `p` in which every ingress rule and every egress rule is the rule of `p`
followed by the peers `added`: every peer of `p` is kept at its place, the name, the namespace,
the pod selector and the policy types are those of `p`, and `added` holds a peer for every
entry of the merge of the direct labels with `e`. -/
theorem HandleUpdate_env_change (c : Client) (write : Writer) (next : Nat)
    (oldObj newObj : Any) (oldLabels newLabels : Labels) (oldMetaObj newMetaObj : Workload)
    (oldEnvVars newEnvVars : GoMap String String) (p : NetworkPolicy) (e : MultiLabels)
    (hnew : object.ConvertToMeta (.delivered newObj) = .ok (newLabels, newMetaObj))
    (hns : newMetaObj.GetNamespace ≠ "kube-system")
    (hold : object.ConvertToMeta (.delivered oldObj) = .ok (oldLabels, oldMetaObj))
    (hoe : attr.GetLocalEnvVars (.workload oldMetaObj) = .ok oldEnvVars)
    (hne : attr.GetLocalEnvVars (.workload newMetaObj) = .ok newEnvVars)
    (hlab : attr.MapsEqual newLabels oldLabels = true)
    (hchg : attr.MapsEqual newEnvVars oldEnvVars = false)
    (hlook : (np.GetPolicyByPodLabels c next oldMetaObj.GetNamespace oldLabels).1 = .ok p)
    (he : attr.GetLabelsFromEnvVars c newEnvVars = .ok e) :
    ∃ added,
      (HandleUpdate c write next oldObj newObj).calls =
        [.update policiesGVR p.Namespace (.policy
          { encode p with
            Ingress := (encode p).Ingress.map (fun rule => rule ++ added)
            Egress := (encode p).Egress.map (fun rule => rule ++ added) })] ∧
      ∀ merged, attr.MergeLabels [attr.ConvertLabels newLabels, e] = .ok merged →
        ∀ k vs, (k, vs) ∈ merged → docPeer k (np.finalValues vs) ∈ added := by
  have hc : (attr.MapsEqual newEnvVars oldEnvVars && attr.MapsEqual newLabels oldLabels)
      = false := by simp [hchg]
  have hold_ne := located_labels_ne_nil c next oldMetaObj.GetNamespace oldLabels p hlook
  have hl : newLabels ≠ [] := by
    intro h0
    have hlen := MapsEqual_length newLabels oldLabels hlab
    rw [h0] at hlen
    exact hold_ne (List.length_eq_zero.1 hlen.symm)
  have hf := GetPolicyByPodLabels_fresh c next oldMetaObj.GetNamespace oldLabels p hlook
  obtain ⟨p2, hp2, hN, hdoc⟩ := handleEnvVarChange_encode c _ newLabels newEnvVars e p hl he hf
  refine ⟨defaultDocPeers ++ (mergeInto (mergeInto [] (attr.ConvertLabels newLabels)) e).map
    (fun kv => docPeer kv.1 (np.finalValues kv.2)), ?_, ?_⟩
  · rw [HandleUpdate_located c write next oldObj newObj oldLabels newLabels oldMetaObj
      newMetaObj oldEnvVars newEnvVars p hnew hns hold hoe hne hc hlook]
    unfold reconcile
    simp only [hlab, hchg, Bool.not_true, Bool.not_false, Bool.false_eq_true, if_false, if_true,
      hp2, submit_calls, Mutate_policy, List.nil_append, hN, hdoc]
  · intro merged hm k vs hkv
    rw [MergeLabels_pair] at hm
    simp only [Result.ok.injEq] at hm
    subst hm
    exact List.mem_append_right _ (List.mem_map.2 ⟨(k, vs), hkv, rfl⟩)

/-- Witness of C12: the cluster lists the policy created for the Pod `web` labelled
`app: test`; the Pod keeps its labels and gains a reference to the Service `db`, whose
selector is `tier: data`. -/
theorem HandleUpdate_env_change_witness :
    ∃ added,
      (HandleUpdate
        (Example.clusterWith
          [Example.policyDoc "web-ns1-netpol" [("app", "test")] [docPeer "app" ["test"]]])
        Example.writeOk 0
        (.workload (Example.pod "web" [("app", "test")]))
        (.workload (Example.podWithEnv "web" [("app", "test")] "DB"
          "db.ns1.svc.cluster.local"))).calls =
        [.update policiesGVR "ns1" (.policy
          { Example.policyDoc "web-ns1-netpol" [("app", "test")] [docPeer "app" ["test"]] with
            Ingress := [defaultDocPeers ++ [docPeer "app" ["test"]] ++ added]
            Egress := [defaultDocPeers ++ [docPeer "app" ["test"]] ++ added] })] ∧
      docPeer "app" ["test"] ∈ added ∧ docPeer "tier" ["data"] ∈ added := by
  obtain ⟨added, h1, h2⟩ := HandleUpdate_env_change
    (Example.clusterWith
      [Example.policyDoc "web-ns1-netpol" [("app", "test")] [docPeer "app" ["test"]]])
    Example.writeOk 0 (.workload (Example.pod "web" [("app", "test")]))
    (.workload (Example.podWithEnv "web" [("app", "test")] "DB" "db.ns1.svc.cluster.local"))
    [("app", "test")] [("app", "test")]
    (Example.pod "web" [("app", "test")])
    (Example.podWithEnv "web" [("app", "test")] "DB" "db.ns1.svc.cluster.local")
    [] [("DB", "db.ns1.svc.cluster.local")]
    (decode 0 (Example.policyDoc "web-ns1-netpol" [("app", "test")] [docPeer "app" ["test"]])).1
    [("tier", ["data"])]
    rfl (by decide) rfl rfl rfl rfl rfl rfl rfl
  exact ⟨added, h1, h2 [("app", ["test"]), ("tier", ["data"])] rfl "app" ["test"] (by simp),
    h2 [("app", ["test"]), ("tier", ["data"])] rfl "tier" ["data"] (by simp)⟩

theorem handleEnvVarChange_error (c : Client) (n : Nat) (l : Labels)
    (envVars : GoMap String String) (p : NetworkPolicy) (e : Error)
    (he : attr.GetLabelsFromEnvVars c envVars = .error e) :
    handleEnvVarChange c n l envVars p = (.error e, n) := by
  unfold handleEnvVarChange
  simp only [he]

theorem handleLabelChange_nil (n : Nat) (oldLabels : Labels) (p p1 : NetworkPolicy) :
    (handleLabelChange n oldLabels [] p).1 ≠ .ok p1 := by
  unfold handleLabelChange
  dsimp only
  cases np.RemoveOldLabels (attr.ConvertLabels oldLabels) p.Spec.Ingress p.Spec.Egress with
  | panic msg => simp
  | error e => simp
  | ok r =>
    obtain ⟨i, eg⟩ := r
    simp [AppendLabelsToPeers_eq, attr.ConvertLabels]

theorem GetLabelsFromEnvVars_no_env (c : Client) (envVars : GoMap String String) :
    attr.GetLabelsFromEnvVars c envVars = .error .attrErrNoEnvVars ↔ envVars = [] := by
  constructor
  · intro h
    unfold attr.GetLabelsFromEnvVars at h
    by_cases hlen : envVars.length = 0
    · exact List.length_eq_zero.1 hlen
    · simp only [hlen, if_false] at h
      rcases envVarsLoop_error c envVars [] _ h with h1 | ⟨_, _, h1⟩
      · exact absurd h1 (by decide)
      · exact absurd h1 (by simp)
  · intro h
    subst h
    rfl

/-- HandleAdd tolerates a NoEnvVars or ResourceNotFound failure of the resolution: for a
qualifying workload with non-empty effective labels and a write collaborator that succeeds, it
ends with the Create of a policy selecting those labels. -/
theorem HandleAdd_tolerates (c : Client) (write : Writer) (next : Nat) (obj : Any)
    (l : Labels) (w : Workload) (envVars : GoMap String String) (e : Error)
    (hconv : object.ConvertToMeta (.delivered obj) = .ok (l, w))
    (hns : w.GetNamespace ≠ "kube-system") (hns' : w.GetNamespace ≠ "") (hl : l ≠ [])
    (henv : attr.GetLocalEnvVars (.workload w) = .ok envVars)
    (he : attr.GetLabelsFromEnvVars c envVars = .error e)
    (htol : e = .attrErrNoEnvVars ∨ e = .attrErrResourceNotFound)
    (hw : ∀ call, write call = none) :
    ∃ pre doc,
      HandleAdd c write next obj =
        ⟨.ok (), pre ++ [.create policiesGVR w.GetNamespace (.policy doc)]⟩ ∧
      (∀ call ∈ pre, call.isCreate = false) ∧
      doc.Name = w.GetName ++ "-" ++ w.GetNamespace ++ "-netpol" ∧
      doc.PodSelector.MatchLabels = l := by
  by_cases hlen : w.GetLabels.length = 0
  · obtain ⟨gvr, hadd⟩ := AddLabel_ok write w hw
    obtain ⟨p, hp, hN, hdoc⟩ := addPolicy_tolerated c write next
      (w.GetName ++ "-" ++ w.GetNamespace ++ "-netpol") l
      (w.SetLabels [("netpol-ctrl", w.GetName ++ "-" ++ w.GetNamespace)])
      [.update gvr w.GetNamespace
        (.workload (w.SetLabels [("netpol-ctrl", w.GetName ++ "-" ++ w.GetNamespace)]))]
      envVars e (policyName_ne _ _) (by rw [SetLabels_GetNamespace]; exact hns') hl
      (by rw [SetLabels_GetLabels]; simp)
      (by rw [GetLocalEnvVars_SetLabels]; exact henv) he htol
    rw [SetLabels_GetNamespace] at hN hdoc
    refine ⟨[.update gvr w.GetNamespace
        (.workload (w.SetLabels [("netpol-ctrl", w.GetName ++ "-" ++ w.GetNamespace)]))],
      encode p, ?_, ?_, ?_, ?_⟩
    · simp only [HandleAdd, hconv, hns, if_false, hlen, if_true, hadd, hp,
        submit_create_ok write _ p hw, hN]
    · intro call hc
      simp only [List.mem_singleton] at hc
      subst hc
      rfl
    · rw [hdoc]
    · rw [hdoc]
  · have hm : w.GetLabels ≠ [] := fun h0 => hlen (by rw [h0]; rfl)
    obtain ⟨p, hp, hN, hdoc⟩ := addPolicy_tolerated c write next
      (w.GetName ++ "-" ++ w.GetNamespace ++ "-netpol") l w [] envVars e (policyName_ne _ _)
      hns' hl hm henv he htol
    refine ⟨[], encode p, ?_, by simp, ?_, ?_⟩
    · simp only [HandleAdd, hconv, hns, if_false, hlen, hp, submit_create_ok write _ p hw, hN]
    · rw [hdoc]
    · rw [hdoc]

/-- C11: a HandleUpdate that locates the policy `p`, whose env references changed and whose
run reaches their resolution (the direct labels did not change, or the label change handler
went through), while the resolution of the new references fails with the error `e`, NoEnvVars
or ResourceNotFound.  HandleUpdate returns `e` and issues no mutate call; `e` is NoEnvVars
exactly when the new object has no reference left.  HandleAdd, given the same new object in a
namespace and a write collaborator that succeeds, returns nil and ends with the Create of the
policy named after the object, which selects its direct labels. -/
theorem HandleUpdate_env_failure (c : Client) (write : Writer) (next : Nat)
    (oldObj newObj : Any) (oldLabels newLabels : Labels) (oldMetaObj newMetaObj : Workload)
    (oldEnvVars newEnvVars : GoMap String String) (p : NetworkPolicy) (e : Error)
    (hnew : object.ConvertToMeta (.delivered newObj) = .ok (newLabels, newMetaObj))
    (hns : newMetaObj.GetNamespace ≠ "kube-system") (hns' : newMetaObj.GetNamespace ≠ "")
    (hold : object.ConvertToMeta (.delivered oldObj) = .ok (oldLabels, oldMetaObj))
    (hoe : attr.GetLocalEnvVars (.workload oldMetaObj) = .ok oldEnvVars)
    (hne : attr.GetLocalEnvVars (.workload newMetaObj) = .ok newEnvVars)
    (hchg : attr.MapsEqual newEnvVars oldEnvVars = false)
    (hlook : (np.GetPolicyByPodLabels c next oldMetaObj.GetNamespace oldLabels).1 = .ok p)
    (hreach : attr.MapsEqual newLabels oldLabels = true ∨
      ∃ p1, (handleLabelChange
        (np.GetPolicyByPodLabels c next oldMetaObj.GetNamespace oldLabels).2
        oldLabels newLabels p).1 = .ok p1)
    (he : attr.GetLabelsFromEnvVars c newEnvVars = .error e)
    (htol : e = .attrErrNoEnvVars ∨ e = .attrErrResourceNotFound) :
    HandleUpdate c write next oldObj newObj = ⟨.error e, []⟩ ∧
    (e = .attrErrNoEnvVars ↔ newEnvVars = []) ∧
    ((∀ call, write call = none) →
      ∃ pre doc,
        HandleAdd c write next newObj =
          ⟨.ok (), pre ++ [.create policiesGVR newMetaObj.GetNamespace (.policy doc)]⟩ ∧
        (∀ call ∈ pre, call.isCreate = false) ∧
        doc.Name = newMetaObj.GetName ++ "-" ++ newMetaObj.GetNamespace ++ "-netpol" ∧
        doc.PodSelector.MatchLabels = newLabels) := by
  have hc : (attr.MapsEqual newEnvVars oldEnvVars && attr.MapsEqual newLabels oldLabels)
      = false := by simp [hchg]
  have hl : newLabels ≠ [] := by
    intro h0
    rcases hreach with hlab | ⟨p1, hp1⟩
    · have hlen := MapsEqual_length newLabels oldLabels hlab
      rw [h0] at hlen
      exact located_labels_ne_nil c next oldMetaObj.GetNamespace oldLabels p hlook
        (List.length_eq_zero.1 hlen.symm)
    · rw [h0] at hp1
      exact handleLabelChange_nil _ oldLabels p p1 hp1
  refine ⟨?_, ?_, ?_⟩
  · rw [HandleUpdate_located c write next oldObj newObj oldLabels newLabels oldMetaObj
      newMetaObj oldEnvVars newEnvVars p hnew hns hold hoe hne hc hlook]
    unfold reconcile
    cases hlab : attr.MapsEqual newLabels oldLabels with
    | true =>
      simp only [hchg, Bool.not_true, Bool.not_false, Bool.false_eq_true, if_false, if_true,
        handleEnvVarChange_error c _ newLabels newEnvVars p e he, submit]
    | false =>
      rcases hreach with h | ⟨p1, hp1⟩
      · rw [hlab] at h
        exact absurd h (by simp)
      · generalize handleLabelChange
          (np.GetPolicyByPodLabels c next oldMetaObj.GetNamespace oldLabels).2
          oldLabels newLabels p = r at hp1
        obtain ⟨r1, n1⟩ := r
        simp only at hp1
        subst hp1
        simp only [hchg, Bool.not_false, if_true,
          handleEnvVarChange_error c _ newLabels newEnvVars p1 e he, submit]
  · rw [← GetLabelsFromEnvVars_no_env c newEnvVars, he]
    constructor
    · intro h
      rw [h]
    · intro h
      exact Result.error.inj h
  · intro hw
    exact HandleAdd_tolerates c write next newObj newLabels newMetaObj newEnvVars e hnew hns hns'
      hl hne he htol hw

/-- Witness of C11: the cluster lists the policy of the Pod `web` labelled `app: test`; the Pod
loses its only reference, to the Service `db`. -/
theorem HandleUpdate_env_failure_witness :
    HandleUpdate
      (Example.clusterWith
        [Example.policyDoc "web-ns1-netpol" [("app", "test")] [docPeer "app" ["test"]]])
      Example.writeOk 0
      (.workload (Example.podWithEnv "web" [("app", "test")] "DB" "db.ns1.svc.cluster.local"))
      (.workload (Example.pod "web" [("app", "test")])) = ⟨.error .attrErrNoEnvVars, []⟩ ∧
    ∃ pre doc,
      HandleAdd
        (Example.clusterWith
          [Example.policyDoc "web-ns1-netpol" [("app", "test")] [docPeer "app" ["test"]]])
        Example.writeOk 0 (.workload (Example.pod "web" [("app", "test")])) =
        ⟨.ok (), pre ++ [.create policiesGVR "ns1" (.policy doc)]⟩ ∧
      (∀ call ∈ pre, call.isCreate = false) ∧
      doc.Name = "web-ns1-netpol" ∧
      doc.PodSelector.MatchLabels = [("app", "test")] :=
  have h := HandleUpdate_env_failure
    (Example.clusterWith
      [Example.policyDoc "web-ns1-netpol" [("app", "test")] [docPeer "app" ["test"]]])
    Example.writeOk 0
    (.workload (Example.podWithEnv "web" [("app", "test")] "DB" "db.ns1.svc.cluster.local"))
    (.workload (Example.pod "web" [("app", "test")]))
    [("app", "test")] [("app", "test")]
    (Example.podWithEnv "web" [("app", "test")] "DB" "db.ns1.svc.cluster.local")
    (Example.pod "web" [("app", "test")])
    [("DB", "db.ns1.svc.cluster.local")] []
    (decode 0 (Example.policyDoc "web-ns1-netpol" [("app", "test")] [docPeer "app" ["test"]])).1
    .attrErrNoEnvVars
    rfl (by decide) (by decide) rfl rfl rfl rfl rfl (Or.inl rfl) rfl (Or.inl rfl)
  ⟨h.1, h.2.2 (fun _ => rfl)⟩

/-! ## NewPolicy -/

theorem map_eq_error {α β : Type} (f : α → β) (r : Result α) (e : Error)
    (h : r.map f = .error e) : r = .error e := by
  cases r with
  | ok a => simp [Result.map] at h
  | error e' => simpa [Result.map] using h
  | panic m => simp [Result.map] at h

/-- C21: NewPolicy returns ErrEmptyParam exactly when the name, the namespace, the pod selector
labels or the target labels are empty, and returns a policy exactly in the other cases; the
default peers built from the default table are never an empty list, so the guard on them in
AppendLabelsToPeers never fires. -/
theorem NewPolicy_empty_param (next : Nat) (name ns : String) (podSelectorLabels : Labels)
    (targetPodLabels : MultiLabels) :
    ((np.NewPolicy next name ns podSelectorLabels targetPodLabels).1 = .error .npErrEmptyParam ↔
      (name = "" ∨ ns = "" ∨ podSelectorLabels = [] ∨ targetPodLabels = [])) ∧
    ((∃ p, (np.NewPolicy next name ns podSelectorLabels targetPodLabels).1 = .ok p) ↔
      ¬ (name = "" ∨ ns = "" ∨ podSelectorLabels = [] ∨ targetPodLabels = [])) ∧
    (np.getDefaultSupportedPeers next np._DefaultLabels).1 ≠ [] := by
  have henc := NewPolicy_encode next name ns podSelectorLabels targetPodLabels
  have hcond : (name = "" ∨ ns = "" ∨ podSelectorLabels.length = 0 ∨ targetPodLabels.length = 0) ↔
      (name = "" ∨ ns = "" ∨ podSelectorLabels = [] ∨ targetPodLabels = []) := by
    simp only [List.length_eq_zero]
  refine ⟨?_, ?_, ?_⟩
  · constructor
    · intro h
      rw [h] at henc
      by_cases hc : name = "" ∨ ns = "" ∨ podSelectorLabels.length = 0 ∨ targetPodLabels.length = 0
      · exact hcond.1 hc
      · rw [if_neg hc] at henc
        simp [Result.map] at henc
    · intro h
      rw [if_pos (hcond.2 h)] at henc
      exact map_eq_error encode _ _ henc
  · constructor
    · rintro ⟨p, hp⟩ h
      rw [if_pos (hcond.2 h), hp] at henc
      simp [Result.map] at henc
    · intro h
      rw [if_neg (fun hc => h (hcond.1 hc))] at henc
      obtain ⟨p, hp, _⟩ := map_eq_ok encode _ _ henc
      exact ⟨p, hp⟩
  · rw [getDefaultSupportedPeers_default]
    simp [np.supportedPeers, defaultKeyValues]

/-- C22: a policy returned by NewPolicy has the given name and namespace, the pod selector with
match labels `podSelectorLabels` and no requirement, one ingress rule holding the ingress list
and one egress rule holding the egress list of the call of AppendLabelsToPeers on
`targetPodLabels`, and the policy types Ingress and Egress, in this order. -/
theorem NewPolicy_shape (next : Nat) (name ns : String) (podSelectorLabels : Labels)
    (targetPodLabels : MultiLabels) (p : NetworkPolicy)
    (h : (np.NewPolicy next name ns podSelectorLabels targetPodLabels).1 = .ok p) :
    p.Name = name ∧ p.Namespace = ns ∧
    p.Spec.PodSelector = { MatchLabels := podSelectorLabels, MatchExpressions := [] } ∧
    p.Spec.PolicyTypes = ["Ingress", "Egress"] ∧
    ∃ ingressPeers egressPeers,
      (np.AppendLabelsToPeers next targetPodLabels).1 = .ok (ingressPeers, egressPeers) ∧
      p.Spec.Ingress = [{ From := ingressPeers }] ∧ p.Spec.Egress = [{ To := egressPeers }] := by
  unfold np.NewPolicy at h
  by_cases hc : (name = "" || ns = "" || podSelectorLabels.length = 0) = true
  · rw [if_pos hc] at h
    simp at h
  · rw [if_neg hc] at h
    generalize np.AppendLabelsToPeers next targetPodLabels = r at h
    obtain ⟨r1, n⟩ := r
    cases r1 with
    | error e => simp at h
    | panic m => simp at h
    | ok peers =>
      obtain ⟨ip, ep⟩ := peers
      simp only [Result.ok.injEq] at h
      subst h
      exact ⟨rfl, rfl, rfl, rfl, ip, ep, rfl, rfl, rfl⟩

/-- Witness of C22: the policy of the Pod `web` labelled `app: web`. -/
theorem NewPolicy_shape_witness :
    ∃ p, (np.NewPolicy 0 "web-ns1-netpol" "ns1" [("app", "web")] [("app", ["web"])]).1 = .ok p ∧
      p.Name = "web-ns1-netpol" ∧ p.Namespace = "ns1" ∧
      p.Spec.PodSelector = { MatchLabels := [("app", "web")], MatchExpressions := [] } ∧
      p.Spec.PolicyTypes = ["Ingress", "Egress"] ∧
      ∃ ingressPeers egressPeers,
        (np.AppendLabelsToPeers 0 [("app", ["web"])]).1 = .ok (ingressPeers, egressPeers) ∧
        p.Spec.Ingress = [{ From := ingressPeers }] ∧ p.Spec.Egress = [{ To := egressPeers }] :=
  ⟨_, rfl, NewPolicy_shape 0 "web-ns1-netpol" "ns1" [("app", "web")] [("app", ["web"])] _ rfl⟩

/-! ## MergeLabels on any number of maps -/

theorem MergeLabels_eq (ts : List MultiLabels) :
    attr.MergeLabels ts =
      if ts.length = 0 then .error .attrErrEmptyParam else .ok (ts.foldl mergeInto []) := rfl

theorem foldl_mergeInto_keys (ts : List MultiLabels) (acc : MultiLabels) (k : String) :
    k ∈ GoMap.keys (ts.foldl mergeInto acc) ↔
      k ∈ GoMap.keys acc ∨ ∃ t ∈ ts, k ∈ GoMap.keys t := by
  induction ts generalizing acc with
  | nil => simp
  | cons t ts ih =>
    simp only [List.foldl_cons, ih, mergeInto_keys, List.mem_cons]
    constructor
    · rintro ((h | h) | ⟨t', ht', h⟩)
      · exact Or.inl h
      · exact Or.inr ⟨t, Or.inl rfl, h⟩
      · exact Or.inr ⟨t', Or.inr ht', h⟩
    · rintro (h | ⟨t', rfl | ht', h⟩)
      · exact Or.inl (Or.inl h)
      · exact Or.inl (Or.inr h)
      · exact Or.inr ⟨t', ht', h⟩

theorem foldl_mergeInto_getD (ts : List MultiLabels) (acc : MultiLabels) (k x : String) :
    x ∈ GoMap.getD (ts.foldl mergeInto acc) k [] ↔
      x ∈ GoMap.getD acc k [] ∨ ∃ t ∈ ts, ∃ vs, (k, vs) ∈ t ∧ x ∈ vs := by
  induction ts generalizing acc with
  | nil => simp
  | cons t ts ih =>
    simp only [List.foldl_cons, ih, mergeInto_getD, List.mem_cons]
    constructor
    · rintro ((h | ⟨vs, h1, h2⟩) | ⟨t', ht', vs, h1, h2⟩)
      · exact Or.inl h
      · exact Or.inr ⟨t, Or.inl rfl, vs, h1, h2⟩
      · exact Or.inr ⟨t', Or.inr ht', vs, h1, h2⟩
    · rintro (h | ⟨t', rfl | ht', vs, h1, h2⟩)
      · exact Or.inl (Or.inl h)
      · exact Or.inl (Or.inr ⟨vs, h1, h2⟩)
      · exact Or.inr ⟨t', ht', vs, h1, h2⟩

theorem appendUnique_loop_nodup (src : List String) (acc : List String × GoMap String Bool)
    (hinv : ∀ v, GoMap.getD acc.2 v false = true ↔ v ∈ acc.1) (hnd : acc.1.Nodup) :
    (src.foldl (fun (acc : List String × GoMap String Bool) v =>
      if !(GoMap.getD acc.2 v false) then (acc.1 ++ [v], GoMap.set acc.2 v true) else acc)
      acc).1.Nodup := by
  induction src generalizing acc with
  | nil => exact hnd
  | cons s src ih =>
    simp only [List.foldl_cons]
    by_cases hs : GoMap.getD acc.2 s false = true
    · simp only [hs, Bool.not_true, Bool.false_eq_true, if_false]
      exact ih acc hinv hnd
    · have hs' : GoMap.getD acc.2 s false = false := by simpa using hs
      simp only [hs', Bool.not_false, if_true]
      apply ih
      · intro v
        simp only [GoMap.getD_set, List.mem_append, List.mem_singleton]
        by_cases hv : s = v
        · subst hv; simp
        · have : ¬ v = s := fun e => hv e.symm
          simp [hv, this, hinv v]
      · have hnot : s ∉ acc.1 := fun hmem => hs ((hinv s).2 hmem)
        rw [List.nodup_append]
        refine ⟨hnd, List.nodup_singleton s, ?_⟩
        intro a ha hb
        simp only [List.mem_singleton] at hb
        subst hb
        exact hnot ha

theorem appendUnique_nodup (dst src : List String) (h : dst.Nodup) :
    (attr.appendUnique dst src).Nodup := by
  unfold attr.appendUnique
  exact appendUnique_loop_nodup src _ (fun v => by
    rw [seen_fold]
    simp [GoMap.getD, GoMap.get?]) h

theorem mergeInto_nodup (target acc : MultiLabels)
    (h : ∀ k, (GoMap.getD acc k []).Nodup) : ∀ k, (GoMap.getD (mergeInto acc target) k []).Nodup := by
  induction target generalizing acc with
  | nil => exact h
  | cons e target ih =>
    obtain ⟨k0, v0⟩ := e
    have hstep : mergeInto acc ((k0, v0) :: target) =
        mergeInto (GoMap.set acc k0 (attr.appendUnique (GoMap.getD acc k0 []) v0)) target := rfl
    rw [hstep]
    apply ih
    intro k
    rw [GoMap.getD_set]
    by_cases h0 : k0 = k
    · simp only [h0, if_true]
      exact appendUnique_nodup _ _ (h k)
    · simp only [h0, if_false]
      exact h k

theorem foldl_mergeInto_nodup (ts : List MultiLabels) (acc : MultiLabels)
    (h : ∀ k, (GoMap.getD acc k []).Nodup) :
    ∀ k, (GoMap.getD (ts.foldl mergeInto acc) k []).Nodup := by
  induction ts generalizing acc with
  | nil => exact h
  | cons t ts ih => exact ih _ (mergeInto_nodup t acc h)

/-- C25: MergeLabels fails with ErrEmptyParam exactly when it is given no map.  Given at least
one map it returns a map whose keys are the keys of the given maps and in which the value list
of every key has no duplicates and holds exactly the values listed under that key in one of the
given maps, whether or not these list a value twice. -/
theorem MergeLabels_union (targetLabels : List MultiLabels) :
    (attr.MergeLabels targetLabels = .error .attrErrEmptyParam ↔ targetLabels = []) ∧
    (targetLabels ≠ [] →
      ∃ merged, attr.MergeLabels targetLabels = .ok merged ∧
        (∀ k, k ∈ GoMap.keys merged ↔ ∃ t ∈ targetLabels, k ∈ GoMap.keys t) ∧
        ∀ k, (GoMap.getD merged k []).Nodup ∧
          ∀ v, v ∈ GoMap.getD merged k [] ↔ ∃ t ∈ targetLabels, ∃ vs, (k, vs) ∈ t ∧ v ∈ vs) := by
  rw [MergeLabels_eq]
  constructor
  · by_cases h : targetLabels.length = 0
    · simp [h, List.length_eq_zero.1 h]
    · have hne : targetLabels ≠ [] := fun h0 => h (by rw [h0]; rfl)
      simp [h, hne]
  · intro hne
    have h : ¬ targetLabels.length = 0 := fun h0 => hne (List.length_eq_zero.1 h0)
    rw [if_neg h]
    refine ⟨_, rfl, ?_, ?_⟩
    · intro k
      rw [foldl_mergeInto_keys]
      simp [GoMap.keys]
    · intro k
      refine ⟨foldl_mergeInto_nodup targetLabels [] (fun k => by simp [GoMap.getD, GoMap.get?]) k,
        ?_⟩
      intro v
      rw [foldl_mergeInto_getD]
      simp [GoMap.getD, GoMap.get?]

/-- Witness of C25: two maps that share the key `app`, the first listing a value twice. -/
theorem MergeLabels_union_witness :
    ∃ merged,
      attr.MergeLabels [[("app", ["a", "a"])], [("app", ["b", "a"]), ("tier", ["data"])]] =
        .ok merged ∧
      (∀ k, k ∈ GoMap.keys merged ↔
        ∃ t ∈ [[("app", ["a", "a"])], [("app", ["b", "a"]), ("tier", ["data"])]],
          k ∈ GoMap.keys t) ∧
      ∀ k, (GoMap.getD merged k []).Nodup ∧
        ∀ v, v ∈ GoMap.getD merged k [] ↔
          ∃ t ∈ [[("app", ["a", "a"])], [("app", ["b", "a"]), ("tier", ["data"])]],
            ∃ vs, (k, vs) ∈ t ∧ v ∈ vs :=
  (MergeLabels_union [[("app", ["a", "a"])], [("app", ["b", "a"]), ("tier", ["data"])]]).2
    (by decide)

/-- C23: merging `a` with `b` and merging `b` with `a` both succeed, and the two results have
the same keys and, under every key, the same values. -/
theorem MergeLabels_comm (a b : MultiLabels) :
    ∃ ab ba, attr.MergeLabels [a, b] = .ok ab ∧ attr.MergeLabels [b, a] = .ok ba ∧
      (∀ k, k ∈ GoMap.keys ab ↔ k ∈ GoMap.keys ba) ∧
      ∀ k v, v ∈ GoMap.getD ab k [] ↔ v ∈ GoMap.getD ba k [] := by
  refine ⟨_, _, MergeLabels_pair a b, MergeLabels_pair b a, ?_, ?_⟩
  · intro k
    simp only [mergeInto_keys]
    tauto
  · intro k v
    simp only [mergeInto_getD]
    constructor
    · rintro ((h | h) | h)
      · exact Or.inl (Or.inl h)
      · exact Or.inr h
      · exact Or.inl (Or.inr h)
    · rintro ((h | h) | h)
      · exact Or.inl (Or.inl h)
      · exact Or.inr h
      · exact Or.inl (Or.inr h)

/-! ## MergeLabels of a converted label set with itself -/

theorem set_of_not_mem {ν : Type} (m : GoMap String ν) (k : String) (v : ν)
    (h : k ∉ GoMap.keys m) : GoMap.set m k v = m ++ [(k, v)] := by
  induction m with
  | nil => rfl
  | cons e m ih =>
    obtain ⟨k0, v0⟩ := e
    simp only [GoMap.keys, List.map_cons, List.mem_cons, not_or] at h
    have h0 : ¬ k0 = k := fun e => h.1 e.symm
    simp only [GoMap.set, h0, if_false, List.cons_append]
    rw [ih h.2]

theorem set_of_get? {ν : Type} (m : GoMap String ν) (k : String) (v : ν)
    (h : GoMap.get? m k = some v) : GoMap.set m k v = m := by
  induction m with
  | nil => simp [GoMap.get?] at h
  | cons e m ih =>
    obtain ⟨k0, v0⟩ := e
    by_cases h0 : k0 = k
    · subst h0
      simp only [GoMap.get?, if_true, Option.some.injEq] at h
      subst h
      simp [GoMap.set]
    · simp only [GoMap.get?, h0, if_false] at h
      simp only [GoMap.set, h0, if_false]
      rw [ih h]

theorem mem_set {ν : Type} (m : GoMap String ν) (k : String) (v : ν) (x : String × ν)
    (h : x ∈ GoMap.set m k v) : x = (k, v) ∨ x ∈ m := by
  induction m with
  | nil =>
    simp only [GoMap.set, List.mem_singleton] at h
    exact Or.inl h
  | cons e m ih =>
    obtain ⟨k0, v0⟩ := e
    by_cases h0 : k0 = k
    · simp only [GoMap.set, h0, if_true, List.mem_cons] at h
      rcases h with h | h
      · exact Or.inl h
      · exact Or.inr (List.mem_cons_of_mem _ h)
    · simp only [GoMap.set, h0, if_false, List.mem_cons] at h
      rcases h with h | h
      · exact Or.inr (h ▸ List.mem_cons_self _ _)
      · rcases ih h with h1 | h1
        · exact Or.inl h1
        · exact Or.inr (List.mem_cons_of_mem _ h1)

theorem ConvertLabels_entries (l : Labels) :
    ∀ kv ∈ attr.ConvertLabels l, ∃ v, kv.2 = [v] ∧ (kv.1, v) ∈ l := by
  unfold attr.ConvertLabels
  have key : ∀ (rest : Labels) (acc : MultiLabels),
      (∀ kv ∈ acc, ∃ v, kv.2 = [v] ∧ (kv.1, v) ∈ l) → (∀ e ∈ rest, e ∈ l) →
      ∀ kv ∈ rest.foldl (fun (newMap : MultiLabels) kv => GoMap.set newMap kv.1 [kv.2]) acc,
        ∃ v, kv.2 = [v] ∧ (kv.1, v) ∈ l := by
    intro rest
    induction rest with
    | nil => intro acc hacc _; exact hacc
    | cons e rest ih =>
      intro acc hacc hsub
      simp only [List.foldl_cons]
      apply ih
      · intro kv hkv
        rcases mem_set acc e.1 [e.2] kv hkv with h | h
        · subst h
          exact ⟨e.2, rfl, hsub e (List.mem_cons_self _ _)⟩
        · exact hacc kv h
      · intro x hx
        exact hsub x (List.mem_cons_of_mem _ hx)
  exact key l [] (by simp) (fun e he => he)

theorem appendUnique_nil_singleton (v : String) : attr.appendUnique [] [v] = [v] := by
  simp [attr.appendUnique, GoMap.getD, GoMap.get?]

theorem appendUnique_singleton_self (v : String) : attr.appendUnique [v] [v] = [v] := by
  simp [attr.appendUnique, GoMap.getD, GoMap.get?, GoMap.set]

/-- Merging distinct new keys with singleton values into a map appends the entries. -/
theorem mergeInto_new (target acc : MultiLabels) (hwf : GoMap.WF (acc ++ target))
    (hs : ∀ kv ∈ target, ∃ v, kv.2 = [v]) : mergeInto acc target = acc ++ target := by
  induction target generalizing acc with
  | nil => simp [mergeInto]
  | cons e target ih =>
    obtain ⟨k, vs⟩ := e
    obtain ⟨v, hv⟩ := hs (k, vs) (List.mem_cons_self _ _)
    simp only at hv
    subst hv
    have hstep : mergeInto acc ((k, [v]) :: target) =
        mergeInto (GoMap.set acc k (attr.appendUnique (GoMap.getD acc k []) [v])) target := rfl
    have hk : k ∉ GoMap.keys acc := by
      intro hmem
      simp only [GoMap.WF, GoMap.keys, List.map_append, List.map_cons] at hwf
      rw [List.nodup_append] at hwf
      exact hwf.2.2 hmem (List.mem_cons_self _ _)
    have hg : GoMap.getD acc k [] = [] := by
      simp [GoMap.getD, (GoMap.get?_eq_none acc k).2 hk]
    rw [hstep, hg, appendUnique_nil_singleton, set_of_not_mem acc k [v] hk,
      ih (acc ++ [(k, [v])]) (by simpa using hwf)
        (fun kv hkv => hs kv (List.mem_cons_of_mem _ hkv))]
    simp

/-- Merging entries with singleton values that the map already holds changes nothing. -/
theorem mergeInto_same (target m : MultiLabels) (hwf : GoMap.WF m)
    (hsub : ∀ kv ∈ target, kv ∈ m) (hs : ∀ kv ∈ target, ∃ v, kv.2 = [v]) :
    mergeInto m target = m := by
  induction target with
  | nil => simp [mergeInto]
  | cons e target ih =>
    obtain ⟨k, vs⟩ := e
    obtain ⟨v, hv⟩ := hs (k, vs) (List.mem_cons_self _ _)
    simp only at hv
    subst hv
    have hstep : mergeInto m ((k, [v]) :: target) =
        mergeInto (GoMap.set m k (attr.appendUnique (GoMap.getD m k []) [v])) target := rfl
    have hget := GoMap.get?_of_mem m hwf k [v] (hsub _ (List.mem_cons_self _ _))
    have hg : GoMap.getD m k [] = [v] := by simp [GoMap.getD, hget]
    rw [hstep, hg, appendUnique_singleton_self, set_of_get? m k [v] hget]
    exact ih (fun kv hkv => hsub kv (List.mem_cons_of_mem _ hkv))
      (fun kv hkv => hs kv (List.mem_cons_of_mem _ hkv))

/-- C24: for every label set `L`, merging ConvertLabels(L) with itself returns ConvertLabels(L),
the map with the keys of `L` in which every value is a singleton list holding a value that `L`
gives to the key. -/
theorem MergeLabels_ConvertLabels_self (L : Labels) :
    attr.MergeLabels [attr.ConvertLabels L, attr.ConvertLabels L] = .ok (attr.ConvertLabels L) ∧
    (∀ k, k ∈ GoMap.keys (attr.ConvertLabels L) ↔ k ∈ GoMap.keys L) ∧
    ∀ kv ∈ attr.ConvertLabels L, ∃ v, kv.2 = [v] ∧ (kv.1, v) ∈ L := by
  have hs : ∀ kv ∈ attr.ConvertLabels L, ∃ v, kv.2 = [v] := by
    intro kv hkv
    obtain ⟨v, hv, _⟩ := ConvertLabels_entries L kv hkv
    exact ⟨v, hv⟩
  refine ⟨?_, ConvertLabels_keys L, ConvertLabels_entries L⟩
  rw [MergeLabels_pair, mergeInto_new (attr.ConvertLabels L) [] (by simpa using ConvertLabels_WF L)
    hs, List.nil_append, mergeInto_same _ _ (ConvertLabels_WF L) (fun kv hkv => hkv) hs]

/-! ## The pattern of isValidLocalEnvVar -/

theorem takeWhile_segment (n rest : List Char) (hn : ∀ c ∈ n, attr.isNameChar c = true) :
    (n ++ '.' :: rest).takeWhile attr.isNameChar = n ∧
    (n ++ '.' :: rest).dropWhile attr.isNameChar = '.' :: rest := by
  induction n with
  | nil =>
    have h : attr.isNameChar '.' = false := by decide
    simp [List.takeWhile_cons, List.dropWhile_cons, h]
  | cons c n ih =>
    have hc := hn c (List.mem_cons_self _ _)
    obtain ⟨h1, h2⟩ := ih (fun x hx => hn x (List.mem_cons_of_mem _ hx))
    simp only [List.cons_append, List.takeWhile_cons, List.dropWhile_cons, hc, if_true, h1, h2,
      and_self]

/-- One alternative of the pattern, on lists of characters: the text is a segment, a dot, a
segment and the tail. -/
theorem matchLocal_iff (t l : List Char) :
    attr.matchLocal ('.' :: t) l = true ↔
      ∃ n ns : List Char, n ≠ [] ∧ ns ≠ [] ∧ (∀ c ∈ n, attr.isNameChar c = true) ∧
        (∀ c ∈ ns, attr.isNameChar c = true) ∧ l = n ++ '.' :: (ns ++ '.' :: t) := by
  constructor
  · intro h
    unfold attr.matchLocal at h
    have hl := List.takeWhile_append_dropWhile attr.isNameChar l
    cases hd : l.dropWhile attr.isNameChar with
    | nil => simp [hd] at h
    | cons c r =>
      by_cases hc : c = '.'
      · subst hc
        simp only [hd, Bool.and_eq_true, Bool.not_eq_true', decide_eq_true_eq] at h
        obtain ⟨⟨h1, h2⟩, h3⟩ := h
        have hr := List.takeWhile_append_dropWhile attr.isNameChar r
        refine ⟨l.takeWhile attr.isNameChar, r.takeWhile attr.isNameChar, ?_, ?_,
          fun c hc => List.mem_takeWhile_imp hc, fun c hc => List.mem_takeWhile_imp hc, ?_⟩
        · intro h0
          rw [h0] at h1
          simp at h1
        · intro h0
          rw [h0] at h2
          simp at h2
        · rw [← h3, hr, ← hd, hl]
      · rw [hd] at h
        split at h
        · rename_i heq
          simp only [List.cons.injEq] at heq
          exact absurd heq.1 hc
        · simp at h
  · rintro ⟨n, ns, hn0, hns0, hn, hns, rfl⟩
    obtain ⟨h1, h2⟩ := takeWhile_segment n (ns ++ '.' :: t) hn
    obtain ⟨h3, h4⟩ := takeWhile_segment ns t hns
    unfold attr.matchLocal
    simp only [h1, h2, h3, h4, decide_True, Bool.and_true, Bool.and_eq_true, Bool.not_eq_true',
      List.isEmpty_eq_false]
    exact ⟨hn0, hns0⟩

/-- C30: isValidLocalEnvVar accepts exactly the strings made of a segment, a dot, a segment and
`.svc.cluster.local` or `.pod.cluster.local`, where a segment is a non-empty string of ASCII
letters, digits and hyphens; a string with anything before or after, with an empty or missing
name or namespace, or without the `svc` or `pod` part is rejected. -/
theorem isValidLocalEnvVar_iff (s : String) :
    attr.isValidLocalEnvVar s = true ↔
      ∃ n ns : String, isSegment n ∧ isSegment ns ∧
        (s = n ++ "." ++ ns ++ ".svc.cluster.local" ∨
          s = n ++ "." ++ ns ++ ".pod.cluster.local") := by
  have hpod : ".pod.cluster.local".toList = '.' :: "pod.cluster.local".toList := rfl
  have hsvc : ".svc.cluster.local".toList = '.' :: "svc.cluster.local".toList := rfl
  unfold attr.isValidLocalEnvVar
  rw [Bool.or_eq_true, hpod, hsvc, matchLocal_iff, matchLocal_iff]
  constructor
  · rintro (⟨n, ns, hn0, hns0, hn, hns, hs⟩ | ⟨n, ns, hn0, hns0, hn, hns, hs⟩)
    · exact ⟨String.mk n, String.mk ns, ⟨hn0, hn⟩, ⟨hns0, hns⟩, Or.inr (String.ext (by
        simpa using hs))⟩
    · exact ⟨String.mk n, String.mk ns, ⟨hn0, hn⟩, ⟨hns0, hns⟩, Or.inl (String.ext (by
        simpa using hs))⟩
  · rintro ⟨n, ns, ⟨hn0, hn⟩, ⟨hns0, hns⟩, rfl | rfl⟩
    · exact Or.inr ⟨n.toList, ns.toList, hn0, hns0, hn, hns, by simp⟩
    · exact Or.inl ⟨n.toList, ns.toList, hn0, hns0, hn, hns, by simp⟩

/-- The pattern on the strings of the test table and on their neighbours. -/
theorem isValidLocalEnvVar_examples :
    attr.isValidLocalEnvVar "db.ns1.svc.cluster.local" = true ∧
    attr.isValidLocalEnvVar "db.ns1.pod.cluster.local" = true ∧
    attr.isValidLocalEnvVar "db.ns1.svc.cluster.local.extra" = false ∧
    attr.isValidLocalEnvVar "x db.ns1.svc.cluster.local" = false ∧
    attr.isValidLocalEnvVar ".ns1.svc.cluster.local" = false ∧
    attr.isValidLocalEnvVar "db.svc.cluster.local" = false ∧
    attr.isValidLocalEnvVar "db.ns1.cluster.local" = false := by
  decide

/-! ## GetLocalEnvVars -/

theorem tails_any_suffix (sub pre : List Char) :
    (pre ++ sub).tails.any (fun t => sub.isPrefixOf t) = true := by
  induction pre with
  | nil =>
    cases sub with
    | nil => simp
    | cons c s =>
      have h : (c :: s).isPrefixOf (c :: s) = true :=
        List.isPrefixOf_iff_prefix.2 (List.prefix_refl _)
      simp only [List.nil_append, List.tails, List.any_cons, h, Bool.true_or]
  | cons c pre ih =>
    have h : (c :: pre ++ sub).tails = (c :: pre ++ sub) :: (pre ++ sub).tails := rfl
    rw [h, List.any_cons, ih, Bool.or_true]

/-- A value that matches the pattern contains one of the two suffixes: the test of
`GetLocalEnvVars` on an env entry comes down to `isValidLocalEnvVar`. -/
theorem isLocalEnvValue_eq (value : String) :
    attr.isLocalEnvValue value = attr.isValidLocalEnvVar value := by
  unfold attr.isLocalEnvValue
  cases hv : attr.isValidLocalEnvVar value with
  | false => simp
  | true =>
    have hpod : ".pod.cluster.local".toList = '.' :: "pod.cluster.local".toList := rfl
    have hsvc : ".svc.cluster.local".toList = '.' :: "svc.cluster.local".toList := rfl
    unfold attr.isValidLocalEnvVar at hv
    rw [Bool.or_eq_true, hpod, hsvc, matchLocal_iff, matchLocal_iff] at hv
    simp only [Bool.and_true, Bool.or_eq_true, attr.stringsContains]
    rcases hv with ⟨n, ns, _, _, _, _, hs⟩ | ⟨n, ns, _, _, _, _, hs⟩
    · right
      have h := tails_any_suffix ".pod.cluster.local".toList (n ++ '.' :: ns)
      rw [hs]
      simpa using h
    · left
      have h := tails_any_suffix ".svc.cluster.local".toList (n ++ '.' :: ns)
      rw [hs]
      simpa using h

theorem envFold_spec (env : List EnvVar) (acc : GoMap String String) :
    (∀ kv ∈ acc, attr.isValidLocalEnvVar kv.2 = true) →
    (∀ kv ∈ env.foldl (fun (envVars : GoMap String String) envVar =>
        if attr.isLocalEnvValue envVar.Value then GoMap.set envVars envVar.Name envVar.Value
        else envVars) acc, attr.isValidLocalEnvVar kv.2 = true) ∧
    (∀ k ∈ GoMap.keys acc, k ∈ GoMap.keys (env.foldl (fun (envVars : GoMap String String) envVar =>
        if attr.isLocalEnvValue envVar.Value then GoMap.set envVars envVar.Name envVar.Value
        else envVars) acc)) ∧
    (∀ e ∈ env, attr.isValidLocalEnvVar e.Value = true →
      e.Name ∈ GoMap.keys (env.foldl (fun (envVars : GoMap String String) envVar =>
        if attr.isLocalEnvValue envVar.Value then GoMap.set envVars envVar.Name envVar.Value
        else envVars) acc)) ∧
    ((∀ e ∈ env, attr.isValidLocalEnvVar e.Value = false) →
      env.foldl (fun (envVars : GoMap String String) envVar =>
        if attr.isLocalEnvValue envVar.Value then GoMap.set envVars envVar.Name envVar.Value
        else envVars) acc = acc) := by
  induction env generalizing acc with
  | nil => intro h; exact ⟨h, fun k hk => hk, by simp, fun _ => rfl⟩
  | cons e env ih =>
    intro hacc
    simp only [List.foldl_cons, isLocalEnvValue_eq]
    cases hv : attr.isValidLocalEnvVar e.Value with
    | false =>
      simp only [Bool.false_eq_true, if_false]
      obtain ⟨h1, h2, h3, h4⟩ := ih acc hacc
      simp only [isLocalEnvValue_eq] at h1 h2 h3 h4
      refine ⟨h1, h2, ?_, ?_⟩
      · intro x hx hxv
        simp only [List.mem_cons] at hx
        rcases hx with rfl | hx
        · rw [hv] at hxv; simp at hxv
        · exact h3 x hx hxv
      · intro hall
        exact h4 (fun x hx => hall x (List.mem_cons_of_mem _ hx))
    | true =>
      simp only [if_true]
      obtain ⟨h1, h2, h3, h4⟩ := ih (GoMap.set acc e.Name e.Value) (by
        intro kv hkv
        rcases mem_set acc e.Name e.Value kv hkv with h | h
        · rw [h]; exact hv
        · exact hacc kv h)
      simp only [isLocalEnvValue_eq] at h1 h2 h3 h4
      refine ⟨h1, ?_, ?_, ?_⟩
      · intro k hk
        exact h2 k ((GoMap.mem_keys_set acc e.Name k e.Value).2 (Or.inr hk))
      · intro x hx hxv
        simp only [List.mem_cons] at hx
        rcases hx with rfl | hx
        · exact h2 _ ((GoMap.mem_keys_set acc x.Name x.Name x.Value).2 (Or.inl rfl))
        · exact h3 x hx hxv
      · intro hall
        have := hall e (List.mem_cons_self _ _)
        rw [hv] at this
        simp at this

theorem containerFold_spec (cs : List Container) (acc : GoMap String String) :
    (∀ kv ∈ acc, attr.isValidLocalEnvVar kv.2 = true) →
    (∀ kv ∈ cs.foldl (fun (envVars : GoMap String String) container =>
        container.Env.foldl (fun (envVars : GoMap String String) envVar =>
          if attr.isLocalEnvValue envVar.Value then GoMap.set envVars envVar.Name envVar.Value
          else envVars) envVars) acc, attr.isValidLocalEnvVar kv.2 = true) ∧
    (∀ k ∈ GoMap.keys acc, k ∈ GoMap.keys (cs.foldl
      (fun (envVars : GoMap String String) container =>
        container.Env.foldl (fun (envVars : GoMap String String) envVar =>
          if attr.isLocalEnvValue envVar.Value then GoMap.set envVars envVar.Name envVar.Value
          else envVars) envVars) acc)) ∧
    (∀ container ∈ cs, ∀ e ∈ container.Env, attr.isValidLocalEnvVar e.Value = true →
      e.Name ∈ GoMap.keys (cs.foldl (fun (envVars : GoMap String String) container =>
        container.Env.foldl (fun (envVars : GoMap String String) envVar =>
          if attr.isLocalEnvValue envVar.Value then GoMap.set envVars envVar.Name envVar.Value
          else envVars) envVars) acc)) ∧
    ((∀ container ∈ cs, ∀ e ∈ container.Env, attr.isValidLocalEnvVar e.Value = false) →
      cs.foldl (fun (envVars : GoMap String String) container =>
        container.Env.foldl (fun (envVars : GoMap String String) envVar =>
          if attr.isLocalEnvValue envVar.Value then GoMap.set envVars envVar.Name envVar.Value
          else envVars) envVars) acc = acc) := by
  induction cs generalizing acc with
  | nil => intro h; exact ⟨h, fun k hk => hk, by simp, fun _ => rfl⟩
  | cons container cs ih =>
    intro hacc
    obtain ⟨e1, e2, e3, e4⟩ := envFold_spec container.Env acc hacc
    obtain ⟨h1, h2, h3, h4⟩ := ih _ e1
    simp only [List.foldl_cons]
    refine ⟨h1, fun k hk => h2 k (e2 k hk), ?_, ?_⟩
    · intro x hx e he hv
      simp only [List.mem_cons] at hx
      rcases hx with rfl | hx
      · exact h2 _ (e3 e he hv)
      · exact h3 x hx e he hv
    · intro hall
      rw [e4 (hall container (List.mem_cons_self _ _))]
      rw [e4 (hall container (List.mem_cons_self _ _))] at h4
      exact h4 (fun x hx => hall x (List.mem_cons_of_mem _ hx))

theorem GetLocalEnvVars_eq (w : Workload) :
    attr.GetLocalEnvVars (.workload w) =
      .ok (w.containers.foldl (fun (envVars : GoMap String String) container =>
        container.Env.foldl (fun (envVars : GoMap String String) envVar =>
          if attr.isLocalEnvValue envVar.Value then GoMap.set envVars envVar.Name envVar.Value
          else envVars) envVars) []) := by
  cases w <;> rfl

/-- C29: for every Pod, Deployment, StatefulSet or DaemonSet, GetLocalEnvVars returns a mapping
and no error: every value of the mapping satisfies isValidLocalEnvVar, the name of every env
entry of every container whose value satisfies isValidLocalEnvVar is a key of the mapping, and
the mapping is empty when no entry has such a value.  For an object of another kind it returns
ErrTypeNotSupported. -/
theorem GetLocalEnvVars_valid (w : Workload) :
    (∃ envVars, attr.GetLocalEnvVars (.workload w) = .ok envVars ∧
      (∀ kv ∈ envVars, attr.isValidLocalEnvVar kv.2 = true) ∧
      (∀ container ∈ w.containers, ∀ e ∈ container.Env,
        attr.isValidLocalEnvVar e.Value = true → e.Name ∈ GoMap.keys envVars) ∧
      ((∀ container ∈ w.containers, ∀ e ∈ container.Env,
        attr.isValidLocalEnvVar e.Value = false) → envVars = [])) ∧
    (∀ p, attr.GetLocalEnvVars (.policy p) = .error .attrErrTypeNotSupported) ∧
    (∀ typeName m, attr.GetLocalEnvVars (.other typeName m) = .error .attrErrTypeNotSupported) := by
  obtain ⟨h1, _, h3, h4⟩ := containerFold_spec w.containers [] (by simp)
  exact ⟨⟨_, GetLocalEnvVars_eq w, h1, h3, h4⟩, fun _ => rfl, fun _ _ => rfl⟩

/-- The mapping of a Pod with a valid reference, a value that only contains the suffix, and a
plain value. -/
theorem GetLocalEnvVars_example :
    attr.GetLocalEnvVars (.workload (.Pod ⟨"web", "ns1", [("app", "web")], []⟩
      [⟨"main", [⟨"DB", "db.ns1.svc.cluster.local"⟩,
                 ⟨"URL", "http://db.ns1.svc.cluster.local:5432"⟩,
                 ⟨"MODE", "debug"⟩]⟩])) =
      .ok [("DB", "db.ns1.svc.cluster.local")] := by
  decide

/-! ## Parsing a reference -/

theorem nameChar_ne_dot (c : Char) (h : attr.isNameChar c = true) : c ≠ '.' := by
  intro hc
  subst hc
  exact absurd h (by decide)

theorem splitDot_segment (n rest : List Char) (hn : ∀ c ∈ n, c ≠ '.') :
    attr.splitDot (n ++ '.' :: rest) = n :: attr.splitDot rest := by
  induction n with
  | nil => simp [attr.splitDot]
  | cons c n ih =>
    have hc := hn c (List.mem_cons_self _ _)
    have h := ih (fun x hx => hn x (List.mem_cons_of_mem _ hx))
    show attr.splitDot (c :: (n ++ '.' :: rest)) = (c :: n) :: attr.splitDot rest
    simp only [attr.splitDot, hc, if_false, h]

theorem tails_any_skip (n rest sub : List Char) (hn : ∀ c ∈ n, c ≠ '.') :
    (n ++ rest).tails.any (fun t => ('.' :: sub).isPrefixOf t) =
      rest.tails.any (fun t => ('.' :: sub).isPrefixOf t) := by
  induction n with
  | nil => rfl
  | cons c n ih =>
    have hc := hn c (List.mem_cons_self _ _)
    have h : (c :: (n ++ rest)).tails = (c :: (n ++ rest)) :: (n ++ rest).tails := rfl
    have hp : ('.' :: sub).isPrefixOf (c :: (n ++ rest)) = false := by
      have : ('.' == c) = false := by simpa using fun e : '.' = c => hc e.symm
      simp [List.isPrefixOf, this]
    rw [List.cons_append, h, List.any_cons, hp, Bool.false_or,
      ih (fun x hx => hn x (List.mem_cons_of_mem _ hx))]

theorem pod_not_prefix (ns : List Char) (hns : ∀ c ∈ ns, c ≠ '.') :
    "pod.cluster.local".toList.isPrefixOf (ns ++ ".svc.cluster.local".toList) = false := by
  have hP : "pod.cluster.local".toList =
      'p' :: 'o' :: 'd' :: '.' :: "cluster.local".toList := rfl
  have hS : ".svc.cluster.local".toList = '.' :: 's' :: "vc.cluster.local".toList := rfl
  have hC : "cluster.local".toList = 'c' :: "luster.local".toList := rfl
  rw [hP, hS]
  match ns, hns with
  | [], _ => simp [List.isPrefixOf]
  | [a], _ => simp [List.isPrefixOf]
  | [a, b], _ => simp [List.isPrefixOf]
  | [a, b, d], _ => rw [hC]; simp [List.isPrefixOf]
  | a :: b :: d :: e :: r, h =>
    have he : e ≠ '.' := h e (by simp)
    have : ('.' == e) = false := by simpa using fun x : '.' = e => he x.symm
    simp [List.isPrefixOf, this]

/-- A reference to a Service does not contain `.pod.cluster.local`. -/
theorem svc_ref_no_pod (n ns : List Char) (hn : ∀ c ∈ n, c ≠ '.') (hns : ∀ c ∈ ns, c ≠ '.') :
    (n ++ '.' :: (ns ++ ".svc.cluster.local".toList)).tails.any
      (fun t => ".pod.cluster.local".toList.isPrefixOf t) = false := by
  have hP : ".pod.cluster.local".toList = '.' :: "pod.cluster.local".toList := rfl
  have htail : ".svc.cluster.local".toList.tails.any
      (fun t => ('.' :: "pod.cluster.local".toList).isPrefixOf t) = false := by decide
  have h : ('.' :: (ns ++ ".svc.cluster.local".toList)).tails =
      ('.' :: (ns ++ ".svc.cluster.local".toList)) :: (ns ++ ".svc.cluster.local".toList).tails :=
    rfl
  have hp : ('.' :: "pod.cluster.local".toList).isPrefixOf
      ('.' :: (ns ++ ".svc.cluster.local".toList)) = false := by
    have := pod_not_prefix ns hns
    simp only [List.isPrefixOf, this, Bool.and_false]
  rw [hP, tails_any_skip n _ _ hn, h, List.any_cons, hp, Bool.false_or,
    tails_any_skip ns _ _ hns, htail]

/-- One turn of the loop of `GetLabelsFromEnvVars` on a reference to a Pod. -/
theorem envVarsLoop_pod (c : Client) (key name ns : String) (rest : List (String × String))
    (labels : MultiLabels) (hn : isSegment name) (hns : isSegment ns) :
    attr.envVarsLoop c ((key, name ++ "." ++ ns ++ ".pod.cluster.local") :: rest) labels =
      match c.getPod ns name with
      | .error .notFound => .error .attrErrResourceNotFound
      | .error (.other msg) =>
        .error (.wrap ("could not fetch pod " ++ name ++ ". ") (.external msg))
      | .ok podLabels => attr.envVarsLoop c rest (attr.appendLabels labels podLabels) := by
  have hv : (name ++ "." ++ ns ++ ".pod.cluster.local").toList =
      name.toList ++ '.' :: (ns.toList ++ '.' :: "pod.cluster.local".toList) := by
    simp
  have hsplit : attr.splitDot (name ++ "." ++ ns ++ ".pod.cluster.local").toList =
      name.toList :: ns.toList :: attr.splitDot "pod.cluster.local".toList := by
    rw [hv, splitDot_segment _ _ (fun x hx => nameChar_ne_dot x (hn.2 x hx)),
      splitDot_segment _ _ (fun x hx => nameChar_ne_dot x (hns.2 x hx))]
  have hc : attr.stringsContains (name ++ "." ++ ns ++ ".pod.cluster.local")
      ".pod.cluster.local" = true := by
    unfold attr.stringsContains
    have h := tails_any_suffix ".pod.cluster.local".toList (name.toList ++ '.' :: ns.toList)
    rw [hv]
    simpa using h
  rw [attr.envVarsLoop]
  simp only [hsplit, hc, if_true]
  rfl

/-- One turn of the loop of `GetLabelsFromEnvVars` on a reference to a Service. -/
theorem envVarsLoop_svc (c : Client) (key name ns : String) (rest : List (String × String))
    (labels : MultiLabels) (hn : isSegment name) (hns : isSegment ns) :
    attr.envVarsLoop c ((key, name ++ "." ++ ns ++ ".svc.cluster.local") :: rest) labels =
      match attr.getLabelsFromSvc c name ns with
      | .error e => .error e
      | .panic msg => .panic msg
      | .ok svcLabels => attr.envVarsLoop c rest (attr.appendLabels labels svcLabels) := by
  have hv : (name ++ "." ++ ns ++ ".svc.cluster.local").toList =
      name.toList ++ '.' :: (ns.toList ++ '.' :: "svc.cluster.local".toList) := by
    simp
  have hsplit : attr.splitDot (name ++ "." ++ ns ++ ".svc.cluster.local").toList =
      name.toList :: ns.toList :: attr.splitDot "svc.cluster.local".toList := by
    rw [hv, splitDot_segment _ _ (fun x hx => nameChar_ne_dot x (hn.2 x hx)),
      splitDot_segment _ _ (fun x hx => nameChar_ne_dot x (hns.2 x hx))]
  have hc : attr.stringsContains (name ++ "." ++ ns ++ ".svc.cluster.local")
      ".pod.cluster.local" = false := by
    unfold attr.stringsContains
    rw [hv]
    exact svc_ref_no_pod name.toList ns.toList (fun x hx => nameChar_ne_dot x (hn.2 x hx))
      (fun x hx => nameChar_ne_dot x (hns.2 x hx))
  rw [attr.envVarsLoop]
  simp only [hsplit, hc, Bool.false_eq_true, if_false]
  rfl

/-! ## GetLabelsFromEnvVars -/

theorem foldl_set_append (l acc : Labels) (h : GoMap.WF (acc ++ l)) :
    l.foldl (fun (labels : Labels) kv => GoMap.set labels kv.1 kv.2) acc = acc ++ l := by
  induction l generalizing acc with
  | nil => simp
  | cons e l ih =>
    obtain ⟨k, v⟩ := e
    have hk : k ∉ GoMap.keys acc := by
      intro hmem
      simp only [GoMap.WF, GoMap.keys, List.map_append, List.map_cons] at h
      rw [List.nodup_append] at h
      exact h.2.2 hmem (List.mem_cons_self _ _)
    simp only [List.foldl_cons]
    rw [set_of_not_mem acc k v hk, ih (acc ++ [(k, v)]) (by simpa using h)]
    simp

theorem getLabelsFromSvc_ok (c : Client) (name ns : String) (labels : Labels)
    (hwf : GoMap.WF labels) (h : c.getService ns name = .ok labels) (hne : labels ≠ []) :
    attr.getLabelsFromSvc c name ns = .ok labels := by
  unfold attr.getLabelsFromSvc
  have hb := foldl_set_append labels [] (by simpa using hwf)
  simp only [List.nil_append] at hb
  have hlen : ¬ labels.length = 0 := fun h0 => hne (List.length_eq_zero.1 h0)
  simp only [h, hb, hlen, if_false]

theorem envVarsLoop_resolves (c : Client) (key value : String) (rest : List (String × String))
    (labels : MultiLabels) (l : Labels) (h : c.resolves value l) :
    attr.envVarsLoop c ((key, value) :: rest) labels =
      attr.envVarsLoop c rest (attr.appendLabels labels l) := by
  obtain ⟨hwf, name, ns, hn, hns, ⟨rfl, hget⟩ | ⟨rfl, hget, hne⟩⟩ := h
  · rw [envVarsLoop_pod c key name ns rest labels hn hns, hget]
  · rw [envVarsLoop_svc c key name ns rest labels hn hns,
      getLabelsFromSvc_ok c name ns l hwf hget hne]

theorem envVarsLoop_fails (c : Client) (key value : String) (rest : List (String × String))
    (labels : MultiLabels) (err : LookupError) (h : c.lookupFails value err) :
    ∃ text, attr.envVarsLoop c ((key, value) :: rest) labels =
      (match err with
        | .notFound => Result.error .attrErrResourceNotFound
        | .other msg => Result.error (.wrap text (.external msg))) := by
  obtain ⟨name, ns, hn, hns, ⟨rfl, hget⟩ | ⟨rfl, hget⟩⟩ := h
  · refine ⟨"could not fetch pod " ++ name ++ ". ", ?_⟩
    rw [envVarsLoop_pod c key name ns rest labels hn hns, hget]
    cases err <;> rfl
  · refine ⟨"could not fetch svc " ++ name ++ ". ", ?_⟩
    rw [envVarsLoop_svc c key name ns rest labels hn hns]
    unfold attr.getLabelsFromSvc
    rw [hget]
    cases err <;> rfl

theorem appendLabels_getD (src : Labels) (labels : MultiLabels) (k v : String) :
    v ∈ GoMap.getD (attr.appendLabels labels src) k [] ↔
      v ∈ GoMap.getD labels k [] ∨ (k, v) ∈ src := by
  unfold attr.appendLabels
  induction src generalizing labels with
  | nil => simp
  | cons e src ih =>
    obtain ⟨k0, v0⟩ := e
    simp only [List.foldl_cons]
    rw [ih]
    simp only [GoMap.appendTo, GoMap.getD_set, List.mem_cons, Prod.mk.injEq]
    by_cases h0 : k0 = k
    · subst h0
      simp only [if_true, List.mem_append, List.mem_singleton, true_and]
      constructor
      · rintro ((h | h) | h)
        · exact Or.inl h
        · exact Or.inr (Or.inl h)
        · exact Or.inr (Or.inr h)
      · rintro (h | h | h)
        · exact Or.inl (Or.inl h)
        · exact Or.inl (Or.inr h)
        · exact Or.inr h
    · have hk : ¬ k = k0 := fun e => h0 e.symm
      simp only [h0, if_false, hk, false_and, false_or]

theorem envVarsLoop_additive (c : Client) (envVars : List (String × String))
    (labels : MultiLabels) (hres : ∀ kv ∈ envVars, ∃ l, c.resolves kv.2 l) :
    ∃ m, attr.envVarsLoop c envVars labels = .ok m ∧
      ∀ k v, v ∈ GoMap.getD m k [] ↔
        v ∈ GoMap.getD labels k [] ∨ ∃ kv ∈ envVars, ∃ l, c.resolves kv.2 l ∧ (k, v) ∈ l := by
  induction envVars generalizing labels with
  | nil => exact ⟨labels, rfl, by simp⟩
  | cons e envVars ih =>
    obtain ⟨key, value⟩ := e
    obtain ⟨l0, hl0⟩ := hres (key, value) (List.mem_cons_self _ _)
    have hrest : ∀ kv ∈ envVars, ∃ l, c.resolves kv.2 l :=
      fun kv hkv => hres kv (List.mem_cons_of_mem _ hkv)
    obtain ⟨m, hm, hiff⟩ := ih (attr.appendLabels labels l0) hrest
    refine ⟨m, by rw [envVarsLoop_resolves c key value envVars labels l0 hl0, hm], ?_⟩
    intro k v
    constructor
    · intro hv
      rcases (hiff k v).1 hv with h | ⟨kv, hkv, l, hl, hmem⟩
      · rcases (appendLabels_getD l0 labels k v).1 h with h1 | h1
        · exact Or.inl h1
        · exact Or.inr ⟨(key, value), List.mem_cons_self _ _, l0, hl0, h1⟩
      · exact Or.inr ⟨kv, List.mem_cons_of_mem _ hkv, l, hl, hmem⟩
    · rintro (h | ⟨kv, hkv, l, hl, hmem⟩)
      · exact (hiff k v).2 (Or.inl ((appendLabels_getD l0 labels k v).2 (Or.inl h)))
      · simp only [List.mem_cons] at hkv
        rcases hkv with rfl | hkv
        · obtain ⟨m', hm', hiff'⟩ := ih (attr.appendLabels labels l) hrest
          have e1 := envVarsLoop_resolves c key value envVars labels l0 hl0
          have e2 := envVarsLoop_resolves c key value envVars labels l hl
          rw [e1, hm] at e2
          rw [hm'] at e2
          simp only [Result.ok.injEq] at e2
          rw [e2]
          exact (hiff' k v).2 (Or.inl ((appendLabels_getD l labels k v).2 (Or.inr hmem)))
        · exact (hiff k v).2 (Or.inr ⟨kv, hkv, l, hl, hmem⟩)

/-- C26: for every non-empty mapping of env references that all resolve (each names a Pod the
cluster holds, or a Service the cluster holds with a non-empty selector), GetLabelsFromEnvVars
returns a multimap in which the value `v` is listed under the key `k` if and only if one of the
references resolves to a label set holding `k: v`: the labels of every referenced object are
there, and nothing else. -/
theorem GetLabelsFromEnvVars_additive (c : Client) (envVars : GoMap String String)
    (hne : envVars ≠ []) (hres : ∀ kv ∈ envVars, ∃ labels, c.resolves kv.2 labels) :
    ∃ m, attr.GetLabelsFromEnvVars c envVars = .ok m ∧
      ∀ k v, v ∈ GoMap.getD m k [] ↔
        ∃ kv ∈ envVars, ∃ labels, c.resolves kv.2 labels ∧ (k, v) ∈ labels := by
  have hlen : ¬ envVars.length = 0 := fun h0 => hne (List.length_eq_zero.1 h0)
  obtain ⟨m, hm, hiff⟩ := envVarsLoop_additive c envVars [] hres
  refine ⟨m, by simp only [attr.GetLabelsFromEnvVars, hlen, if_false, hm], ?_⟩
  intro k v
  rw [hiff]
  simp [GoMap.getD, GoMap.get?]

/-- Witness of C26: the reference to the Service `db` of `ns1`, whose selector is
`tier: data`. -/
theorem GetLabelsFromEnvVars_additive_witness :
    ∃ m, attr.GetLabelsFromEnvVars (Example.clusterWith []) [("DB", "db.ns1.svc.cluster.local")] =
        .ok m ∧
      ∀ k v, v ∈ GoMap.getD m k [] ↔
        ∃ kv ∈ [("DB", "db.ns1.svc.cluster.local")], ∃ labels,
          (Example.clusterWith []).resolves kv.2 labels ∧ (k, v) ∈ labels :=
  GetLabelsFromEnvVars_additive (Example.clusterWith []) [("DB", "db.ns1.svc.cluster.local")]
    (by decide)
    (fun kv hkv => ⟨[("tier", "data")], by decide, "db", "ns1", ⟨by decide, by decide⟩,
      ⟨by decide, by decide⟩,
      Or.inr ⟨by rw [List.mem_singleton.1 hkv]; rfl, rfl, by decide⟩⟩)

/-- C27 (counterexample): namespace `ns1` holds the Pods `a` and `b`, both
labelled `app: test`, and the mapping refers to both.  GetLabelsFromEnvVars lists the value
`test` twice under the key `app`. -/
theorem GetLabelsFromEnvVars_lists_value_twice :
    attr.GetLabelsFromEnvVars Example.clusterTwoPods
      [("A", "a.ns1.pod.cluster.local"), ("B", "b.ns1.pod.cluster.local")] =
      .ok [("app", ["test", "test"])] := by
  decide

theorem envVarsLoop_prefix (c : Client) (pre rest : List (String × String))
    (labels : MultiLabels) (hres : ∀ kv ∈ pre, ∃ l, c.resolves kv.2 l) :
    ∃ labels', attr.envVarsLoop c (pre ++ rest) labels = attr.envVarsLoop c rest labels' := by
  induction pre generalizing labels with
  | nil => exact ⟨labels, rfl⟩
  | cons e pre ih =>
    obtain ⟨key, value⟩ := e
    obtain ⟨l, hl⟩ := hres (key, value) (List.mem_cons_self _ _)
    obtain ⟨labels', h⟩ := ih (attr.appendLabels labels l)
      (fun kv hkv => hres kv (List.mem_cons_of_mem _ hkv))
    exact ⟨labels', by rw [List.cons_append, envVarsLoop_resolves c key value _ labels l hl, h]⟩

/-- C28: GetLabelsFromEnvVars returns ErrNoEnvVars exactly when the mapping is empty, whatever
the cluster holds.  On a mapping in which the references before `value` resolve, it returns
ErrResourceNotFound when the lookup for `value` reports not-found, and the lookup error,
wrapped, when that lookup fails otherwise.  Every error it returns is one of these three, and a
call that returns an error returns no multimap. -/
theorem GetLabelsFromEnvVars_errors (c : Client) :
    (∀ envVars, attr.GetLabelsFromEnvVars c envVars = .error .attrErrNoEnvVars ↔ envVars = []) ∧
    (∀ (pre post : List (String × String)) (key value : String),
      (∀ kv ∈ pre, ∃ l, c.resolves kv.2 l) →
      (c.lookupFails value .notFound →
        attr.GetLabelsFromEnvVars c (pre ++ (key, value) :: post) =
          .error .attrErrResourceNotFound) ∧
      (∀ msg, c.lookupFails value (.other msg) →
        ∃ text, attr.GetLabelsFromEnvVars c (pre ++ (key, value) :: post) =
          .error (.wrap text (.external msg)))) ∧
    (∀ envVars e, attr.GetLabelsFromEnvVars c envVars = .error e →
      (e = .attrErrNoEnvVars ∨ e = .attrErrResourceNotFound ∨
        ∃ text msg, e = .wrap text (.external msg)) ∧
      ∀ m, attr.GetLabelsFromEnvVars c envVars ≠ .ok m) := by
  refine ⟨GetLabelsFromEnvVars_no_env c, ?_, ?_⟩
  · intro pre post key value hpre
    have hlen : ¬ (pre ++ (key, value) :: post).length = 0 := by simp
    obtain ⟨labels', h⟩ := envVarsLoop_prefix c pre ((key, value) :: post) [] hpre
    constructor
    · intro hf
      obtain ⟨text, ht⟩ := envVarsLoop_fails c key value post labels' .notFound hf
      simp only [attr.GetLabelsFromEnvVars, hlen, if_false, h, ht]
    · intro msg hf
      obtain ⟨text, ht⟩ := envVarsLoop_fails c key value post labels' (.other msg) hf
      exact ⟨text, by simp only [attr.GetLabelsFromEnvVars, hlen, if_false, h, ht]⟩
  · intro envVars e he
    refine ⟨GetLabelsFromEnvVars_error c envVars e he, ?_⟩
    intro m hm
    rw [he] at hm
    exact absurd hm (by simp)

/-- Witness of C28: on the cluster that holds the Service `db` only, a reference to the missing
Service `cache` that follows a reference to `db`. -/
theorem GetLabelsFromEnvVars_errors_witness :
    attr.GetLabelsFromEnvVars (Example.clusterWith [])
      [("DB", "db.ns1.svc.cluster.local"), ("CACHE", "cache.ns1.svc.cluster.local")] =
      .error .attrErrResourceNotFound :=
  ((GetLabelsFromEnvVars_errors (Example.clusterWith [])).2.1
    [("DB", "db.ns1.svc.cluster.local")] [] "CACHE" "cache.ns1.svc.cluster.local"
    (fun kv hkv => ⟨[("tier", "data")], by decide, "db", "ns1", ⟨by decide, by decide⟩,
      ⟨by decide, by decide⟩,
      Or.inr ⟨by rw [List.mem_singleton.1 hkv]; rfl, rfl, by decide⟩⟩)).1
    ⟨"cache", "ns1", ⟨by decide, by decide⟩, ⟨by decide, by decide⟩, Or.inr ⟨rfl, rfl⟩⟩

/-- The three errors on concrete mappings: a reference to the missing Service `cache` after a
reference that resolves, the empty mapping, and a reference to `db` on a cluster that fails to
answer. -/
theorem GetLabelsFromEnvVars_errors_example :
    attr.GetLabelsFromEnvVars (Example.clusterWith [])
      [("DB", "db.ns1.svc.cluster.local"), ("CACHE", "cache.ns1.svc.cluster.local")] =
      .error .attrErrResourceNotFound ∧
    attr.GetLabelsFromEnvVars (Example.clusterWith []) [] = .error .attrErrNoEnvVars ∧
    attr.GetLabelsFromEnvVars Example.clusterDown [("DB", "db.ns1.svc.cluster.local")] =
      .error (.wrap "could not fetch svc db. " (.external "timeout")) := by
  decide

/-! ## ConvertToMeta on the values an informer delivers -/

/-- On the values an informer delivers, ConvertToMeta returns an error exactly for nil, for a
value that is not a Pod, a Deployment, a StatefulSet or a DaemonSet (the error is then
ErrTypeNotSupported), and for a Pod with an owner reference of kind ReplicaSet, Deployment,
StatefulSet or DaemonSet.  For a Pod without such an owner it returns the Pod with its metadata
labels, for the three other kinds the object with the match labels of its selector; on these
values it does not panic. -/
theorem ConvertToMeta_cases (obj : Any) :
    ((∃ err, object.ConvertToMeta (.delivered obj) = .error err) ↔
      (obj = .nil ∨ (∃ typeName m, obj = .other typeName m) ∨
        ∃ m cs, obj = .workload (.Pod m cs) ∧
          ∃ o ∈ m.OwnerReferences,
            o.Kind ∈ ["ReplicaSet", "Deployment", "StatefulSet", "DaemonSet"])) ∧
    (∀ typeName m, obj = .other typeName m →
      object.ConvertToMeta (.delivered obj) = .error .objErrTypeNotSupported) ∧
    (∀ m cs, obj = .workload (.Pod m cs) →
      (∀ o ∈ m.OwnerReferences,
        o.Kind ∉ ["ReplicaSet", "Deployment", "StatefulSet", "DaemonSet"]) →
      object.ConvertToMeta (.delivered obj) = .ok (m.Labels, .Pod m cs)) ∧
    (∀ m s cs, obj = .workload (.Deployment m s cs) →
      object.ConvertToMeta (.delivered obj) = .ok (s.MatchLabels, .Deployment m s cs)) ∧
    (∀ m s cs, obj = .workload (.StatefulSet m s cs) →
      object.ConvertToMeta (.delivered obj) = .ok (s.MatchLabels, .StatefulSet m s cs)) ∧
    (∀ m s cs, obj = .workload (.DaemonSet m s cs) →
      object.ConvertToMeta (.delivered obj) = .ok (s.MatchLabels, .DaemonSet m s cs)) ∧
    (∀ msg, object.ConvertToMeta (.delivered obj) ≠ .panic msg) := by
  have hkind : ∀ k : String, object.isControllerKind k = true ↔
      k ∈ ["ReplicaSet", "Deployment", "StatefulSet", "DaemonSet"] := by
    intro k
    simp [object.isControllerKind, or_assoc]
  have hpod : ∀ (m : ObjectMeta) (cs : List Container),
      ((∃ err, object.ConvertToMeta (.delivered (.workload (.Pod m cs))) = .error err) ↔
        ∃ o ∈ m.OwnerReferences,
          o.Kind ∈ ["ReplicaSet", "Deployment", "StatefulSet", "DaemonSet"]) ∧
      ((∀ o ∈ m.OwnerReferences,
          o.Kind ∉ ["ReplicaSet", "Deployment", "StatefulSet", "DaemonSet"]) →
        object.ConvertToMeta (.delivered (.workload (.Pod m cs))) = .ok (m.Labels, .Pod m cs)) ∧
      ∀ msg, object.ConvertToMeta (.delivered (.workload (.Pod m cs))) ≠ .panic msg := by
    intro m cs
    have heq : object.ConvertToMeta (.delivered (.workload (.Pod m cs))) =
        (match m.OwnerReferences.find? (fun o => object.isControllerKind o.Kind) with
          | some o =>
            .error (.new ("POD " ++ m.Name ++ " is part of a " ++ o.Kind ++ " so skipping"))
          | none => .ok (m.Labels, .Pod m cs)) := rfl
    rw [heq]
    cases hf : m.OwnerReferences.find? (fun o => object.isControllerKind o.Kind) with
    | none =>
      have hnone := List.find?_eq_none.1 hf
      refine ⟨⟨fun ⟨e, he⟩ => by simp at he, ?_⟩, fun _ => rfl, fun msg => by simp⟩
      rintro ⟨o, ho, hk⟩
      exact absurd ((hkind o.Kind).2 hk) (by simpa using hnone o ho)
    | some o =>
      have hmem := List.mem_of_find?_eq_some hf
      have hp := List.find?_some hf
      refine ⟨⟨fun _ => ⟨o, hmem, (hkind o.Kind).1 hp⟩, fun _ => ⟨_, rfl⟩⟩, ?_, fun msg => by simp⟩
      intro hall
      exact absurd ((hkind o.Kind).1 hp) (hall o hmem)
  cases obj with
  | nil =>
    refine ⟨⟨fun _ => Or.inl rfl, fun _ => ⟨_, rfl⟩⟩, ?_, ?_, ?_, ?_, ?_, ?_⟩ <;>
      simp [object.ConvertToMeta]
  | other t m =>
    refine ⟨⟨fun _ => Or.inr (Or.inl ⟨t, m, rfl⟩), fun _ => ⟨_, rfl⟩⟩, ?_, ?_, ?_, ?_, ?_, ?_⟩ <;>
      simp [object.ConvertToMeta]
  | workload w =>
    cases w with
    | Pod m cs =>
      obtain ⟨h1, h2, h3⟩ := hpod m cs
      refine ⟨?_, by simp, ?_, by simp, by simp, by simp, h3⟩
      · rw [h1]
        constructor
        · intro h
          exact Or.inr (Or.inr ⟨m, cs, rfl, h⟩)
        · rintro (h | ⟨_, _, h⟩ | ⟨m', cs', h, hex⟩)
          · simp at h
          · simp at h
          · simp only [Any.workload.injEq, Workload.Pod.injEq] at h
            obtain ⟨rfl, rfl⟩ := h
            exact hex
      · intro m' cs' h
        simp only [Any.workload.injEq, Workload.Pod.injEq] at h
        obtain ⟨rfl, rfl⟩ := h
        exact h2
    | Deployment m s cs =>
      refine ⟨⟨fun ⟨e, he⟩ => by simp [object.ConvertToMeta] at he, ?_⟩, ?_, ?_, ?_, ?_, ?_, ?_⟩ <;>
        simp [object.ConvertToMeta]
    | StatefulSet m s cs =>
      refine ⟨⟨fun ⟨e, he⟩ => by simp [object.ConvertToMeta] at he, ?_⟩, ?_, ?_, ?_, ?_, ?_, ?_⟩ <;>
        simp [object.ConvertToMeta]
    | DaemonSet m s cs =>
      refine ⟨⟨fun ⟨e, he⟩ => by simp [object.ConvertToMeta] at he, ?_⟩, ?_, ?_, ?_, ?_, ?_, ?_⟩ <;>
        simp [object.ConvertToMeta]

/-! ## MapsEqual -/

theorem keys_subset_of_all (a b : Labels)
    (h : ∀ kv ∈ a, GoMap.get? b kv.1 = some kv.2) : GoMap.keys a ⊆ GoMap.keys b := by
  intro k hk
  obtain ⟨kv, hkv, rfl⟩ := List.mem_map.1 hk
  by_contra hnot
  have h1 := h kv hkv
  rw [(GoMap.get?_eq_none b kv.1).2 hnot] at h1
  exact absurd h1 (by simp)

theorem MapsEqual_spec (a b : Labels) :
    attr.MapsEqual a b = true ↔
      a.length = b.length ∧ ∀ kv ∈ a, GoMap.get? b kv.1 = some kv.2 := by
  unfold attr.MapsEqual
  by_cases hlen : a.length = b.length
  · simp only [hlen, ne_eq, not_true_eq_false, if_false, List.all_eq_true, true_and]
    constructor
    · intro h kv hkv
      have h1 := h kv hkv
      cases hg : GoMap.get? b kv.1 with
      | none => simp [hg] at h1
      | some vb =>
        simp only [hg] at h1
        have e : kv.2 = vb := by simpa [GoEq.eq] using h1
        rw [e]
    · intro h kv hkv
      rw [h kv hkv]
      simp [GoEq.eq]
  · simp [hlen]

theorem MapsEqual_iff (a b : Labels) (ha : GoMap.WF a) (hb : GoMap.WF b) :
    attr.MapsEqual a b = true ↔ ∀ k, GoMap.get? a k = GoMap.get? b k := by
  rw [MapsEqual_spec]
  constructor
  · rintro ⟨hlen, hsome⟩
    have hsub := keys_subset_of_all a b hsome
    have hperm : (GoMap.keys a).Perm (GoMap.keys b) :=
      (List.subperm_of_subset ha hsub).perm_of_length_le (by simp [GoMap.keys, hlen])
    intro k
    cases hg : GoMap.get? a k with
    | none =>
      have hk : k ∉ GoMap.keys b :=
        fun hmem => (GoMap.get?_eq_none a k).1 hg (hperm.mem_iff.2 hmem)
      exact ((GoMap.get?_eq_none b k).2 hk).symm
    | some v => exact (hsome (k, v) (GoMap.mem_of_get? a k v hg)).symm
  · intro h
    have hperm : (GoMap.keys a).Perm (GoMap.keys b) := by
      rw [List.perm_ext_iff_of_nodup ha hb]
      intro k
      constructor
      · intro hk
        by_contra hnot
        have := (GoMap.get?_eq_none b k).2 hnot
        rw [← h k] at this
        exact (GoMap.get?_eq_none a k).1 this hk
      · intro hk
        by_contra hnot
        have := (GoMap.get?_eq_none a k).2 hnot
        rw [h k] at this
        exact (GoMap.get?_eq_none b k).1 this hk
    have hlen : a.length = b.length := by
      have := hperm.length_eq
      simpa [GoMap.keys] using this
    refine ⟨hlen, ?_⟩
    intro kv hkv
    rw [← h kv.1]
    exact GoMap.get?_of_mem a ha kv.1 kv.2 hkv

/-- C32: for maps `a`, `b` and `c` (lists of entries with distinct keys), MapsEqual(a, b) holds
if and only if `a` and `b` have the same keys and give every key the same value; MapsEqual is
reflexive, symmetric and transitive, and holds of two maps without entries, which is what a nil
map and an empty map both are. -/
theorem MapsEqual_equivalence (a b c : Labels) (ha : GoMap.WF a) (hb : GoMap.WF b)
    (hc : GoMap.WF c) :
    (attr.MapsEqual a b = true ↔
      ((∀ k, k ∈ GoMap.keys a ↔ k ∈ GoMap.keys b) ∧
        ∀ k ∈ GoMap.keys a, GoMap.get? a k = GoMap.get? b k)) ∧
    attr.MapsEqual a a = true ∧
    (attr.MapsEqual a b = true → attr.MapsEqual b a = true) ∧
    (attr.MapsEqual a b = true → attr.MapsEqual b c = true → attr.MapsEqual a c = true) ∧
    attr.MapsEqual ([] : Labels) [] = true := by
  refine ⟨?_, ?_, ?_, ?_, rfl⟩
  · rw [MapsEqual_iff a b ha hb]
    constructor
    · intro h
      refine ⟨fun k => ?_, fun k _ => h k⟩
      have e1 := GoMap.get?_eq_none a k
      have e2 := GoMap.get?_eq_none b k
      rw [h k] at e1
      constructor
      · intro hk
        by_contra hnot
        exact (e1.1 (e2.2 hnot)) hk
      · intro hk
        by_contra hnot
        exact (e2.1 (e1.2 hnot)) hk
    · rintro ⟨hkeys, hvals⟩ k
      by_cases hk : k ∈ GoMap.keys a
      · exact hvals k hk
      · rw [(GoMap.get?_eq_none a k).2 hk,
          (GoMap.get?_eq_none b k).2 (fun h => hk ((hkeys k).2 h))]
  · exact (MapsEqual_iff a a ha ha).2 (fun _ => rfl)
  · intro h
    exact (MapsEqual_iff b a hb ha).2 (fun k => ((MapsEqual_iff a b ha hb).1 h k).symm)
  · intro h1 h2
    exact (MapsEqual_iff a c ha hc).2
      (fun k => ((MapsEqual_iff a b ha hb).1 h1 k).trans ((MapsEqual_iff b c hb hc).1 h2 k))

/-- Witness of C32: two maps with the same entries in another order. -/
theorem MapsEqual_equivalence_witness :
    attr.MapsEqual [("tier", "front"), ("app", "web")] [("app", "web"), ("tier", "front")] = true ∧
    ((∀ k, k ∈ GoMap.keys [("app", "web"), ("tier", "front")] ↔
        k ∈ GoMap.keys [("tier", "front"), ("app", "web")]) ∧
      ∀ k ∈ GoMap.keys [("app", "web"), ("tier", "front")],
        GoMap.get? [("app", "web"), ("tier", "front")] k =
          GoMap.get? [("tier", "front"), ("app", "web")] k) :=
  have h := MapsEqual_equivalence [("app", "web"), ("tier", "front")]
    [("tier", "front"), ("app", "web")] [("app", "web"), ("tier", "back")]
    (by decide) (by decide) (by decide)
  ⟨h.2.2.1 (by decide), h.1.1 (by decide)⟩

/-! ## MergeLabels of a merged map -/

theorem appendUnique_loop_fresh (src : List String) (acc : List String × GoMap String Bool)
    (hinv : ∀ v, GoMap.getD acc.2 v false = true ↔ v ∈ acc.1) (hnd : src.Nodup)
    (hdis : ∀ v ∈ src, v ∉ acc.1) :
    (src.foldl (fun (acc : List String × GoMap String Bool) v =>
      if !(GoMap.getD acc.2 v false) then (acc.1 ++ [v], GoMap.set acc.2 v true) else acc)
      acc).1 = acc.1 ++ src := by
  induction src generalizing acc with
  | nil => simp
  | cons s src ih =>
    simp only [List.foldl_cons]
    have hs : GoMap.getD acc.2 s false = false := by
      cases h : GoMap.getD acc.2 s false with
      | false => rfl
      | true => exact absurd ((hinv s).1 h) (hdis s (List.mem_cons_self _ _))
    simp only [hs, Bool.not_false, if_true]
    rw [List.nodup_cons] at hnd
    rw [ih]
    · simp
    · intro v
      simp only [GoMap.getD_set, List.mem_append, List.mem_singleton]
      by_cases hv : s = v
      · subst hv; simp
      · have : ¬ v = s := fun e => hv e.symm
        simp [hv, this, hinv v]
    · exact hnd.2
    · intro v hv hmem
      simp only [List.mem_append, List.mem_singleton] at hmem
      rcases hmem with hmem | hmem
      · exact hdis v (List.mem_cons_of_mem _ hv) hmem
      · subst hmem
        exact hnd.1 hv

theorem appendUnique_nil_of_nodup (vs : List String) (h : vs.Nodup) :
    attr.appendUnique [] vs = vs := by
  unfold attr.appendUnique
  have := appendUnique_loop_fresh vs ([], []) (by simp [GoMap.getD, GoMap.get?]) h (by simp)
  simpa using this

/-- Merging distinct new keys with duplicate-free value lists into a map appends the
entries. -/
theorem mergeInto_new_nodup (target acc : MultiLabels) (hwf : GoMap.WF (acc ++ target))
    (hs : ∀ kv ∈ target, kv.2.Nodup) : mergeInto acc target = acc ++ target := by
  induction target generalizing acc with
  | nil => simp [mergeInto]
  | cons e target ih =>
    obtain ⟨k, vs⟩ := e
    have hvs : vs.Nodup := hs (k, vs) (List.mem_cons_self _ _)
    have hstep : mergeInto acc ((k, vs) :: target) =
        mergeInto (GoMap.set acc k (attr.appendUnique (GoMap.getD acc k []) vs)) target := rfl
    have hk : k ∉ GoMap.keys acc := by
      intro hmem
      simp only [GoMap.WF, GoMap.keys, List.map_append, List.map_cons] at hwf
      rw [List.nodup_append] at hwf
      exact hwf.2.2 hmem (List.mem_cons_self _ _)
    have hg : GoMap.getD acc k [] = [] := by
      simp [GoMap.getD, (GoMap.get?_eq_none acc k).2 hk]
    rw [hstep, hg, appendUnique_nil_of_nodup vs hvs, set_of_not_mem acc k vs hk,
      ih (acc ++ [(k, vs)]) (by simpa using hwf)
        (fun kv hkv => hs kv (List.mem_cons_of_mem _ hkv))]
    simp

theorem merged_values_nodup (a b : MultiLabels) :
    ∀ kv ∈ mergeInto (mergeInto [] a) b, kv.2.Nodup := by
  intro kv hkv
  have hwf : GoMap.WF (mergeInto (mergeInto [] a) b) :=
    mergeInto_WF b _ (mergeInto_WF a [] GoMap.WF_nil)
  have hnd := mergeInto_nodup b (mergeInto [] a)
    (mergeInto_nodup a [] (fun k => by simp [GoMap.getD, GoMap.get?])) kv.1
  have hget := GoMap.get?_of_mem _ hwf kv.1 kv.2 hkv
  simpa [GoMap.getD, hget] using hnd

/-- C40: for all multimaps `a`, `b` and `c`, merging the result of MergeLabels(a, b) with `c`
gives the result of MergeLabels(a, b, c): the same map, with the same value list, in the same
order, under every key. -/
theorem MergeLabels_nested (a b c : MultiLabels) :
    ∃ ab abc, attr.MergeLabels [a, b] = .ok ab ∧ attr.MergeLabels [a, b, c] = .ok abc ∧
      attr.MergeLabels [ab, c] = .ok abc := by
  refine ⟨mergeInto (mergeInto [] a) b, mergeInto (mergeInto (mergeInto [] a) b) c,
    MergeLabels_pair a b, rfl, ?_⟩
  rw [MergeLabels_pair,
    mergeInto_new_nodup (mergeInto (mergeInto [] a) b) []
      (by simpa using mergeInto_WF b _ (mergeInto_WF a [] GoMap.WF_nil))
      (merged_values_nodup a b), List.nil_append]

/-! ## config.New -/

/-- C34: New picks its source in a fixed order.  With a non-empty KUBECONFIG it returns the
config built from that path, or ErrConfigBuild when the build fails, whatever the file system
and the in-cluster source would give.  Otherwise, when the file `.kube/config` under HOME can be
stat-ed, it returns the config built from that file, or ErrConfigBuild.  Otherwise it returns
the in-cluster config, or ErrConfigNotFound.  It returns a config, and so a nil error, in
exactly the three cases where the source it picked yields one. -/
theorem New_precedence {Config : Type} (Join : List String → String)
    (p : config.Provider Config) :
    (p.GetEnv "KUBECONFIG" ≠ "" →
      config.New Join p =
        match p.BuildConfigFromFlags "" (p.GetEnv "KUBECONFIG") with
        | some cfg => .ok cfg
        | none => .error .ErrConfigBuild) ∧
    (p.GetEnv "KUBECONFIG" = "" → p.Stat (Join [p.GetEnv "HOME", ".kube", "config"]) = true →
      config.New Join p =
        match p.BuildConfigFromFlags "" (Join [p.GetEnv "HOME", ".kube", "config"]) with
        | some cfg => .ok cfg
        | none => .error .ErrConfigBuild) ∧
    (p.GetEnv "KUBECONFIG" = "" → p.Stat (Join [p.GetEnv "HOME", ".kube", "config"]) = false →
      config.New Join p =
        match p.InClusterConfig () with
        | some cfg => .ok cfg
        | none => .error .ErrConfigNotFound) ∧
    (∀ cfg, config.New Join p = .ok cfg ↔
      ((p.GetEnv "KUBECONFIG" ≠ "" ∧
          p.BuildConfigFromFlags "" (p.GetEnv "KUBECONFIG") = some cfg) ∨
        (p.GetEnv "KUBECONFIG" = "" ∧
          p.Stat (Join [p.GetEnv "HOME", ".kube", "config"]) = true ∧
          p.BuildConfigFromFlags "" (Join [p.GetEnv "HOME", ".kube", "config"]) = some cfg) ∨
        (p.GetEnv "KUBECONFIG" = "" ∧
          p.Stat (Join [p.GetEnv "HOME", ".kube", "config"]) = false ∧
          p.InClusterConfig () = some cfg))) := by
  unfold config.New
  by_cases hk : p.GetEnv "KUBECONFIG" = ""
  · cases hs : p.Stat (Join [p.GetEnv "HOME", ".kube", "config"]) with
    | true =>
      cases hb : p.BuildConfigFromFlags "" (Join [p.GetEnv "HOME", ".kube", "config"]) <;>
        simp [hk, hs, hb]
    | false =>
      cases hi : p.InClusterConfig () <;> simp [hk, hs, hi]
  · cases hb : p.BuildConfigFromFlags "" (p.GetEnv "KUBECONFIG") <;> simp [hk, hb]

/-- The six rows of the test table: KUBECONFIG wins over an existing file, a failed build is
final, and the in-cluster source is tried last. -/
theorem New_examples :
    config.New Example.joinPath
      (Example.mockProvider [("KUBECONFIG", "kubeconfig-path"), ("HOME", "home-path")]
        true false false) = .ok "kubeconfig-path" ∧
    config.New Example.joinPath
      (Example.mockProvider [("KUBECONFIG", "kubeconfig-path"), ("HOME", "home-path")]
        true true false) = .error .ErrConfigBuild ∧
    config.New Example.joinPath
      (Example.mockProvider [("HOME", "home-path")] true false false) =
        .ok (Example.joinPath ["home-path", ".kube", "config"]) ∧
    config.New Example.joinPath
      (Example.mockProvider [("HOME", "home-path")] true true false) = .error .ErrConfigBuild ∧
    config.New Example.joinPath (Example.mockProvider [] false false false) = .ok "" ∧
    config.New Example.joinPath (Example.mockProvider [] false false true) =
      .error .ErrConfigNotFound :=
  ⟨rfl, rfl, rfl, rfl, rfl, rfl⟩

/-! ## updateIngressRules and updateEgressRules on the first peer -/

theorem isInOldLabels_iff (req : LabelSelectorRequirement) (old : MultiLabels) :
    np.isInOldLabels req old = true ↔
      ∃ vals, GoMap.get? old req.Key = some vals ∧ ∃ v ∈ vals, v ∈ req.Values := by
  unfold np.isInOldLabels
  cases hg : GoMap.get? old req.Key with
  | none => simp
  | some vals =>
    simp only [List.any_eq_true, decide_eq_true_eq, Option.some.injEq, exists_eq_left']
    constructor
    · rintro ⟨v, hv, w, hw, rfl⟩
      exact ⟨v, hv, hw⟩
    · rintro ⟨v, hv, hw⟩
      exact ⟨v, hv, v, hw, rfl⟩

theorem updateFirstPeer_selector (old : MultiLabels) (peer : NetworkPolicyPeer)
    (rest : List NetworkPolicyPeer) (ptr : Ptr LabelSelector) (h : peer.PodSelector = some ptr) :
    np.updateFirstPeer old (peer :: rest) =
      .ok ({ peer with
              PodSelector := some
                { ptr with
                  val := { ptr.val with
                    MatchExpressions :=
                      ptr.val.MatchExpressions.filter
                        (fun req => !np.isInOldLabels req old) } } } :: rest) := by
  simp only [np.updateFirstPeer, h, np.keptRequirements]

theorem updateIngressRules_clear (old : MultiLabels) (rules : List NetworkPolicyIngressRule)
    (hne : ∀ r ∈ rules, r.From ≠ [])
    (hclear : ∀ r ∈ rules, ∀ peer ∈ r.From, peer.clearOf old) :
    np.updateIngressRules old rules = .ok rules := by
  induction rules with
  | nil => rfl
  | cons r rules ih =>
    simp only [np.updateIngressRules,
      updateFirstPeer_clear old r.From (hne r (List.mem_cons_self _ _))
        (hclear r (List.mem_cons_self _ _)),
      ih (fun x hx => hne x (List.mem_cons_of_mem _ hx))
        (fun x hx => hclear x (List.mem_cons_of_mem _ hx))]

theorem updateEgressRules_clear (old : MultiLabels) (rules : List NetworkPolicyEgressRule)
    (hne : ∀ r ∈ rules, r.To ≠ [])
    (hclear : ∀ r ∈ rules, ∀ peer ∈ r.To, peer.clearOf old) :
    np.updateEgressRules old rules = .ok rules := by
  induction rules with
  | nil => rfl
  | cons r rules ih =>
    simp only [np.updateEgressRules,
      updateFirstPeer_clear old r.To (hne r (List.mem_cons_self _ _))
        (hclear r (List.mem_cons_self _ _)),
      ih (fun x hx => hne x (List.mem_cons_of_mem _ hx))
        (fun x hx => hclear x (List.mem_cons_of_mem _ hx))]

theorem clearOf_nil (peer : NetworkPolicyPeer) : peer.clearOf [] := by
  intro x _ req _
  simp [np.isInOldLabels, GoMap.get?]

/-- C33: for rules whose first peer has a pod selector, updateIngressRules and
updateEgressRules return as many rules as they are given, and the rule at each index is the
given rule in which the requirements of the pod selector of the first peer are the original
requirements that do not intersect `oldLabels`, in their order; the other peers are as they
were.  A requirement intersects `oldLabels` when `oldLabels` has its key with a value that the
requirement lists.  With an empty `oldLabels` the rules are returned unchanged. -/
theorem updateRules_first_peer (oldLabels : MultiLabels)
    (ingressRules : List NetworkPolicyIngressRule) (egressRules : List NetworkPolicyEgressRule)
    (hi : ∀ r ∈ ingressRules, ∃ peer rest ptr, r.From = peer :: rest ∧ peer.PodSelector = some ptr)
    (he : ∀ r ∈ egressRules, ∃ peer rest ptr, r.To = peer :: rest ∧ peer.PodSelector = some ptr) :
    (∃ ingress, np.updateIngressRules oldLabels ingressRules = .ok ingress ∧
      ingress.length = ingressRules.length ∧
      ∀ (i : Nat) (peer : NetworkPolicyPeer) (rest : List NetworkPolicyPeer)
        (ptr : Ptr LabelSelector),
        ingressRules[i]? = some { From := peer :: rest } → peer.PodSelector = some ptr →
        ingress[i]? = some
          { From :=
              { peer with
                PodSelector := some
                  { ptr with
                    val := { ptr.val with
                      MatchExpressions :=
                        ptr.val.MatchExpressions.filter
                          (fun req => !np.isInOldLabels req oldLabels) } } } :: rest }) ∧
    (∃ egress, np.updateEgressRules oldLabels egressRules = .ok egress ∧
      egress.length = egressRules.length ∧
      ∀ (i : Nat) (peer : NetworkPolicyPeer) (rest : List NetworkPolicyPeer)
        (ptr : Ptr LabelSelector),
        egressRules[i]? = some { To := peer :: rest } → peer.PodSelector = some ptr →
        egress[i]? = some
          { To :=
              { peer with
                PodSelector := some
                  { ptr with
                    val := { ptr.val with
                      MatchExpressions :=
                        ptr.val.MatchExpressions.filter
                          (fun req => !np.isInOldLabels req oldLabels) } } } :: rest }) ∧
    (∀ req, np.isInOldLabels req oldLabels = true ↔
      ∃ vals, GoMap.get? oldLabels req.Key = some vals ∧ ∃ v ∈ vals, v ∈ req.Values) ∧
    (oldLabels = [] →
      np.updateIngressRules oldLabels ingressRules = .ok ingressRules ∧
      np.updateEgressRules oldLabels egressRules = .ok egressRules) := by
  have hine : ∀ r ∈ ingressRules, r.From ≠ [] := by
    intro r hr
    obtain ⟨peer, rest, _, h, _⟩ := hi r hr
    rw [h]
    simp
  have hene : ∀ r ∈ egressRules, r.To ≠ [] := by
    intro r hr
    obtain ⟨peer, rest, _, h, _⟩ := he r hr
    rw [h]
    simp
  refine ⟨?_, ?_, fun req => isInOldLabels_iff req oldLabels, ?_⟩
  · obtain ⟨ingress, hin⟩ := updateIngressRules_ok oldLabels ingressRules hine
    obtain ⟨hlen, hidx⟩ := updateIngressRules_index oldLabels ingressRules ingress hin
    refine ⟨ingress, hin, hlen, ?_⟩
    intro i peer rest ptr hrule hsel
    obtain ⟨peers, hp, hres⟩ := hidx i _ hrule
    rw [updateFirstPeer_selector oldLabels peer rest ptr hsel] at hp
    simp only [Result.ok.injEq] at hp
    rw [hres, ← hp]
  · obtain ⟨egress, heg⟩ := updateEgressRules_ok oldLabels egressRules hene
    obtain ⟨hlen, hidx⟩ := updateEgressRules_index oldLabels egressRules egress heg
    refine ⟨egress, heg, hlen, ?_⟩
    intro i peer rest ptr hrule hsel
    obtain ⟨peers, hp, hres⟩ := hidx i _ hrule
    rw [updateFirstPeer_selector oldLabels peer rest ptr hsel] at hp
    simp only [Result.ok.injEq] at hp
    rw [hres, ← hp]
  · intro h0
    subst h0
    exact ⟨updateIngressRules_clear [] ingressRules hine (fun _ _ peer _ => clearOf_nil peer),
      updateEgressRules_clear [] egressRules hene (fun _ _ peer _ => clearOf_nil peer)⟩

/-- Witness of C33: the first row of the test table, one ingress rule whose only peer has the
requirements `app: [web]` and `tier: [frontend]`, with the old labels `app: [web]`. -/
theorem updateRules_first_peer_witness :
    ∃ ingress,
      np.updateIngressRules [("app", ["web"])]
        [{ From := [{ PodSelector := some
                        { addr := 0
                          val := { MatchLabels := []
                                   MatchExpressions :=
                                     [⟨"app", "", ["web"]⟩, ⟨"tier", "", ["frontend"]⟩] } }
                      NamespaceSelector := none
                      IPBlock := none }] }] = .ok ingress ∧
      ingress[0]? = some
        { From := [{ PodSelector := some
                       { addr := 0
                         val := { MatchLabels := []
                                  MatchExpressions := [⟨"tier", "", ["frontend"]⟩] } }
                     NamespaceSelector := none
                     IPBlock := none }] } := by
  obtain ⟨⟨ingress, h1, _, h3⟩, _⟩ := updateRules_first_peer [("app", ["web"])]
    [{ From := [{ PodSelector := some
                    { addr := 0
                      val := { MatchLabels := []
                               MatchExpressions :=
                                 [⟨"app", "", ["web"]⟩, ⟨"tier", "", ["frontend"]⟩] } }
                  NamespaceSelector := none
                  IPBlock := none }] }] []
    (by
      intro r hr
      rw [List.mem_singleton.1 hr]
      exact ⟨_, _, _, rfl, rfl⟩)
    (by
      intro r hr
      exact absurd hr (List.not_mem_nil r))
  exact ⟨ingress, h1, h3 0 _ _ _ rfl rfl⟩

/-! ## NewPolicy followed by GetPolicyByPodLabels -/

theorem docPeer_selects (l : Labels) (k v : String) (vs : List String)
    (hkv : (k, v) ∈ l) (hv : v ∈ vs) : (docPeer k vs).selects l :=
  ⟨_, rfl, ⟨k, LabelSelectorOpIn, vs⟩, List.mem_singleton.2 rfl, rfl, (k, v), hkv, rfl, hv⟩

/-- C35: a policy `P` that NewPolicy returns for the non-empty label set `L` and target labels
that list, for every entry `k: v` of `L`, the value `v` under the key `k`, is found again: when
the namespace lists `P` alone, GetPolicyByPodLabels for `L` returns that policy, as the list call
delivers it, and not ErrNotFound. -/
theorem NewPolicy_lookup_roundtrip (c : Client) (next next' : Nat) (name ns : String)
    (L : Labels) (T : MultiLabels) (P : NetworkPolicy)
    (hL : L ≠ []) (hT : ∀ kv ∈ L, ∃ vs, (kv.1, vs) ∈ T ∧ kv.2 ∈ vs)
    (hP : (np.NewPolicy next name ns L T).1 = .ok P)
    (hlist : c.listPolicies ns = .ok [encode P]) :
    ∃ p, (np.GetPolicyByPodLabels c next' ns L).1 = .ok p ∧ encode p = encode P := by
  have henc := NewPolicy_encode next name ns L T
  rw [hP] at henc
  by_cases hc : name = "" ∨ ns = "" ∨ L.length = 0 ∨ T.length = 0
  · rw [if_pos hc] at henc
    simp [Result.map] at henc
  rw [if_neg hc] at henc
  simp only [Result.map, Result.ok.injEq] at henc
  have hsel : ∀ d ∈ [encode P], d.podSelectorsSet := by
    intro d hd
    rw [List.mem_singleton.1 hd, henc]
    intro rule hrule peer hpeer
    simp only [List.singleton_append, List.mem_cons, List.mem_singleton, List.not_mem_nil,
      or_false, or_self] at hrule
    subst hrule
    simp only [List.mem_append, List.mem_map, defaultDocPeers, List.mem_cons, List.mem_singleton,
      List.not_mem_nil, or_false] at hpeer
    rcases hpeer with (rfl | rfl) | ⟨kv, _, rfl⟩ <;> simp [docPeer]
  have hmatch : (encode P).matchesLabels L := by
    cases L with
    | nil => exact absurd rfl hL
    | cons kv rest =>
      obtain ⟨vs, hvs, hv⟩ := hT kv (List.mem_cons_self _ _)
      rw [henc]
      refine ⟨_, List.mem_append_left _ (List.mem_singleton.2 rfl),
        docPeer kv.1 (np.finalValues vs), ?_, ?_⟩
      · exact List.mem_append_right _ (List.mem_map.2 ⟨(kv.1, vs), hvs, rfl⟩)
      · exact docPeer_selects _ kv.1 kv.2 _ (List.mem_cons_self _ _)
          ((mem_finalValues vs kv.2).2 hv)
  rcases GetPolicyByPodLabels_spec c next' ns L [encode P] hlist hsel with
    ⟨hno, _⟩ | ⟨pre, p, post, hdocs, _, _, hres⟩
  · exact absurd hmatch (hno _ (List.mem_singleton.2 rfl))
  · refine ⟨p, hres, ?_⟩
    cases pre with
    | nil =>
      simp only [List.nil_append, List.cons.injEq] at hdocs
      exact hdocs.1.symm
    | cons d pre =>
      have := congrArg List.length hdocs
      simp at this

/-- Witness of C35: the policy that NewPolicy builds for the Pod `web` labelled `app: test`,
listed alone in `ns1`. -/
theorem NewPolicy_lookup_roundtrip_witness :
    ∃ p,
      (np.GetPolicyByPodLabels
        (Example.clusterWith
          [Example.policyDoc "web-ns1-netpol" [("app", "test")] [docPeer "app" ["test"]]])
        0 "ns1" [("app", "test")]).1 = .ok p ∧
      encode p =
        Example.policyDoc "web-ns1-netpol" [("app", "test")] [docPeer "app" ["test"]] := by
  obtain ⟨p, h1, h2⟩ := NewPolicy_lookup_roundtrip
    (Example.clusterWith
      [Example.policyDoc "web-ns1-netpol" [("app", "test")] [docPeer "app" ["test"]]])
    0 0 "web-ns1-netpol" "ns1" [("app", "test")] [("app", ["test"])]
    { Name := "web-ns1-netpol"
      Namespace := "ns1"
      Spec :=
        { PodSelector := { MatchLabels := [("app", "test")], MatchExpressions := [] }
          Ingress := [{ From := np.supportedPeers 0 defaultKeyValues ++
            [np.inPeer 2 "app" ["test"]] }]
          Egress := [{ To := np.supportedPeers 0 defaultKeyValues ++
            [np.inPeer 3 "app" ["test"]] }]
          PolicyTypes := ["Ingress", "Egress"] } }
    (by decide)
    (fun kv hkv => ⟨["test"], by rw [List.mem_singleton.1 hkv]; exact List.mem_singleton.2 rfl,
      by rw [List.mem_singleton.1 hkv]; exact List.mem_singleton.2 rfl⟩)
    rfl rfl
  exact ⟨p, h1, h2⟩

/-! ## RemoveOldLabels and GetPolicyByPodLabels at their edges -/

/-- C36 (the code at the failing input): one ingress rule and one egress rule, each with the
peers `app In [test]` and `role In [db]`, so every peer has one requirement.  RemoveOldLabels
for the old labels `app: [test]` removes the only requirement of the first peer of each rule and
leaves that peer in place with an empty pod selector. -/
theorem RemoveOldLabels_leaves_empty_selector :
    (np.RemoveOldLabels [("app", ["test"])]
      [{ From := [np.inPeer 0 "app" ["test"], np.inPeer 1 "role" ["db"]] }]
      [{ To := [np.inPeer 2 "app" ["test"], np.inPeer 3 "role" ["db"]] }]).map (fun r =>
        (r.1.map (fun rule => rule.From.map encodePeer),
          r.2.map (fun rule => rule.To.map encodePeer))) =
    .ok
      ([[{ PodSelector := some { MatchLabels := [], MatchExpressions := [] }
           NamespaceSelector := none
           IPBlock := none },
         docPeer "role" ["db"]]],
       [[{ PodSelector := some { MatchLabels := [], MatchExpressions := [] }
           NamespaceSelector := none
           IPBlock := none },
         docPeer "role" ["db"]]]) := by
  decide

/-- The policy NewPolicy builds for a Pod labelled `app.kubernetes.io/name: traefik`, with the
default peers in the order of `defaultKeyValues`; every peer has one requirement.
RemoveOldLabels for the old labels `app.kubernetes.io/name: [traefik]` removes the only
requirement of the first peer, the default peer on that key, and leaves this peer in place with
an empty pod selector, in the ingress rule and in the egress rule; the peer
`app.kubernetes.io/name In [traefik]` further down is kept. -/
theorem RemoveOldLabels_empties_default_peer :
    (np.NewPolicy 0 "traefik-ns1-netpol" "ns1" [("app.kubernetes.io/name", "traefik")]
      [("app.kubernetes.io/name", ["traefik"])]).1.map (fun p =>
        (np.RemoveOldLabels [("app.kubernetes.io/name", ["traefik"])]
          p.Spec.Ingress p.Spec.Egress).map (fun r =>
            (r.1.map (fun rule => rule.From.map encodePeer),
              r.2.map (fun rule => rule.To.map encodePeer)))) =
    .ok (.ok
      ([[{ PodSelector := some { MatchLabels := [], MatchExpressions := [] }
           NamespaceSelector := none
           IPBlock := none },
         docPeer "k8s-app" ["kube-dns"],
         docPeer "app.kubernetes.io/name" ["traefik"]]],
       [[{ PodSelector := some { MatchLabels := [], MatchExpressions := [] }
           NamespaceSelector := none
           IPBlock := none },
         docPeer "k8s-app" ["kube-dns"],
         docPeer "app.kubernetes.io/name" ["traefik"]]])) := by
  decide

/-- C37 (the code at the failing input): two ingress rules, the second without peers (a rule
that admits every source).  RemoveOldLabels panics on the second rule. -/
theorem RemoveOldLabels_panics_on_empty_rule :
    np.RemoveOldLabels [("app", ["test"])]
      [{ From := [np.inPeer 0 "app" ["test"]] }, { From := [] }] [] =
    .panic "index out of range [0] with length 0" := by
  decide

/-- C38 (the code at the failing input): namespace `ns1` lists one policy whose only peer has a
namespace selector and no pod selector.  No requirement of the policy matches the label set
`app: a`, yet the lookup does not return ErrNotFound: it panics on that peer. -/
theorem GetPolicyByPodLabels_panics_on_namespace_peer :
    (np.GetPolicyByPodLabels
      (Example.clusterWith
        [{ Name := "allow-monitoring"
           Namespace := "ns1"
           PodSelector := { MatchLabels := [], MatchExpressions := [] }
           Ingress := [[{ PodSelector := none
                          NamespaceSelector := some
                            { MatchLabels := [("team", "monitoring")], MatchExpressions := [] }
                          IPBlock := none }]]
           Egress := []
           PolicyTypes := ["Ingress"] }])
      0 "ns1" [("app", "a")]).1 =
      .panic "invalid memory address or nil pointer dereference" := by
  decide

/-! ## The parse of a valid reference -/

/-- C39: a value `v` that isValidLocalEnvVar accepts is a segment `name`, a dot, a segment `ns`
and one of the two suffixes.  Splitting `v` at the dots gives `name` as field 0 and `ns` as
field 1, so both fields exist.  When `v` ends in `.pod.cluster.local`, the loop of
GetLabelsFromEnvVars asks for the Pod `name` of namespace `ns`; when `v` ends in
`.svc.cluster.local`, it asks for the Service `name` of namespace `ns`. -/
theorem valid_reference_parse (v : String) (h : attr.isValidLocalEnvVar v = true) :
    ∃ name ns : String, isSegment name ∧ isSegment ns ∧
      (∃ rest, attr.splitDot v.toList = name.toList :: ns.toList :: rest) ∧
      ((v = name ++ "." ++ ns ++ ".pod.cluster.local" ∧
          attr.stringsContains v ".pod.cluster.local" = true ∧
          ∀ (c : Client) (key : String) (rest : List (String × String)) (labels : MultiLabels),
            attr.envVarsLoop c ((key, v) :: rest) labels =
              match c.getPod ns name with
              | .error .notFound => .error .attrErrResourceNotFound
              | .error (.other msg) =>
                .error (.wrap ("could not fetch pod " ++ name ++ ". ") (.external msg))
              | .ok podLabels => attr.envVarsLoop c rest (attr.appendLabels labels podLabels)) ∨
        (v = name ++ "." ++ ns ++ ".svc.cluster.local" ∧
          attr.stringsContains v ".pod.cluster.local" = false ∧
          ∀ (c : Client) (key : String) (rest : List (String × String)) (labels : MultiLabels),
            attr.envVarsLoop c ((key, v) :: rest) labels =
              match attr.getLabelsFromSvc c name ns with
              | .error e => .error e
              | .panic msg => .panic msg
              | .ok svcLabels =>
                attr.envVarsLoop c rest (attr.appendLabels labels svcLabels))) := by
  have hpod : ".pod.cluster.local".toList = '.' :: "pod.cluster.local".toList := rfl
  have hsvc : ".svc.cluster.local".toList = '.' :: "svc.cluster.local".toList := rfl
  unfold attr.isValidLocalEnvVar at h
  rw [Bool.or_eq_true, hpod, hsvc, matchLocal_iff, matchLocal_iff] at h
  rcases h with ⟨n, ns, hn0, hns0, hn, hns, hs⟩ | ⟨n, ns, hn0, hns0, hn, hns, hs⟩
  · have hv : v = String.mk n ++ "." ++ String.mk ns ++ ".pod.cluster.local" :=
      String.ext (by simpa using hs)
    have hsegn : isSegment (String.mk n) := ⟨hn0, hn⟩
    have hsegns : isSegment (String.mk ns) := ⟨hns0, hns⟩
    refine ⟨String.mk n, String.mk ns, hsegn, hsegns, ?_, Or.inl ⟨hv, ?_, ?_⟩⟩
    · refine ⟨attr.splitDot "pod.cluster.local".toList, ?_⟩
      rw [hs, splitDot_segment _ _ (fun x hx => nameChar_ne_dot x (hn x hx)),
        splitDot_segment _ _ (fun x hx => nameChar_ne_dot x (hns x hx))]
      rfl
    · unfold attr.stringsContains
      have ht := tails_any_suffix ".pod.cluster.local".toList (n ++ '.' :: ns)
      rw [hs]
      simpa using ht
    · intro c key rest labels
      rw [hv]
      exact envVarsLoop_pod c key _ _ rest labels hsegn hsegns
  · have hv : v = String.mk n ++ "." ++ String.mk ns ++ ".svc.cluster.local" :=
      String.ext (by simpa using hs)
    have hsegn : isSegment (String.mk n) := ⟨hn0, hn⟩
    have hsegns : isSegment (String.mk ns) := ⟨hns0, hns⟩
    refine ⟨String.mk n, String.mk ns, hsegn, hsegns, ?_, Or.inr ⟨hv, ?_, ?_⟩⟩
    · refine ⟨attr.splitDot "svc.cluster.local".toList, ?_⟩
      rw [hs, splitDot_segment _ _ (fun x hx => nameChar_ne_dot x (hn x hx)),
        splitDot_segment _ _ (fun x hx => nameChar_ne_dot x (hns x hx))]
      rfl
    · unfold attr.stringsContains
      rw [hs]
      exact svc_ref_no_pod n ns (fun x hx => nameChar_ne_dot x (hn x hx))
        (fun x hx => nameChar_ne_dot x (hns x hx))
    · intro c key rest labels
      rw [hv]
      exact envVarsLoop_svc c key _ _ rest labels hsegn hsegns

/-- Witness of C39: the reference `db.ns1.svc.cluster.local`. -/
theorem valid_reference_parse_witness :
    ∃ name ns : String, isSegment name ∧ isSegment ns ∧
      (∃ rest,
        attr.splitDot "db.ns1.svc.cluster.local".toList = name.toList :: ns.toList :: rest) ∧
      (("db.ns1.svc.cluster.local" = name ++ "." ++ ns ++ ".pod.cluster.local" ∧
          attr.stringsContains "db.ns1.svc.cluster.local" ".pod.cluster.local" = true ∧
          ∀ (c : Client) (key : String) (rest : List (String × String)) (labels : MultiLabels),
            attr.envVarsLoop c ((key, "db.ns1.svc.cluster.local") :: rest) labels =
              match c.getPod ns name with
              | .error .notFound => .error .attrErrResourceNotFound
              | .error (.other msg) =>
                .error (.wrap ("could not fetch pod " ++ name ++ ". ") (.external msg))
              | .ok podLabels => attr.envVarsLoop c rest (attr.appendLabels labels podLabels)) ∨
        ("db.ns1.svc.cluster.local" = name ++ "." ++ ns ++ ".svc.cluster.local" ∧
          attr.stringsContains "db.ns1.svc.cluster.local" ".pod.cluster.local" = false ∧
          ∀ (c : Client) (key : String) (rest : List (String × String)) (labels : MultiLabels),
            attr.envVarsLoop c ((key, "db.ns1.svc.cluster.local") :: rest) labels =
              match attr.getLabelsFromSvc c name ns with
              | .error e => .error e
              | .panic msg => .panic msg
              | .ok svcLabels =>
                attr.envVarsLoop c rest (attr.appendLabels labels svcLabels))) :=
  valid_reference_parse "db.ns1.svc.cluster.local" (by decide)

/-! ## ConvertToMeta on a nil pointer and on a nil selector -/

/-- C9 (the code at the failing input): namespace `ns1` lists the policy `allow-monitoring`,
whose only peer has a namespace selector and no pod selector; no listed policy matches the
labels `app: a` of the Pod `a`, nor the empty label set of the Pod `b`.  HandleDelete of either
Pod does not return NotFound: it panics in the lookup.  When the namespace lists the policy of
`a` after `allow-monitoring`, HandleDelete of `a` panics as well and issues no Delete call. -/
theorem HandleDelete_panics_on_namespace_peer :
    HandleDelete
      (Example.clusterWith
        [{ Name := "allow-monitoring"
           Namespace := "ns1"
           PodSelector := { MatchLabels := [], MatchExpressions := [] }
           Ingress := [[{ PodSelector := none
                          NamespaceSelector := some
                            { MatchLabels := [("team", "monitoring")], MatchExpressions := [] }
                          IPBlock := none }]]
           Egress := []
           PolicyTypes := ["Ingress"] }])
      Example.writeOk 0 (.workload (Example.pod "a" [("app", "a")])) =
      ⟨.panic "invalid memory address or nil pointer dereference", []⟩ ∧
    HandleDelete
      (Example.clusterWith
        [{ Name := "allow-monitoring"
           Namespace := "ns1"
           PodSelector := { MatchLabels := [], MatchExpressions := [] }
           Ingress := [[{ PodSelector := none
                          NamespaceSelector := some
                            { MatchLabels := [("team", "monitoring")], MatchExpressions := [] }
                          IPBlock := none }]]
           Egress := []
           PolicyTypes := ["Ingress"] }])
      Example.writeOk 0 (.workload (Example.pod "b" [])) =
      ⟨.panic "invalid memory address or nil pointer dereference", []⟩ ∧
    HandleDelete
      (Example.clusterWith
        [{ Name := "allow-monitoring"
           Namespace := "ns1"
           PodSelector := { MatchLabels := [], MatchExpressions := [] }
           Ingress := [[{ PodSelector := none
                          NamespaceSelector := some
                            { MatchLabels := [("team", "monitoring")], MatchExpressions := [] }
                          IPBlock := none }]]
           Egress := []
           PolicyTypes := ["Ingress"] },
         Example.policyDoc "a-ns1-netpol" [("app", "a")] [docPeer "app" ["a"]]])
      Example.writeOk 0 (.workload (Example.pod "a" [("app", "a")])) =
      ⟨.panic "invalid memory address or nil pointer dereference", []⟩ := by
  decide

/-! ## GetLabelsFromEnvVars, value by value -/

theorem appendLabels_getD_eq (src : Labels) (labels : MultiLabels) (k : String)
    (hwf : GoMap.WF src) :
    GoMap.getD (attr.appendLabels labels src) k [] =
      GoMap.getD labels k [] ++ (GoMap.get? src k).toList := by
  unfold attr.appendLabels
  induction src generalizing labels with
  | nil => simp [GoMap.get?]
  | cons e src ih =>
    obtain ⟨k0, v0⟩ := e
    have hwf' : GoMap.WF src := by
      simp only [GoMap.WF, GoMap.keys, List.map_cons, List.nodup_cons] at hwf
      exact hwf.2
    have hk0 : k0 ∉ GoMap.keys src := by
      simp only [GoMap.WF, GoMap.keys, List.map_cons, List.nodup_cons] at hwf
      exact hwf.1
    simp only [List.foldl_cons]
    rw [ih _ hwf']
    simp only [GoMap.appendTo, GoMap.getD_set, GoMap.get?]
    by_cases h0 : k0 = k
    · subst h0
      have hnone : GoMap.get? src k0 = none := (GoMap.get?_eq_none src k0).2 hk0
      simp [hnone]
    · simp [h0]

theorem envVarsLoop_lists (c : Client) (envVars : List (String × String))
    (targets : List Labels) (labels : MultiLabels)
    (hres : List.Forall₂ (fun kv l => c.resolves kv.2 l) envVars targets) :
    ∃ m, attr.envVarsLoop c envVars labels = .ok m ∧
      ∀ k, GoMap.getD m k [] =
        GoMap.getD labels k [] ++ targets.filterMap (fun l => GoMap.get? l k) := by
  induction hres generalizing labels with
  | nil => exact ⟨labels, rfl, by simp⟩
  | @cons kv l envVars targets hkv _ ih =>
    obtain ⟨key, value⟩ := kv
    obtain ⟨m, hm, hget⟩ := ih (attr.appendLabels labels l)
    refine ⟨m, by rw [envVarsLoop_resolves c key value envVars labels l hkv, hm], ?_⟩
    intro k
    rw [hget k, appendLabels_getD_eq l labels k hkv.1]
    cases hl : GoMap.get? l k <;> simp [List.filterMap_cons, hl]

/-- C27 (amended): for every non-empty mapping of env references that all resolve, the
reference at position `i` to an object with the labels `targets[i]`, GetLabelsFromEnvVars
returns a multimap in which the value list of a key `k` holds, in the order of the references,
the value under `k` of every target that carries `k`: one entry per such reference, so a value
carried by two targets is listed twice.  MergeLabels, through which HandleAdd and
handleEnvVarChange pass the result together with the converted direct labels, returns for it a
multimap in which no value list holds a value twice and which lists a value under a key exactly
when the direct labels or the returned multimap do. -/
theorem GetLabelsFromEnvVars_lists_per_reference (c : Client) (envVars : GoMap String String)
    (targets : List Labels) (hne : envVars ≠ [])
    (hres : List.Forall₂ (fun kv labels => c.resolves kv.2 labels) envVars targets) :
    ∃ m, attr.GetLabelsFromEnvVars c envVars = .ok m ∧
      (∀ k, GoMap.getD m k [] = targets.filterMap (fun labels => GoMap.get? labels k)) ∧
      ∀ objLabels : Labels,
        ∃ merged, attr.MergeLabels [attr.ConvertLabels objLabels, m] = .ok merged ∧
          (∀ kv ∈ merged, kv.2.Nodup) ∧
          ∀ k v, v ∈ GoMap.getD merged k [] ↔
            v ∈ GoMap.getD (attr.ConvertLabels objLabels) k [] ∨ v ∈ GoMap.getD m k [] := by
  have hlen : ¬ envVars.length = 0 := fun h0 => hne (List.length_eq_zero.1 h0)
  obtain ⟨m, hm, hget⟩ := envVarsLoop_lists c envVars targets [] hres
  have hm' : attr.GetLabelsFromEnvVars c envVars = .ok m := by
    simp only [attr.GetLabelsFromEnvVars, hlen, if_false, hm]
  have hwf : GoMap.WF m := GetLabelsFromEnvVars_WF c envVars m hm'
  have hmem : ∀ (t : MultiLabels), GoMap.WF t → ∀ k v,
      (∃ vs, (k, vs) ∈ t ∧ v ∈ vs) ↔ v ∈ GoMap.getD t k [] := by
    intro t ht k v
    constructor
    · rintro ⟨vs, h1, h2⟩
      simp only [GoMap.getD, GoMap.get?_of_mem t ht k vs h1]
      exact h2
    · intro h
      unfold GoMap.getD at h
      cases hg : GoMap.get? t k with
      | none => simp [hg] at h
      | some vs =>
        simp only [hg] at h
        exact ⟨vs, GoMap.mem_of_get? t k vs hg, h⟩
  refine ⟨m, hm', ?_, ?_⟩
  · intro k
    rw [hget k]
    simp [GoMap.getD, GoMap.get?]
  · intro objLabels
    refine ⟨_, MergeLabels_pair _ _, merged_values_nodup _ _, ?_⟩
    intro k v
    rw [mergeInto_getD, mergeInto_getD, hmem m hwf, hmem _ (ConvertLabels_WF objLabels)]
    simp [GoMap.getD, GoMap.get?]

/-- Witness of C27 (amended): the references to the Pods `a` and `b` of namespace `ns1`, both
labelled `app: test`. -/
theorem GetLabelsFromEnvVars_lists_per_reference_witness :
    ∃ m, attr.GetLabelsFromEnvVars Example.clusterTwoPods
        [("A", "a.ns1.pod.cluster.local"), ("B", "b.ns1.pod.cluster.local")] = .ok m ∧
      (∀ k, GoMap.getD m k [] =
        [[("app", "test")], [("app", "test")]].filterMap (fun labels => GoMap.get? labels k)) ∧
      ∀ objLabels : Labels,
        ∃ merged, attr.MergeLabels [attr.ConvertLabels objLabels, m] = .ok merged ∧
          (∀ kv ∈ merged, kv.2.Nodup) ∧
          ∀ k v, v ∈ GoMap.getD merged k [] ↔
            v ∈ GoMap.getD (attr.ConvertLabels objLabels) k [] ∨ v ∈ GoMap.getD m k [] :=
  GetLabelsFromEnvVars_lists_per_reference Example.clusterTwoPods
    [("A", "a.ns1.pod.cluster.local"), ("B", "b.ns1.pod.cluster.local")]
    [[("app", "test")], [("app", "test")]] (by decide)
    (.cons ⟨by decide, "a", "ns1", ⟨by decide, by decide⟩, ⟨by decide, by decide⟩,
        Or.inl ⟨rfl, rfl⟩⟩
      (.cons ⟨by decide, "b", "ns1", ⟨by decide, by decide⟩, ⟨by decide, by decide⟩,
          Or.inl ⟨rfl, rfl⟩⟩ .nil))

end

end NetpolCtrl
